import Mathlib

/-!
# A linear storage layer over a networked disk array (`mdadm.c`, `net.c`)

Shallow embedding of the address translator (`mdadm.c`) and of the packet
transport (`net.c`), followed by the properties established about them.

* Bytes are `Fin 256`; a C buffer is a function from index to byte.
* `uint32_t` / `uint16_t` / `int` values are natural numbers or integers, with
  an explicit `% 2 ^ 32` wherever the C arithmetic can wrap.
* The `read` / `write` system calls, the byte stream and the remote server
  form an explicit state (`Link`).  The loops of `nread` / `nwrite` may spin
  for ever, so every function that reaches them takes a bound `F` on the
  number of loop iterations and answers `none` when the bound is hit.
-/

namespace Mdadm

/-! ## Constants of `jbod.h` and `net.h` (headers not part of the sources) -/

/-- Modelled from the spec: number of disks of the array (`jbod.h`), "16 disks". -/
abbrev JBOD_NUM_DISKS : Nat := 16
/-- Modelled from the spec: bytes per block (`jbod.h`), "256 bytes/block". -/
abbrev JBOD_BLOCK_SIZE : Nat := 256
/-- Modelled from the spec: blocks per disk (`jbod.h`), "256 blocks/disk". -/
abbrev JBOD_NUM_BLOCKS_PER_DISK : Nat := 256
/-- Modelled from the spec: bytes per disk (`jbod.h`), blocks per disk times block size. -/
abbrev JBOD_DISK_SIZE : Nat := 65536
/-- Modelled from the spec: size of the packet header (`net.h`): 16-bit length,
32-bit descriptor, 16-bit status. -/
abbrev HEADER_LEN : Nat := 8

/-- Modelled from the spec: command codes of `jbod.h`, in the order of the device
command set (MOUNT, UNMOUNT, SEEK_TO_DISK, SEEK_TO_BLOCK, READ_BLOCK, WRITE_BLOCK,
SIGN_BLOCK). -/
abbrev JBOD_MOUNT : Nat := 0
/-- Modelled from the spec: command code of `jbod.h`. -/
abbrev JBOD_UNMOUNT : Nat := 1
/-- Modelled from the spec: command code of `jbod.h`. -/
abbrev JBOD_SEEK_TO_DISK : Nat := 2
/-- Modelled from the spec: command code of `jbod.h`. -/
abbrev JBOD_SEEK_TO_BLOCK : Nat := 3
/-- Modelled from the spec: command code of `jbod.h`. -/
abbrev JBOD_READ_BLOCK : Nat := 4
/-- Modelled from the spec: command code of `jbod.h`. -/
abbrev JBOD_WRITE_BLOCK : Nat := 5
/-- Modelled from the spec: command code of `jbod.h`. -/
abbrev JBOD_SIGN_BLOCK : Nat := 6

/-! ## Bytes and buffers -/

/-- One `uint8_t`. -/
abbrev Byte := Fin 256

/-- A C byte array seen from its base pointer. -/
abbrev Buf := Nat → Byte

/-- The byte holding the low eight bits of `n`. -/
def byteOf (n : Nat) : Byte := ⟨n % 256, Nat.mod_lt n (by decide)⟩

/-- Contents of a local array that has not been written yet.  C leaves them
unspecified; zero is used, and no property below depends on the choice. -/
def uninit : Buf := fun _ => 0

/-- The `n` bytes found at `&b[off]`. -/
def slice (b : Buf) (off n : Nat) : List Byte := (List.range n).map (fun i => b (off + i))

/-- The buffer `b` after the bytes `l` were stored at `&b[off]`. -/
def blit (b : Buf) (off : Nat) (l : List Byte) : Buf :=
  fun i => if off ≤ i ∧ i < off + l.length then l.getD (i - off) 0 else b i

/-- C `memcpy(&dst[doff], &src[soff], n)`. -/
def memcpy (dst : Buf) (doff : Nat) (src : Buf) (soff n : Nat) : Buf :=
  fun i => if doff ≤ i ∧ i < doff + n then src (soff + (i - doff)) else dst i

/-! ## Byte order -/

/-- Exchange of the two bytes of a 16-bit value. -/
def bswap16 (x : Nat) : Nat := (x % 256) * 256 + x / 256 % 256

/-- Reversal of the four bytes of a 32-bit value. -/
def bswap32 (x : Nat) : Nat :=
  (x % 256) * 16777216 + (x / 256 % 256) * 65536 + (x / 65536 % 256) * 256 + x / 16777216 % 256

/-- POSIX `htons` on a host that is little-endian (`le = true`) or big-endian. -/
def htons (le : Bool) (x : Nat) : Nat := if le then bswap16 x else x % 65536
/-- POSIX `htonl`. -/
def htonl (le : Bool) (x : Nat) : Nat := if le then bswap32 x else x % 4294967296
/-- POSIX `ntohs`. -/
def ntohs (le : Bool) (x : Nat) : Nat := if le then bswap16 x else x % 65536
/-- POSIX `ntohl`. -/
def ntohl (le : Bool) (x : Nat) : Nat := if le then bswap32 x else x % 4294967296

/-- C `memcpy(&b[p], &x, sizeof(uint16_t))`: the object representation of `x` in host order. -/
def storeU16 (le : Bool) (b : Buf) (p x : Nat) : Buf :=
  if le then blit b p [byteOf x, byteOf (x / 256)]
  else blit b p [byteOf (x / 256), byteOf x]

/-- C `memcpy(&b[p], &x, sizeof(uint32_t))`. -/
def storeU32 (le : Bool) (b : Buf) (p x : Nat) : Buf :=
  if le then blit b p [byteOf x, byteOf (x / 256), byteOf (x / 65536), byteOf (x / 16777216)]
  else blit b p [byteOf (x / 16777216), byteOf (x / 65536), byteOf (x / 256), byteOf x]

/-- C `memcpy(&x, &b[p], sizeof(uint16_t))`. -/
def loadU16 (le : Bool) (b : Buf) (p : Nat) : Nat :=
  if le then (b p).val + (b (p + 1)).val * 256
  else (b p).val * 256 + (b (p + 1)).val

/-- C `memcpy(&x, &b[p], sizeof(uint32_t))`. -/
def loadU32 (le : Bool) (b : Buf) (p : Nat) : Nat :=
  if le then (b p).val + (b (p + 1)).val * 256 + (b (p + 2)).val * 65536 + (b (p + 3)).val * 16777216
  else (b p).val * 16777216 + (b (p + 1)).val * 65536 + (b (p + 2)).val * 256 + (b (p + 3)).val

/-- Big-endian value of two bytes. -/
def be16 (b0 b1 : Byte) : Nat := b0.val * 256 + b1.val

/-- Big-endian value of four bytes. -/
def be32 (b0 b1 b2 b3 : Byte) : Nat :=
  b0.val * 16777216 + b1.val * 65536 + b2.val * 256 + b3.val

/-- The two bytes of a 16-bit value, most significant first. -/
def bytesBE16 (x : Nat) : List Byte := [byteOf (x / 256), byteOf x]

/-- The four bytes of a 32-bit value, most significant first. -/
def bytesBE32 (x : Nat) : List Byte :=
  [byteOf (x / 16777216), byteOf (x / 65536), byteOf (x / 256), byteOf x]

/-! ## The remote server and the byte stream -/

/-- Modelled from the spec: the remote device array, which is not part of the
sources.  A cursor (`disk`, `block`), the stored blocks, and the status codes the
server will put into its coming responses (`status`; once the list is used up
every request succeeds with status 0). -/
structure Jbod where
  disk : Nat
  block : Nat
  store : Nat → Nat → Nat → Byte
  status : List Nat

/-- Modelled from the spec: what the server does with one request.  The descriptor
is decoded as disk = bits 28..31, block = bits 20..27, command = bits 14..19.
SEEK_TO_DISK(d) puts the cursor at (d, 0); SEEK_TO_BLOCK(b) sets the cursor's
block; READ_BLOCK returns the block at the cursor and advances the block by one;
WRITE_BLOCK stores the payload at the cursor and advances the block by one.  A
request answered with a nonzero status changes nothing.  The result is the new
server state and the bytes of the response packet. -/
def Jbod.serve (j : Jbod) (op : Nat) (payload : List Byte) : Jbod × List Byte :=
  let st := j.status.headD 0
  let j := { j with status := j.status.tail }
  let cmd := (op >>> 14) &&& 0x3F
  let hdr (len : Nat) : List Byte := bytesBE16 len ++ bytesBE32 op ++ bytesBE16 st
  if st ≠ 0 then (j, hdr HEADER_LEN)
  else if cmd = JBOD_SEEK_TO_DISK then
    ({ j with disk := op >>> 28, block := 0 }, hdr HEADER_LEN)
  else if cmd = JBOD_SEEK_TO_BLOCK then
    ({ j with block := (op >>> 20) &&& 0xFF }, hdr HEADER_LEN)
  else if cmd = JBOD_READ_BLOCK then
    ({ j with block := j.block + 1 },
      hdr (HEADER_LEN + JBOD_BLOCK_SIZE) ++ slice (j.store j.disk j.block) 0 JBOD_BLOCK_SIZE)
  else if cmd = JBOD_WRITE_BLOCK then
    ({ j with
        block := j.block + 1,
        store := fun d b i => if d = j.disk ∧ b = j.block then payload.getD i 0 else j.store d b i },
      hdr HEADER_LEN)
  else (j, hdr HEADER_LEN)

/-- The connection of the client (`cli_sd`) with everything behind it: the byte
order of the client's host, the server, the request bytes the server has received
without yet having a whole packet (`pending`), the response bytes not yet read by
the client (`rx`), the results scripted for the coming `read` and `write` system
calls (an empty script means that the call transfers everything it was asked for),
and the descriptors handed to `jbod_client_operation` so far (`calls`, a record
kept for the properties, not a variable of the program). -/
structure Link where
  hostLE : Bool
  jbod : Jbod
  pending : List Byte
  rx : List Byte
  readRes : List Int
  writeRes : List Int
  calls : List Nat

/-- Modelled from the spec: the server side of the stream.  Bytes written by the
client are collected; once a whole request packet is there (header, and the
payload announced by its length field) the server executes it and its response is
queued for the client. -/
def deliver (l : Link) (bs : List Byte) : Link :=
  let p := l.pending ++ bs
  if p.length < HEADER_LEN then { l with pending := p }
  else
    let need := max HEADER_LEN (be16 (p.getD 0 0) (p.getD 1 0))
    if p.length < need then { l with pending := p }
    else
      let op := be32 (p.getD 2 0) (p.getD 3 0) (p.getD 4 0) (p.getD 5 0)
      let r := l.jbod.serve op ((p.take need).drop HEADER_LEN)
      { l with pending := p.drop need, jbod := r.1, rx := l.rx ++ r.2 }

/-- The `write(fd, p, n)` system call, `data` being the `n` bytes at `p`.  The
result is scripted by `writeRes`, or `n` when the script is empty; a positive
result moves that many bytes to the server. -/
def sys_write (l : Link) (data : List Byte) : Int × Link :=
  match l.writeRes with
  | [] => ((data.length : Int), deliver l data)
  | r :: rest =>
    if r ≤ 0 then (r, { l with writeRes := rest })
    else (r, deliver { l with writeRes := rest } (data.take r.toNat))

/-- The `read(fd, p, n)` system call.  The result is scripted by `readRes`, or is
the number of bytes available up to `n` when the script is empty (0 when the
stream holds nothing); a positive result hands over that many bytes of the
stream. -/
def sys_read (l : Link) (n : Int) : Int × List Byte × Link :=
  match l.readRes with
  | [] =>
    let k := min n.toNat l.rx.length
    ((k : Int), l.rx.take k, { l with rx := l.rx.drop k })
  | r :: rest =>
    if r ≤ 0 then (r, [], { l with readRes := rest })
    else (r, l.rx.take r.toNat, { l with readRes := rest, rx := l.rx.drop r.toNat })

/-! ## `net.c` -/

/-- The loop of `nread`, `numRead` being its counter.  `none`: still looping after
`F` iterations. -/
def nreadLoop : Nat → Link → Int → Buf → Int → Option (Bool × Link × Buf)
  | 0, _, _, _, _ => none
  | F + 1, l, len, buf, numRead =>
    if numRead < len then
      let r := sys_read l (len - numRead)
      nreadLoop F r.2.2 len (blit buf numRead.toNat r.2.1) (numRead + r.1)
    else if numRead > len then some (false, l, buf)
    else some (true, l, buf)

/-- `nread(fd, len, buf)`. -/
def nread (F : Nat) (l : Link) (len : Int) (buf : Buf) : Option (Bool × Link × Buf) :=
  nreadLoop F l len buf 0

/-- The loop of `nwrite`, `numWritten` being its counter. -/
def nwriteLoop : Nat → Link → Int → Buf → Int → Option (Bool × Link)
  | 0, _, _, _, _ => none
  | F + 1, l, len, buf, numWritten =>
    if numWritten < len then
      let r := sys_write l (slice buf numWritten.toNat (len - numWritten).toNat)
      nwriteLoop F r.2 len buf (numWritten + r.1)
    else if numWritten > len then some (false, l)
    else some (true, l)

/-- `nwrite(fd, len, buf)`. -/
def nwrite (F : Nat) (l : Link) (len : Int) (buf : Buf) : Option (Bool × Link) :=
  nwriteLoop F l len buf 0

/-- The staging buffer `packet` that `send_packet` fills, and the length
`hLength` it passes to `nwrite`.  A NULL `block` is never dereferenced by the
callers in `mdadm.c` (they pass one with every WRITE_BLOCK); it is read as
`uninit` here. -/
def send_packet_buf (le : Bool) (op : Nat) (block : Option Buf) : Nat × Buf :=
  let hLength := HEADER_LEN
  let command := (op >>> 14) &&& 0x3F
  let hLength := if command = JBOD_WRITE_BLOCK then hLength + JBOD_BLOCK_SIZE else hLength
  let hReturnCode := 0
  let nLength := htons le hLength
  let nReturnCode := htons le hReturnCode
  let nOp := htonl le op
  let packet : Buf := uninit
  let placeholder := 0
  let packet := storeU16 le packet placeholder nLength
  let placeholder := placeholder + 2
  let packet := storeU32 le packet placeholder nOp
  let placeholder := placeholder + 4
  let packet := storeU16 le packet placeholder nReturnCode
  let placeholder := placeholder + 2
  let packet :=
    if hLength > HEADER_LEN then memcpy packet placeholder (block.getD uninit) 0 JBOD_BLOCK_SIZE
    else packet
  (hLength, packet)

/-- `send_packet(sd, op, block)`. -/
def send_packet (F : Nat) (l : Link) (op : Nat) (block : Option Buf) : Option (Bool × Link) :=
  let p := send_packet_buf l.hostLE op block
  nwrite F l (p.1 : Int) p.2

/-- Result of `recv_packet`: its return value, the values left in `*op` and
`*ret`, the caller's block and the connection. -/
structure Recv where
  ok : Bool
  op : Nat
  ret : Nat
  block : Option Buf
  link : Link

/-- `recv_packet(sd, &op, &ret, block)`; `op0` and `ret0` are the values of `*op`
and `*ret` on entry.  A payload received while `block` is NULL is dropped. -/
def recv_packet (F : Nat) (l : Link) (op0 ret0 : Nat) (block : Option Buf) : Option Recv :=
  match nread F l (HEADER_LEN : Int) uninit with
  | none => none
  | some (readReturn, l, header) =>
    if !readReturn then some ⟨false, op0, ret0, block, l⟩
    else
      let le := l.hostLE
      let placeholder := 0
      let len := ntohs le (loadU16 le header placeholder)
      let placeholder := placeholder + 2
      let op := ntohl le (loadU32 le header placeholder)
      let placeholder := placeholder + 4
      let ret := ntohs le (loadU16 le header placeholder)
      let command := (op >>> 14) &&& 0x3F
      if len > HEADER_LEN ∧ (command = JBOD_READ_BLOCK ∨ command = JBOD_SIGN_BLOCK) then
        match nread F l (JBOD_BLOCK_SIZE : Int) uninit with
        | none => none
        | some (readReturn, l, blockPacket) =>
          if !readReturn then some ⟨false, op, ret, block, l⟩
          else some ⟨true, op, ret, block.map (fun b => memcpy b 0 blockPacket 0 JBOD_BLOCK_SIZE), l⟩
      else some ⟨true, op, ret, block, l⟩

/-- `jbod_client_operation(op, block)`: the C `int` it returns, the caller's block
and the connection.  The `bool` expression `recvCheck && (ret == 0)` is returned
as an `int`, that is 1 or 0. -/
def jbod_client_operation (F : Nat) (l : Link) (op : Nat) (block : Option Buf) :
    Option (Int × Option Buf × Link) :=
  let l := { l with calls := l.calls ++ [op] }
  match send_packet F l op block with
  | none => none
  | some (sendCheck, l) =>
    if !sendCheck then some (-1, block, l)
    else
      let ret := 0
      match recv_packet F l op ret block with
      | none => none
      | some r => some (if r.ok && r.ret == 0 then 1 else 0, r.block, r.link)

/-! ## The cache (`cache.h`, an external collaborator) -/

/-- Modelled from the spec: the block cache, which is not part of the sources.  A
store from (disk, block) to a block image, a switch, and the number of calls made
to its four operations (a record kept for the properties). -/
structure Cache where
  enabled : Bool
  entry : Nat → Nat → Option Buf
  calls : Nat

/-- Modelled from the spec: `cache_enabled()`. -/
def cache_enabled (c : Cache) : Bool × Cache :=
  (c.enabled, { c with calls := c.calls + 1 })

/-- Modelled from the spec: `cache_lookup(disk, block, buf)` returns a hit (1) and
copies the image last stored for the key into `buf`, or returns -1 (miss) when none
was stored. -/
def cache_lookup (c : Cache) (disk block : Nat) (buf : Buf) : Int × Buf × Cache :=
  match c.entry disk block with
  | some img => (1, memcpy buf 0 img 0 JBOD_BLOCK_SIZE, { c with calls := c.calls + 1 })
  | none => (-1, buf, { c with calls := c.calls + 1 })

/-- Modelled from the spec: `cache_insert(disk, block, buf)` stores the image under the key. -/
def cache_insert (c : Cache) (disk block : Nat) (buf : Buf) : Cache :=
  { c with
    entry := fun d b => if d = disk ∧ b = block then some (memcpy uninit 0 buf 0 JBOD_BLOCK_SIZE)
                        else c.entry d b,
    calls := c.calls + 1 }

/-- Modelled from the spec: `cache_update(disk, block, buf)` stores the image under the key. -/
def cache_update (c : Cache) (disk block : Nat) (buf : Buf) : Cache :=
  { c with
    entry := fun d b => if d = disk ∧ b = block then some (memcpy uninit 0 buf 0 JBOD_BLOCK_SIZE)
                        else c.entry d b,
    calls := c.calls + 1 }

/-! ## `mdadm.c` -/

/-- The state the functions of `mdadm.c` work on: the static flag `isMounted`, the
cache and the connection. -/
structure State where
  isMounted : Bool
  cache : Cache
  link : Link

/-- `encode(diskID, blockID, command, reserved)`.  The arguments are C `int`s that
the callers never make negative; the shifts are taken modulo 2 ^ 32, the width of
the `uint32_t` they are assigned to. -/
def encode (diskID blockID command reserved : Nat) : Nat :=
  let tempa := reserved &&& 0xff
  let tempb := ((command &&& 0xff) <<< 14) % 4294967296
  let tempc := ((blockID &&& 0xff) <<< 20) % 4294967296
  let tempd := ((diskID &&& 0xff) <<< 28) % 4294967296
  tempa ||| tempb ||| tempc ||| tempd

/-- A call of `jbod_client_operation` made from `mdadm.c`: the returned `int`, the
block and the state with the connection as the call left it. -/
def State.jbod (F : Nat) (st : State) (op : Nat) (block : Option Buf) :
    Option (Int × Option Buf × State) :=
  match jbod_client_operation F st.link op block with
  | none => none
  | some r => some (r.1, r.2.1, { st with link := r.2.2 })

/-- `mdadm_mount()`. -/
def mdadm_mount (F : Nat) (st : State) : Option (Int × State) :=
  if !st.isMounted then
    let st := { st with isMounted := true }
    let op := encode 0 0 JBOD_MOUNT 0
    match st.jbod F op none with
    | none => none
    | some r => some (1, r.2.2)
  else some (-1, st)

/-- `mdadm_unmount()`. -/
def mdadm_unmount (F : Nat) (st : State) : Option (Int × State) :=
  if st.isMounted then
    let st := { st with isMounted := false }
    let op := encode 0 0 JBOD_UNMOUNT 0
    match st.jbod F op none with
    | none => none
    | some r => some (1, r.2.2)
  else some (-1, st)

/-- `inputCheck(addr, len, isNull)`, true for an invalid input.  `addr + len` is a
`uint32_t` sum and wraps; `addr < 0` and `len < 0` never hold for unsigned values. -/
def inputCheck (addr len : Nat) (isNull : Bool) : Bool :=
  let invalidInput := false
  let invalidInput :=
    if (addr + len) % 4294967296 > JBOD_DISK_SIZE * JBOD_NUM_DISKS ∨ len > 1024 then true
    else invalidInput
  let invalidInput := if isNull && len != 0 then true else invalidInput
  invalidInput

/-- Values of the locals after the block-fetch sequence of `mdadm_read`. -/
structure Fetch where
  st : State
  buffer : Buf
  seekBlockCheck : Int
  readBlockCheck : Int

/-- The block-fetch sequence that `mdadm_read` contains three times (lines 126-148,
197-219 and 244-266): with the cache enabled, look the block up and on a miss read
it from the device and insert it, on a hit seek to `blockID + 1`; with the cache
disabled read it from the device. -/
def fetchBlock (F : Nat) (st : State) (diskID blockID : Nat) (buffer : Buf)
    (seekBlockCheck readBlockCheck : Int) : Option Fetch :=
  let op := encode 0 0 JBOD_READ_BLOCK 0
  let en := cache_enabled st.cache
  let st := { st with cache := en.2 }
  if en.1 then
    let lk := cache_lookup st.cache diskID blockID buffer
    let readCacheCheck := lk.1
    let buffer := lk.2.1
    let st := { st with cache := lk.2.2 }
    if readCacheCheck = -1 then
      match st.jbod F op (some buffer) with
      | none => none
      | some r =>
        let buffer := r.2.1.getD buffer
        let st := r.2.2
        some ⟨{ st with cache := cache_insert st.cache diskID blockID buffer }, buffer,
          seekBlockCheck, r.1⟩
    else
      let op := encode 0 (blockID + 1) JBOD_SEEK_TO_BLOCK 0
      match st.jbod F op none with
      | none => none
      | some r => some ⟨r.2.2, buffer, r.1, readBlockCheck⟩
  else
    match st.jbod F op (some buffer) with
    | none => none
    | some r => some ⟨r.2.2, r.2.1.getD buffer, seekBlockCheck, r.1⟩

/-- The `while (remainingReadLen > 0)` loop of `mdadm_read`; the first argument
bounds the number of iterations (`len` is enough, every iteration consumes a byte).
The sums compared with `endOfDisk` are `uint32_t` sums.  `seekBlockCheck` is assigned
but never read inside the loop, so the fetch sequence is handed 0 for it.  The final
`else if` of the source tests the negation of the test before it and is an `else`
here.  The result is the returned `int`, the state and the caller's buffer. -/
def readLoop : Nat → Nat → State → Nat → Nat → Buf → Nat → Nat → Nat → Nat → Nat → Buf → Int →
    Option (Int × State × Buf)
  | 0, _, st, _, len, buf, _, _, _, remainingReadLen, _, _, _ =>
    if remainingReadLen > 0 then none else some ((len : Int), st, buf)
  | n + 1, F, st, addr, len, buf, diskID, blockID, currentAddr, remainingReadLen, numRead,
      buffer, readBlockCheck =>
    if remainingReadLen > 0 then
      let endOfDisk := (diskID + 1) * (JBOD_BLOCK_SIZE * JBOD_NUM_BLOCKS_PER_DISK) - 1
      if (addr + numRead + remainingReadLen) % 4294967296 > endOfDisk % 4294967296
          ∧ currentAddr + remainingReadLen > JBOD_BLOCK_SIZE
          ∧ blockID = JBOD_NUM_BLOCKS_PER_DISK - 1 then
        let buf := memcpy buf numRead buffer currentAddr (JBOD_BLOCK_SIZE - currentAddr)
        let remainingReadLen := remainingReadLen - (JBOD_BLOCK_SIZE - currentAddr)
        let numRead := numRead + (JBOD_BLOCK_SIZE - currentAddr)
        let currentAddr := 0
        let diskID := diskID + 1
        let blockID := 0
        let op := encode diskID 0 JBOD_SEEK_TO_DISK 0
        match st.jbod F op none with
        | none => none
        | some r =>
          let seekDiskCheck := r.1
          match fetchBlock F r.2.2 diskID blockID buffer 0 readBlockCheck with
          | none => none
          | some f =>
            if seekDiskCheck = -1 ∨ f.readBlockCheck = -1 then some (-1, f.st, buf)
            else readLoop n F f.st addr len buf diskID blockID currentAddr remainingReadLen
              numRead f.buffer f.readBlockCheck
      else if currentAddr + remainingReadLen > JBOD_BLOCK_SIZE then
        let buf := memcpy buf numRead buffer currentAddr (JBOD_BLOCK_SIZE - currentAddr)
        let remainingReadLen := remainingReadLen - (JBOD_BLOCK_SIZE - currentAddr)
        let numRead := numRead + (JBOD_BLOCK_SIZE - currentAddr)
        let currentAddr := 0
        match fetchBlock F st diskID blockID buffer 0 readBlockCheck with
        | none => none
        | some f =>
          if f.readBlockCheck = -1 then some (-1, f.st, buf)
          else
            let blockID := blockID + 1
            readLoop n F f.st addr len buf diskID blockID currentAddr remainingReadLen
              numRead f.buffer f.readBlockCheck
      else
        let buf := memcpy buf numRead buffer currentAddr remainingReadLen
        let remainingReadLen := 0
        readLoop n F st addr len buf diskID blockID currentAddr remainingReadLen numRead
          buffer readBlockCheck
    else some ((len : Int), st, buf)

/-- `mdadm_read(addr, len, buf)`: the returned `int`, the state and the caller's
buffer (`none` for a NULL pointer). -/
def mdadm_read (F : Nat) (st : State) (addr len : Nat) (buf : Option Buf) :
    Option (Int × State × Option Buf) :=
  let isNull := buf.isNone
  let invalidInput := inputCheck addr len isNull
  if invalidInput || !st.isMounted then some (-1, st, buf)
  else
    let diskID := addr / JBOD_DISK_SIZE
    let blockID := (addr - diskID * JBOD_DISK_SIZE) / JBOD_BLOCK_SIZE
    match st.jbod F (encode diskID 0 JBOD_SEEK_TO_DISK 0) none with
    | none => none
    | some r1 =>
      let seekDiskCheck := r1.1
      match r1.2.2.jbod F (encode 0 blockID JBOD_SEEK_TO_BLOCK 0) none with
      | none => none
      | some r2 =>
        let seekBlockCheck := r2.1
        match fetchBlock F r2.2.2 diskID blockID uninit seekBlockCheck 0 with
        | none => none
        | some f =>
          if seekDiskCheck = -1 ∨ f.seekBlockCheck = -1 ∨ f.readBlockCheck = -1 then
            some (-1, f.st, buf)
          else
            let remainingReadLen := len
            let startAddrOfBlock :=
              diskID * JBOD_NUM_BLOCKS_PER_DISK * JBOD_BLOCK_SIZE + blockID * JBOD_BLOCK_SIZE
            let currentAddr := addr - startAddrOfBlock
            let numRead := 0
            match readLoop len F f.st addr len (buf.getD uninit) diskID blockID currentAddr
                remainingReadLen numRead f.buffer f.readBlockCheck with
            | none => none
            | some r => some (r.1, r.2.1, buf.map (fun _ => r.2.2))

/-- The cache-store sequence that `mdadm_write` contains three times (lines
374-388, 421-435 and 459-473): with the cache enabled, look the block up into a
scratch buffer, insert the new image on a miss and update it on a hit. -/
def cacheStore (st : State) (diskID blockID : Nat) (buffer : Buf) : State :=
  let en := cache_enabled st.cache
  let st := { st with cache := en.2 }
  if en.1 then
    let tempBuffer := uninit
    let lk := cache_lookup st.cache diskID blockID tempBuffer
    let readCacheCheck := lk.1
    let st := { st with cache := lk.2.2 }
    if readCacheCheck = -1 then { st with cache := cache_insert st.cache diskID blockID buffer }
    else { st with cache := cache_update st.cache diskID blockID buffer }
  else st

/-- The `while (remainingReadLen > 0)` loop of `mdadm_write`; the first argument
bounds the number of iterations (`len` is enough).  `buf` is the caller's data.
A call that does not return (`none`) ends the evaluation (`Option.bind`).  The final
`else if` of the source tests the negation of the test before it and is an `else`
here. -/
def writeLoop : Nat → Nat → State → Nat → Buf → Nat → Nat → Nat → Nat → Nat → Buf →
    Option (Int × State)
  | 0, _, st, len, _, _, _, _, remainingReadLen, _, _ =>
    if remainingReadLen > 0 then none else some ((len : Int), st)
  | n + 1, F, st, len, buf, diskID, blockID, currentAddr, remainingReadLen, numRead, buffer =>
    if remainingReadLen > 0 then
      let startAddrOfBlock :=
        diskID * JBOD_NUM_BLOCKS_PER_DISK * JBOD_BLOCK_SIZE + blockID * JBOD_BLOCK_SIZE
      (st.jbod F (encode 0 blockID JBOD_SEEK_TO_BLOCK 0) none).bind fun r0 =>
        let seekBlockCheck := r0.1
        let st := r0.2.2
        let op := encode 0 0 JBOD_WRITE_BLOCK 0
        if seekBlockCheck = -1 then some (-1, st)
        else if currentAddr + remainingReadLen > JBOD_BLOCK_SIZE
            ∧ blockID = JBOD_NUM_BLOCKS_PER_DISK - 1 then
          let buffer := memcpy buffer currentAddr buf numRead (JBOD_BLOCK_SIZE - currentAddr)
          let remainingReadLen := remainingReadLen - (JBOD_BLOCK_SIZE - currentAddr)
          let numRead := numRead + (JBOD_BLOCK_SIZE - currentAddr)
          let currentAddr := 0
          let st := cacheStore st diskID blockID buffer
          (st.jbod F op (some buffer)).bind fun r1 =>
            let writeBlockCheck := r1.1
            let buffer := r1.2.1.getD buffer
            let diskID := diskID + 1
            let blockID := 0
            (r1.2.2.jbod F (encode diskID 0 JBOD_SEEK_TO_DISK 0) none).bind fun r2 =>
              let seekDiskCheck := r2.1
              (mdadm_read F r2.2.2 (startAddrOfBlock + JBOD_BLOCK_SIZE) JBOD_BLOCK_SIZE
                  (some buffer)).bind fun r3 =>
                let readBlockCheck := r3.1
                let buffer := r3.2.2.getD buffer
                if seekDiskCheck = -1 ∨ writeBlockCheck = -1 ∨ readBlockCheck = -1 then
                  some (-1, r3.2.1)
                else writeLoop n F r3.2.1 len buf diskID blockID currentAddr remainingReadLen
                  numRead buffer
        else if currentAddr + remainingReadLen > JBOD_BLOCK_SIZE then
          let buffer := memcpy buffer currentAddr buf numRead (JBOD_BLOCK_SIZE - currentAddr)
          let remainingReadLen := remainingReadLen - (JBOD_BLOCK_SIZE - currentAddr)
          let numRead := numRead + (JBOD_BLOCK_SIZE - currentAddr)
          let currentAddr := 0
          let st := cacheStore st diskID blockID buffer
          (st.jbod F op (some buffer)).bind fun r1 =>
            let writeBlockCheck := r1.1
            let buffer := r1.2.1.getD buffer
            (mdadm_read F r1.2.2 (startAddrOfBlock + JBOD_BLOCK_SIZE) JBOD_BLOCK_SIZE
                (some buffer)).bind fun r3 =>
              let readBlockCheck := r3.1
              let buffer := r3.2.2.getD buffer
              let blockID := blockID + 1
              if writeBlockCheck = -1 ∨ readBlockCheck = -1 then some (-1, r3.2.1)
              else writeLoop n F r3.2.1 len buf diskID blockID currentAddr remainingReadLen
                numRead buffer
        else
          let buffer := memcpy buffer currentAddr buf numRead remainingReadLen
          let st := cacheStore st diskID blockID buffer
          (st.jbod F op (some buffer)).bind fun r1 =>
            let writeBlockCheck := r1.1
            let buffer := r1.2.1.getD buffer
            let numRead := numRead + remainingReadLen
            let remainingReadLen := 0
            if writeBlockCheck = -1 then some (-1, r1.2.2)
            else writeLoop n F r1.2.2 len buf diskID blockID currentAddr remainingReadLen
              numRead buffer
    else some ((len : Int), st)

/-- `mdadm_write(addr, len, buf)`: the returned `int` and the state. -/
def mdadm_write (F : Nat) (st : State) (addr len : Nat) (buf : Option Buf) :
    Option (Int × State) :=
  let isNull := buf.isNone
  let invalidInput := inputCheck addr len isNull
  if invalidInput || !st.isMounted then some (-1, st)
  else
    let diskID := addr / JBOD_DISK_SIZE
    let blockID := (addr - diskID * JBOD_DISK_SIZE) / JBOD_BLOCK_SIZE
    match st.jbod F (encode diskID 0 JBOD_SEEK_TO_DISK 0) none with
    | none => none
    | some r1 =>
      let seekDiskCheck := r1.1
      match r1.2.2.jbod F (encode 0 blockID JBOD_SEEK_TO_BLOCK 0) none with
      | none => none
      | some r2 =>
        let seekBlockCheck := r2.1
        let startAddrOfBlock :=
          diskID * JBOD_NUM_BLOCKS_PER_DISK * JBOD_BLOCK_SIZE + blockID * JBOD_BLOCK_SIZE
        let currentAddr := addr - startAddrOfBlock
        let buffer := uninit
        match mdadm_read F r2.2.2 startAddrOfBlock JBOD_BLOCK_SIZE (some buffer) with
        | none => none
        | some r3 =>
          let readBlockCheck := r3.1
          let buffer := r3.2.2.getD buffer
          let numRead := 0
          let remainingReadLen := len
          if seekDiskCheck = -1 ∨ seekBlockCheck = -1 ∨ readBlockCheck = -1 then
            some (-1, r3.2.1)
          else
            writeLoop len F r3.2.1 len (buf.getD uninit) diskID blockID currentAddr
              remainingReadLen numRead buffer

/-! ## Notions used to state the properties -/

/-- The header part of a packet: length, descriptor and status, each most
significant byte first. -/
def headerBytes (len op ret : Nat) : List Byte := bytesBE16 len ++ bytesBE32 op ++ bytesBE16 ret

/-- A connection with nothing in flight, no scripted system-call result and a
server that answers every request with status 0. -/
def Good (l : Link) : Prop :=
  l.pending = [] ∧ l.rx = [] ∧ l.readRes = [] ∧ l.writeRes = [] ∧ l.jbod.status = []

/-- The server state after a request executed with status 0. -/
def Jbod.exec (j : Jbod) (op : Nat) (payload : List Byte) : Jbod :=
  let cmd := (op >>> 14) &&& 0x3F
  if cmd = JBOD_SEEK_TO_DISK then { j with disk := op >>> 28, block := 0 }
  else if cmd = JBOD_SEEK_TO_BLOCK then { j with block := (op >>> 20) &&& 0xFF }
  else if cmd = JBOD_READ_BLOCK then { j with block := j.block + 1 }
  else if cmd = JBOD_WRITE_BLOCK then
    { j with
      block := j.block + 1,
      store := fun d b i => if d = j.disk ∧ b = j.block then payload.getD i 0 else j.store d b i }
  else j

/-- The state after an exchange that went through. -/
def State.exchange (st : State) (op : Nat) (payload : List Byte) : State :=
  { st with link := { st.link with jbod := st.link.jbod.exec op payload,
                                   calls := st.link.calls ++ [op] } }

/-- The state after SEEK_TO_DISK(d) went through. -/
def State.seekDisk (st : State) (d : Nat) : State :=
  { st with link := { st.link with jbod := { st.link.jbod with disk := d, block := 0 },
                                   calls := st.link.calls ++ [encode d 0 JBOD_SEEK_TO_DISK 0] } }

/-- The state after SEEK_TO_BLOCK(b) went through. -/
def State.seekBlock (st : State) (b : Nat) : State :=
  { st with link := { st.link with jbod := { st.link.jbod with block := b % 256 },
                                   calls := st.link.calls ++ [encode 0 b JBOD_SEEK_TO_BLOCK 0] } }

/-- The state after READ_BLOCK went through. -/
def State.readBlock (st : State) : State :=
  { st with link := { st.link with jbod := { st.link.jbod with block := st.link.jbod.block + 1 },
                                   calls := st.link.calls ++ [encode 0 0 JBOD_READ_BLOCK 0] } }

/-- The state after WRITE_BLOCK of the image `buffer` went through. -/
def State.writeBlock (st : State) (buffer : Buf) : State :=
  { st with link := { st.link with
      jbod := { st.link.jbod with
        block := st.link.jbod.block + 1,
        store := fun d b i =>
          if d = st.link.jbod.disk ∧ b = st.link.jbod.block then (slice buffer 0 256).getD i 0
          else st.link.jbod.store d b i },
      calls := st.link.calls ++ [encode 0 0 JBOD_WRITE_BLOCK 0] } }

/-- The byte stored at linear address `a`. -/
def mem (store : Nat → Nat → Nat → Byte) (a : Nat) : Byte :=
  store (a / JBOD_DISK_SIZE) (a % JBOD_DISK_SIZE / JBOD_BLOCK_SIZE) (a % JBOD_BLOCK_SIZE)

/-- The state after a call of `cache_enabled`. -/
def State.tick (st : State) : State :=
  { st with cache := { st.cache with calls := st.cache.calls + 1 } }

/-- What a read leaves untouched: the connection is quiet again, and the mount
flag, the cache switch, the cache entries and the stored blocks are the same. -/
def ReadRel (st st' : State) : Prop :=
  Good st'.link ∧ st'.isMounted = st.isMounted ∧ st'.cache.enabled = st.cache.enabled
    ∧ st'.cache.entry = st.cache.entry ∧ st'.link.jbod.store = st.link.jbod.store

/-! ## Sample inputs -/

/-- A device content in which neighbouring bytes, blocks and disks differ. -/
def demoStore : Nat → Nat → Nat → Byte := fun d b i => byteOf (d + 3 * b + 5 * i)

/-- A quiet connection to a server holding `demoStore`, cursor at (0, 0). -/
def demoLink : Link := ⟨true, ⟨0, 0, demoStore, []⟩, [], [], [], [], []⟩

/-- A state over `demoLink` with the given mount flag and cache switch, the cache empty. -/
def demoState (mounted cacheOn : Bool) : State := ⟨mounted, ⟨cacheOn, fun _ _ => none, 0⟩, demoLink⟩

/-- Caller data whose bytes differ from one block to the next. -/
def demoData : Buf := fun i => byteOf (i / 256 + 7 * i + 1)

/-- A connection like `demoLink` whose server answers its next `n` requests with
status 1 (a failure). -/
def failLink (n : Nat) : Link := ⟨true, ⟨0, 0, demoStore, List.replicate n 1⟩, [], [], [], [], []⟩

/-- A mounted state, cache disabled, over `failLink n`. -/
def failState (n : Nat) : State := ⟨true, ⟨false, fun _ _ => none, 0⟩, failLink n⟩

/-- `mdadm_write(addr, len, data)` followed by `mdadm_read(addr, len, buf)`: the two
returned values and the byte found in `buf[i]`. -/
def readBack (st : State) (addr len : Nat) (data : Buf) (i : Nat) : Option (Int × Int × Byte) :=
  (mdadm_write 2 st addr len (some data)).bind fun w =>
    (mdadm_read 2 w.2 addr len (some uninit)).map fun r => (w.1, r.1, (r.2.2.getD uninit) i)

/-- The state at program start: `static bool isMounted = false`. -/
def State.init (c : Cache) (l : Link) : State := ⟨false, c, l⟩

/-- The values `mdadm_read` and `mdadm_write` give their locals `diskID`, `blockID`
and `currentAddr` before the loop (lines 111-112 and 161-163, 304-305 and 314-316):
`diskID = addr / JBOD_DISK_SIZE`,
`blockID = (addr - diskID * JBOD_DISK_SIZE) / JBOD_BLOCK_SIZE`,
`currentAddr = addr - startAddrOfBlock` with `startAddrOfBlock =
diskID * JBOD_NUM_BLOCKS_PER_DISK * JBOD_BLOCK_SIZE + blockID * JBOD_BLOCK_SIZE`. -/
def locate (addr : Nat) : Nat × Nat × Nat :=
  let diskID := addr / JBOD_DISK_SIZE
  let blockID := (addr - diskID * JBOD_DISK_SIZE) / JBOD_BLOCK_SIZE
  let startAddrOfBlock :=
    diskID * JBOD_NUM_BLOCKS_PER_DISK * JBOD_BLOCK_SIZE + blockID * JBOD_BLOCK_SIZE
  let currentAddr := addr - startAddrOfBlock
  (diskID, blockID, currentAddr)

/-! ## Partial transfers -/

/-- The scripted results met while `n` bytes are still requested are all positive
and at most the number of bytes still requested. -/
def chunked : List Int → Nat → Bool
  | [], _ => true
  | r :: rest, n => n == 0 || (decide (0 < r) && decide (r ≤ (n : Int)) && chunked rest (n - r.toNat))

/-- The scripted results left over once `n` bytes have been transferred. -/
def unused : List Int → Nat → List Int
  | [], _ => []
  | r :: rest, n => if n = 0 then r :: rest else unused rest (n - r.toNat)

/-- The pieces in which `data` goes out when the `write` calls return the scripted
results, and everything that is left once the script is used up. -/
def chunksOf : List Int → List Byte → List (List Byte)
  | [], data => if data = [] then [] else [data]
  | r :: rest, data =>
    if data = [] then [] else data.take r.toNat :: chunksOf rest (data.drop r.toNat)

/-- The connection after one `write` call has put the piece `c` on the stream. -/
def put (l : Link) (c : List Byte) : Link := deliver { l with writeRes := l.writeRes.tail } c

/-- A connection at end of stream: nothing to read and no scripted result, so every
`read` returns 0. -/
def eofLink : Link := ⟨true, ⟨0, 0, demoStore, []⟩, [], [], [], [], []⟩

/-- A connection holding `bytes` for the client, whose coming `read` and `write`
calls return the scripted results. -/
def scriptLink (bytes : List Byte) (readRes writeRes : List Int) : Link :=
  ⟨true, ⟨0, 0, demoStore, []⟩, [], bytes, readRes, writeRes, []⟩

/-! ## Sequences of transport calls -/

/-- The descriptor sequences of `mdadm_read` for the one whole block `b` of disk `d`:
the two seeks and then READ_BLOCK (cache disabled, or a miss) or, on a cache hit,
SEEK_TO_BLOCK(b + 1). -/
def readBlockTraces (d b : Nat) : List (List Nat) :=
  [[encode d 0 JBOD_SEEK_TO_DISK 0, encode 0 b JBOD_SEEK_TO_BLOCK 0,
      encode 0 0 JBOD_READ_BLOCK 0],
    [encode d 0 JBOD_SEEK_TO_DISK 0, encode 0 b JBOD_SEEK_TO_BLOCK 0,
      encode 0 (b + 1) JBOD_SEEK_TO_BLOCK 0]]

/-- The descriptor sequences of the loop of `mdadm_write` entered with `diskID = d`,
`blockID = b`, `currentAddr = ca` and `remainingReadLen = rem`, every call going
through.  Each iteration seeks its block and writes it, and reads the next block
if the range goes on. -/
def writeLoopTraces : Nat → Nat → Nat → Nat → Nat → List (List Nat)
  | 0, _, _, _, _ => [[]]
  | n + 1, d, b, ca, rem =>
    if rem = 0 then [[]]
    else if ca + rem > 256 ∧ b = 255 then
      (readBlockTraces (d + 1) 0).flatMap fun r =>
        (writeLoopTraces n (d + 1) 0 0 (rem - (256 - ca))).map fun t =>
          [encode 0 b JBOD_SEEK_TO_BLOCK 0, encode 0 0 JBOD_WRITE_BLOCK 0,
            encode (d + 1) 0 JBOD_SEEK_TO_DISK 0] ++ r ++ t
    else if ca + rem > 256 then
      (readBlockTraces d (b + 1)).flatMap fun r =>
        (writeLoopTraces n d (b + 1) 0 (rem - (256 - ca))).map fun t =>
          [encode 0 b JBOD_SEEK_TO_BLOCK 0, encode 0 0 JBOD_WRITE_BLOCK 0] ++ r ++ t
    else [[encode 0 b JBOD_SEEK_TO_BLOCK 0, encode 0 0 JBOD_WRITE_BLOCK 0]]

/-- The descriptor sequences of `mdadm_write(addr, len, data)`, every call going
through: the two seeks, the read of the first block, the loop. -/
def writeTraces (addr len : Nat) : List (List Nat) :=
  (readBlockTraces (locate addr).1 (locate addr).2.1).flatMap fun r =>
    (writeLoopTraces len (locate addr).1 (locate addr).2.1 (locate addr).2.2 len).map fun t =>
      [encode (locate addr).1 0 JBOD_SEEK_TO_DISK 0,
        encode 0 (locate addr).2.1 JBOD_SEEK_TO_BLOCK 0] ++ r ++ t

/-- The READ_BLOCK and WRITE_BLOCK calls among `ops` with the place each lands on:
(command, disk, block), the cursor moving from (`d`, `b`) as the server moves it. -/
def landings : List Nat → Nat → Nat → List (Nat × Nat × Nat)
  | [], _, _ => []
  | op :: ops, d, b =>
    if (op >>> 14) &&& 0x3F = JBOD_SEEK_TO_DISK then landings ops (op >>> 28) 0
    else if (op >>> 14) &&& 0x3F = JBOD_SEEK_TO_BLOCK then landings ops d ((op >>> 20) &&& 0xFF)
    else if (op >>> 14) &&& 0x3F = JBOD_READ_BLOCK then
      (JBOD_READ_BLOCK, d, b) :: landings ops d (b + 1)
    else if (op >>> 14) &&& 0x3F = JBOD_WRITE_BLOCK then
      (JBOD_WRITE_BLOCK, d, b) :: landings ops d (b + 1)
    else landings ops d b

/-- The places the WRITE_BLOCK calls among `ops` land on, as (disk, block). -/
def writeLandings (ops : List Nat) (d b : Nat) : List (Nat × Nat) :=
  ((landings ops d b).filter fun e => e.1 = JBOD_WRITE_BLOCK).map fun e => e.2

/-- For every WRITE_BLOCK among `ops`, the block index of the SEEK_TO_BLOCK that is
the call right before it, `none` when the call right before it is no SEEK_TO_BLOCK
(`prev` is the call before the first of `ops`). -/
def seekedWrites : Option Nat → List Nat → List (Option Nat)
  | _, [] => []
  | prev, op :: ops =>
    if (op >>> 14) &&& 0x3F = JBOD_WRITE_BLOCK then
      (match prev with
        | some p =>
          if (p >>> 14) &&& 0x3F = JBOD_SEEK_TO_BLOCK then some ((p >>> 20) &&& 0xFF) else none
        | none => none) :: seekedWrites (some op) ops
    else seekedWrites (some op) ops

/-- The block indices, within their disks, of the blocks that the range
`[addr, addr + len)` overlaps, in order. -/
def blocksOf (addr len : Nat) : List Nat :=
  (List.range (if len = 0 then 0 else (addr + len - 1) / 256 - addr / 256 + 1)).map
    fun k => (addr / 256 + k) % 256

/-- The sequence begins with a SEEK_TO_DISK followed by a SEEK_TO_BLOCK, so that the
places its calls land on do not depend on where the cursor was. -/
def seeksFirst : List Nat → Bool
  | x :: y :: _ =>
    decide ((x >>> 14) &&& 0x3F = JBOD_SEEK_TO_DISK)
      && decide ((y >>> 14) &&& 0x3F = JBOD_SEEK_TO_BLOCK)
  | _ => false

/-- Cache coherence: every cached entry equals the image the device holds of its
block, byte for byte. -/
def Coherent (c : Cache) (j : Jbod) : Prop :=
  ∀ d b img, c.entry d b = some img → ∀ i, i < JBOD_BLOCK_SIZE → img i = j.store d b i

/-- A mounted state over `demoLink`, the cache enabled and holding the image of
block 1 of disk 0. -/
def warmState : State :=
  ⟨true, ⟨true, fun d b => if d = 0 ∧ b = 1 then some (demoStore 0 1) else none, 0⟩, demoLink⟩

/-! # Properties -/

/-! ## Buffers and byte order: basic facts -/

theorem slice_length (b : Buf) (off n : Nat) : (slice b off n).length = n := by
  simp [slice]

theorem getD_slice (b : Buf) (off n i : Nat) (d : Byte) (h : i < n) :
    (slice b off n).getD i d = b (off + i) := by
  simp [slice, List.getD_eq_getElem?_getD, List.getElem?_map, List.getElem?_range h]

theorem slice_add (b : Buf) (off m n : Nat) :
    slice b off (m + n) = slice b off m ++ slice b (off + m) n := by
  simp [slice, List.range_add, List.map_append, List.map_map, Function.comp_def, Nat.add_assoc]

theorem slice_congr (b c : Buf) (off off2 n : Nat) (h : ∀ i, i < n → b (off + i) = c (off2 + i)) :
    slice b off n = slice c off2 n := by
  unfold slice
  apply List.map_congr_left
  intro i hi
  exact h i (List.mem_range.mp hi)

theorem slice_eight (b : Buf) :
    slice b 0 8 = [b 0, b 1, b 2, b 3, b 4, b 5, b 6, b 7] := by
  simp [slice, List.range, List.range.loop]

theorem byteOf_val (n : Nat) : (byteOf n).val = n % 256 := rfl

theorem byteOf_mod (n : Nat) : byteOf (n % 256) = byteOf n := by
  apply Fin.ext; simp [byteOf_val]

theorem byteOf_congr {m n : Nat} (h : m % 256 = n % 256) : byteOf m = byteOf n :=
  Fin.ext h

theorem storeU16_htons (le : Bool) (b : Buf) (p x : Nat) :
    storeU16 le b p (htons le x) = blit b p (bytesBE16 x) := by
  cases le
  · simp only [storeU16, htons, bytesBE16, Bool.false_eq_true, if_false]
    rw [byteOf_congr (show x % 65536 / 256 % 256 = x / 256 % 256 by omega),
      byteOf_congr (show x % 65536 % 256 = x % 256 by omega)]
  · simp only [storeU16, htons, bytesBE16, bswap16, if_true]
    have ha : x % 256 < 256 := Nat.mod_lt _ (by decide)
    have hb : x / 256 % 256 < 256 := Nat.mod_lt _ (by decide)
    rw [← byteOf_mod (x / 256), ← byteOf_mod x]
    generalize x % 256 = a at ha ⊢
    generalize x / 256 % 256 = c at hb ⊢
    rw [byteOf_congr (show (a * 256 + c) % 256 = c % 256 by omega),
      byteOf_congr (show (a * 256 + c) / 256 % 256 = a % 256 by omega)]

theorem storeU32_htonl (le : Bool) (b : Buf) (p x : Nat) :
    storeU32 le b p (htonl le x) = blit b p (bytesBE32 x) := by
  cases le
  · simp only [storeU32, htonl, bytesBE32, Bool.false_eq_true, if_false]
    rw [byteOf_congr (show x % 4294967296 / 16777216 % 256 = x / 16777216 % 256 by omega),
      byteOf_congr (show x % 4294967296 / 65536 % 256 = x / 65536 % 256 by omega),
      byteOf_congr (show x % 4294967296 / 256 % 256 = x / 256 % 256 by omega),
      byteOf_congr (show x % 4294967296 % 256 = x % 256 by omega)]
  · simp only [storeU32, htonl, bytesBE32, bswap32, if_true]
    have h0 : x % 256 < 256 := Nat.mod_lt _ (by decide)
    have h1 : x / 256 % 256 < 256 := Nat.mod_lt _ (by decide)
    have h2 : x / 65536 % 256 < 256 := Nat.mod_lt _ (by decide)
    have h3 : x / 16777216 % 256 < 256 := Nat.mod_lt _ (by decide)
    rw [← byteOf_mod (x / 16777216), ← byteOf_mod (x / 65536), ← byteOf_mod (x / 256),
      ← byteOf_mod x]
    generalize x % 256 = a0 at h0 ⊢
    generalize x / 256 % 256 = a1 at h1 ⊢
    generalize x / 65536 % 256 = a2 at h2 ⊢
    generalize x / 16777216 % 256 = a3 at h3 ⊢
    generalize hy : a0 * 16777216 + a1 * 65536 + a2 * 256 + a3 = y
    rw [byteOf_congr (show y % 256 = a3 % 256 by omega),
      byteOf_congr (show y / 256 % 256 = a2 % 256 by omega),
      byteOf_congr (show y / 65536 % 256 = a1 % 256 by omega),
      byteOf_congr (show y / 16777216 % 256 = a0 % 256 by omega)]

theorem ntohs_loadU16 (le : Bool) (b : Buf) (p : Nat) :
    ntohs le (loadU16 le b p) = be16 (b p) (b (p + 1)) := by
  have h0 := (b p).isLt
  have h1 := (b (p + 1)).isLt
  cases le
  · simp only [ntohs, loadU16, be16, Bool.false_eq_true, if_false]; omega
  · simp only [ntohs, loadU16, be16, bswap16, if_true]; omega

theorem ntohl_loadU32 (le : Bool) (b : Buf) (p : Nat) :
    ntohl le (loadU32 le b p) = be32 (b p) (b (p + 1)) (b (p + 2)) (b (p + 3)) := by
  have h0 := (b p).isLt
  have h1 := (b (p + 1)).isLt
  have h2 := (b (p + 2)).isLt
  have h3 := (b (p + 3)).isLt
  cases le
  · simp only [ntohl, loadU32, be32, Bool.false_eq_true, if_false]; omega
  · simp only [ntohl, loadU32, be32, bswap32, if_true]; omega

theorem be16_bytes (x : Nat) : be16 (byteOf (x / 256)) (byteOf x) = x % 65536 := by
  simp only [be16, byteOf_val]; omega

theorem be32_bytes (x : Nat) :
    be32 (byteOf (x / 16777216)) (byteOf (x / 65536)) (byteOf (x / 256)) (byteOf x)
      = x % 4294967296 := by
  simp only [be32, byteOf_val]; omega

/-! ## The request packet -/

theorem headerBytes_length (len op ret : Nat) : (headerBytes len op ret).length = 8 := rfl

theorem send_packet_buf_other (le : Bool) (op : Nat) (block : Option Buf)
    (h : (op >>> 14) &&& 0x3F ≠ JBOD_WRITE_BLOCK) :
    (send_packet_buf le op block).1 = 8 ∧
      slice (send_packet_buf le op block).2 0 8 = headerBytes 8 op 0 := by
  simp only [send_packet_buf, storeU16_htons, storeU32_htonl, if_neg h]
  refine ⟨trivial, ?_⟩
  rw [slice_eight]
  rfl

theorem send_packet_buf_write (le : Bool) (op : Nat) (block : Option Buf)
    (h : (op >>> 14) &&& 0x3F = JBOD_WRITE_BLOCK) :
    (send_packet_buf le op block).1 = 264 ∧
      slice (send_packet_buf le op block).2 0 264
        = headerBytes 264 op 0 ++ slice (block.getD uninit) 0 256 := by
  simp only [send_packet_buf, storeU16_htons, storeU32_htonl, if_pos h]
  refine ⟨rfl, ?_⟩
  refine (slice_add _ 0 8 256).trans ?_
  rw [slice_eight]
  have hs : ∀ (p : Buf), slice (memcpy p 8 (block.getD uninit) 0 256) (0 + 8) 256
      = slice (block.getD uninit) 0 256 := by
    intro p
    apply slice_congr
    intro i hi
    have h1 : 8 ≤ 0 + 8 + i ∧ 0 + 8 + i < 8 + 256 := by omega
    simp only [memcpy, if_pos h1]
    rw [show 0 + (0 + 8 + i - 8) = 0 + i by omega]
  rw [if_pos (by decide)]
  rw [hs]
  rfl

/-! ## One exchange over a quiet connection -/

theorem nwrite_quiet (F : Nat) (l : Link) (n : Nat) (buf : Buf) (hw : l.writeRes = [])
    (hn : 0 < n) : nwrite (F + 2) l (n : Int) buf = some (true, deliver l (slice buf 0 n)) := by
  have h0 : (0 : Int) < (n : Int) := by omega
  simp only [nwrite, nwriteLoop, if_pos h0, sys_write, hw, slice_length]
  simp

theorem nread_quiet (F : Nat) (l : Link) (n : Nat) (buf : Buf) (hr : l.readRes = [])
    (hn : 0 < n) (hrx : n ≤ l.rx.length) :
    nread (F + 2) l (n : Int) buf
      = some (true, { l with rx := l.rx.drop n }, blit buf 0 (l.rx.take n)) := by
  have h0 : (0 : Int) < (n : Int) := by omega
  simp only [nread, nreadLoop, if_pos h0, sys_read, hr]
  simp [Nat.min_eq_left hrx]

theorem deliver_packet (l : Link) (len op ret : Nat) (payload : List Byte)
    (hp : l.pending = []) (hlen : len = 8 + payload.length) (hl : len < 65536)
    (hop : op < 4294967296) :
    deliver l (headerBytes len op ret ++ payload)
      = { l with pending := [], jbod := (l.jbod.serve op payload).1,
                 rx := l.rx ++ (l.jbod.serve op payload).2 } := by
  have e16 : be16 (byteOf (len / 256)) (byteOf len) = len := by
    rw [be16_bytes]; omega
  have e32 : be32 (byteOf (op / 16777216)) (byteOf (op / 65536)) (byteOf (op / 256)) (byteOf op)
      = op := by
    rw [be32_bytes]; omega
  have hlen8 : ¬ (headerBytes len op ret ++ payload).length < 8 := by
    simp [headerBytes_length]
  have hg0 : (headerBytes len op ret ++ payload).getD 0 0 = byteOf (len / 256) := rfl
  have hg1 : (headerBytes len op ret ++ payload).getD 1 0 = byteOf len := rfl
  have hg2 : (headerBytes len op ret ++ payload).getD 2 0 = byteOf (op / 16777216) := rfl
  have hg3 : (headerBytes len op ret ++ payload).getD 3 0 = byteOf (op / 65536) := rfl
  have hg4 : (headerBytes len op ret ++ payload).getD 4 0 = byteOf (op / 256) := rfl
  have hg5 : (headerBytes len op ret ++ payload).getD 5 0 = byteOf op := rfl
  have hmax : max 8 len = (headerBytes len op ret ++ payload).length := by
    simp [headerBytes_length]; omega
  simp only [deliver, hp, List.nil_append, HEADER_LEN, if_neg hlen8, hg0, hg1, hg2, hg3, hg4, hg5,
    e16, e32, hmax, Nat.lt_irrefl, if_false, List.take_length, List.drop_length]
  rw [List.drop_left' (headerBytes_length len op ret)]

theorem serve_good (j : Jbod) (op : Nat) (payload : List Byte) (hs : j.status = []) :
    j.serve op payload =
      (j.exec op payload,
        if (op >>> 14) &&& 0x3F = JBOD_READ_BLOCK then
          headerBytes 264 op 0 ++ slice (j.store j.disk j.block) 0 256
        else headerBytes 8 op 0 ++ []) := by
  obtain ⟨disk, block, store, status⟩ := j
  simp only at hs
  subst hs
  simp only [Jbod.serve, Jbod.exec, List.headD_nil, List.tail_nil, ne_eq, not_true_eq_false,
    if_false, headerBytes, HEADER_LEN, JBOD_BLOCK_SIZE, List.append_nil]
  by_cases h2 : (op >>> 14) &&& 0x3F = JBOD_SEEK_TO_DISK
  · simp [h2]
  · by_cases h3 : (op >>> 14) &&& 0x3F = JBOD_SEEK_TO_BLOCK
    · simp [h3]
    · by_cases h4 : (op >>> 14) &&& 0x3F = JBOD_READ_BLOCK
      · simp [h4]
      · by_cases h5 : (op >>> 14) &&& 0x3F = JBOD_WRITE_BLOCK
        · simp [h5]
        · simp [h2, h3, h4, h5]

theorem exec_status (j : Jbod) (op : Nat) (payload : List Byte) :
    (j.exec op payload).status = j.status := by
  unfold Jbod.exec
  simp only
  split_ifs <;> rfl

theorem recv_packet_header (F : Nat) (l : Link) (op ret op0 ret0 : Nat) (block : Option Buf)
    (hr : l.readRes = []) (hrx : l.rx = headerBytes 8 op ret) (hop : op < 4294967296)
    (hret : ret < 65536) :
    recv_packet (F + 2) l op0 ret0 block = some ⟨true, op, ret, block, { l with rx := [] }⟩ := by
  have hn := nread_quiet F l 8 uninit hr (by decide) (by rw [hrx]; exact Nat.le_refl 8)
  have e16 : be16 (byteOf (8 / 256)) (byteOf 8) = 8 := by decide
  have er : be16 (byteOf (ret / 256)) (byteOf ret) = ret := by
    rw [be16_bytes]; omega
  have e32 : be32 (byteOf (op / 16777216)) (byteOf (op / 65536)) (byteOf (op / 256)) (byteOf op)
      = op := by
    rw [be32_bytes]; omega
  have h0 : blit uninit 0 (headerBytes 8 op ret) 0 = byteOf (8 / 256) := rfl
  have h1 : blit uninit 0 (headerBytes 8 op ret) (0 + 1) = byteOf 8 := rfl
  have h2 : blit uninit 0 (headerBytes 8 op ret) (0 + 2) = byteOf (op / 16777216) := rfl
  have h3 : blit uninit 0 (headerBytes 8 op ret) (0 + 2 + 1) = byteOf (op / 65536) := rfl
  have h4 : blit uninit 0 (headerBytes 8 op ret) (0 + 2 + 2) = byteOf (op / 256) := rfl
  have h5 : blit uninit 0 (headerBytes 8 op ret) (0 + 2 + 3) = byteOf op := rfl
  have h6 : blit uninit 0 (headerBytes 8 op ret) (0 + 2 + 4) = byteOf (ret / 256) := rfl
  have h7 : blit uninit 0 (headerBytes 8 op ret) (0 + 2 + 4 + 1) = byteOf ret := rfl
  have ht : List.take 8 (headerBytes 8 op ret) = headerBytes 8 op ret := rfl
  have hd : List.drop 8 (headerBytes 8 op ret) = [] := rfl
  simp only [recv_packet, HEADER_LEN, Nat.cast_ofNat] at hn ⊢
  rw [hn]
  simp only [hrx, ht, hd, Bool.not_true, Bool.false_eq_true, if_false, ntohs_loadU16,
    ntohl_loadU32, h0, h1, h2, h3, h4, h5, h6, h7, e16, er, e32, Nat.lt_irrefl, false_and]

theorem recv_packet_block (F : Nat) (l : Link) (op ret op0 ret0 : Nat) (block : Option Buf)
    (payload : List Byte) (hr : l.readRes = [])
    (hrx : l.rx = headerBytes 264 op ret ++ payload) (hpl : payload.length = 256)
    (hop : op < 4294967296) (hret : ret < 65536)
    (hcmd : (op >>> 14) &&& 0x3F = JBOD_READ_BLOCK) :
    recv_packet (F + 2) l op0 ret0 block
      = some ⟨true, op, ret, block.map (fun b => memcpy b 0 (blit uninit 0 payload) 0 256),
          { l with rx := [] }⟩ := by
  have hn := nread_quiet F l 8 uninit hr (by decide)
    (by rw [hrx, List.length_append, headerBytes_length]; omega)
  have ht : List.take 8 (headerBytes 264 op ret ++ payload) = headerBytes 264 op ret :=
    List.take_left' (headerBytes_length _ _ _)
  have hd : List.drop 8 (headerBytes 264 op ret ++ payload) = payload :=
    List.drop_left' (headerBytes_length _ _ _)
  have hn2 := nread_quiet F { l with rx := payload } 256 uninit hr (by decide)
    (by simp only [hpl]; exact Nat.le_refl 256)
  have e16 : be16 (byteOf (264 / 256)) (byteOf 264) = 264 := by decide
  have er : be16 (byteOf (ret / 256)) (byteOf ret) = ret := by
    rw [be16_bytes]; omega
  have e32 : be32 (byteOf (op / 16777216)) (byteOf (op / 65536)) (byteOf (op / 256)) (byteOf op)
      = op := by
    rw [be32_bytes]; omega
  have h0 : blit uninit 0 (headerBytes 264 op ret) 0 = byteOf (264 / 256) := rfl
  have h1 : blit uninit 0 (headerBytes 264 op ret) (0 + 1) = byteOf 264 := rfl
  have h2 : blit uninit 0 (headerBytes 264 op ret) (0 + 2) = byteOf (op / 16777216) := rfl
  have h3 : blit uninit 0 (headerBytes 264 op ret) (0 + 2 + 1) = byteOf (op / 65536) := rfl
  have h4 : blit uninit 0 (headerBytes 264 op ret) (0 + 2 + 2) = byteOf (op / 256) := rfl
  have h5 : blit uninit 0 (headerBytes 264 op ret) (0 + 2 + 3) = byteOf op := rfl
  have h6 : blit uninit 0 (headerBytes 264 op ret) (0 + 2 + 4) = byteOf (ret / 256) := rfl
  have h7 : blit uninit 0 (headerBytes 264 op ret) (0 + 2 + 4 + 1) = byteOf ret := rfl
  have htp : List.take 256 payload = payload := by
    rw [← hpl]; exact List.take_length payload
  have hdp : List.drop 256 payload = [] := by
    rw [← hpl]; exact List.drop_length payload
  simp only [recv_packet, HEADER_LEN, JBOD_BLOCK_SIZE, Nat.cast_ofNat] at hn hn2 ⊢
  rw [hn]
  simp only [hrx, ht, hd, Bool.not_true, Bool.false_eq_true, if_false, ntohs_loadU16,
    ntohl_loadU32, h0, h1, h2, h3, h4, h5, h6, h7, e16, er, e32, hcmd]
  rw [if_pos (by decide), hn2]
  simp only [htp, hdp, Bool.not_true, Bool.false_eq_true, if_false]

theorem memcpy_blit_slice (b s : Buf) :
    memcpy b 0 (blit uninit 0 (slice s 0 256)) 0 256 = memcpy b 0 s 0 256 := by
  funext i
  simp only [memcpy, blit, slice_length]
  by_cases h : 0 ≤ i ∧ i < 0 + 256
  · have h2 : 0 ≤ 0 + (i - 0) ∧ 0 + (i - 0) < 0 + 256 := by omega
    rw [if_pos h, if_pos h, if_pos h2, getD_slice _ _ _ _ _ (by omega)]
    congr 1
    omega
  · rw [if_neg h, if_neg h]

theorem send_packet_good (F : Nat) (l : Link) (op : Nat) (block : Option Buf)
    (hp : l.pending = []) (hw : l.writeRes = []) (hop : op < 4294967296) :
    send_packet (F + 2) l op block
      = some (true,
          { l with
            pending := [],
            jbod := (l.jbod.serve op
              (if (op >>> 14) &&& 0x3F = JBOD_WRITE_BLOCK then slice (block.getD uninit) 0 256
               else [])).1,
            rx := l.rx ++ (l.jbod.serve op
              (if (op >>> 14) &&& 0x3F = JBOD_WRITE_BLOCK then slice (block.getD uninit) 0 256
               else [])).2 }) := by
  unfold send_packet
  simp only
  by_cases h : (op >>> 14) &&& 0x3F = JBOD_WRITE_BLOCK
  · obtain ⟨h1, h2⟩ := send_packet_buf_write l.hostLE op block h
    rw [h1, nwrite_quiet F l 264 _ hw (by decide), h2,
      deliver_packet l 264 op 0 _ hp (by rw [slice_length]) (by decide) hop, if_pos h]
  · obtain ⟨h1, h2⟩ := send_packet_buf_other l.hostLE op block h
    rw [h1, nwrite_quiet F l 8 _ hw (by decide), h2, ← List.append_nil (headerBytes 8 op 0),
      deliver_packet l 8 op 0 [] hp rfl (by decide) hop, if_neg h]

/-- The exchange `jbod_client_operation(op, block)` over a quiet connection goes
through: it returns 1, the server has executed the request, a READ_BLOCK has
filled the caller's block, and the connection is quiet again. -/
theorem jco_good (F : Nat) (l : Link) (op : Nat) (block : Option Buf) (hg : Good l)
    (hop : op < 4294967296) :
    jbod_client_operation (F + 2) l op block
      = some (1,
          (if (op >>> 14) &&& 0x3F = JBOD_READ_BLOCK then
            block.map (fun b => memcpy b 0 (l.jbod.store l.jbod.disk l.jbod.block) 0 256)
           else block),
          { l with
            jbod := l.jbod.exec op
              (if (op >>> 14) &&& 0x3F = JBOD_WRITE_BLOCK then slice (block.getD uninit) 0 256
               else []),
            calls := l.calls ++ [op] }) := by
  obtain ⟨hp, hrx, hr, hw, hs⟩ := hg
  obtain ⟨le, j, pending, rx, readRes, writeRes, calls⟩ := l
  simp only at hp hrx hr hw hs
  subst hp hrx hr hw
  unfold jbod_client_operation
  simp only
  rw [send_packet_good F _ op block rfl rfl hop]
  simp only [serve_good j op _ hs, List.nil_append, Bool.not_true, Bool.false_eq_true, if_false]
  by_cases h : (op >>> 14) &&& 0x3F = JBOD_READ_BLOCK
  · rw [if_pos h, if_pos h]
    rw [recv_packet_block F _ op 0 op 0 block _ rfl rfl (slice_length _ _ _) hop (by decide) h]
    simp only [memcpy_blit_slice]
    rfl
  · rw [if_neg h, if_neg h]
    rw [recv_packet_header F _ op 0 op 0 block rfl (List.append_nil _) hop (by decide)]
    rfl

theorem good_after (l : Link) (j : Jbod) (c : List Nat) (hg : Good l) (hj : j.status = []) :
    Good { l with jbod := j, calls := c } := by
  obtain ⟨hp, hrx, hr, hw, _⟩ := hg
  exact ⟨hp, hrx, hr, hw, hj⟩

/-! ## The descriptors built by `mdadm.c`, as the server decodes them -/

theorem encode_seek_disk (d : Nat) (hd : d < 16) :
    encode d 0 JBOD_SEEK_TO_DISK 0 < 4294967296
      ∧ (encode d 0 JBOD_SEEK_TO_DISK 0 >>> 14) &&& 0x3F = JBOD_SEEK_TO_DISK
      ∧ encode d 0 JBOD_SEEK_TO_DISK 0 >>> 28 = d := by
  revert d
  decide

theorem encode_seek_block (b : Nat) (hb : b < 257) :
    encode 0 b JBOD_SEEK_TO_BLOCK 0 < 4294967296
      ∧ (encode 0 b JBOD_SEEK_TO_BLOCK 0 >>> 14) &&& 0x3F = JBOD_SEEK_TO_BLOCK
      ∧ (encode 0 b JBOD_SEEK_TO_BLOCK 0 >>> 20) &&& 0xFF = b % 256 := by
  revert b
  decide!

theorem exec_seek_disk (j : Jbod) (d : Nat) (p : List Byte) (hd : d < 16) :
    j.exec (encode d 0 JBOD_SEEK_TO_DISK 0) p = { j with disk := d, block := 0 } := by
  obtain ⟨_, h2, h3⟩ := encode_seek_disk d hd
  simp only [Jbod.exec, h2, h3, if_true]

theorem exec_seek_block (j : Jbod) (b : Nat) (p : List Byte) (hb : b < 257) :
    j.exec (encode 0 b JBOD_SEEK_TO_BLOCK 0) p = { j with block := b % 256 } := by
  obtain ⟨_, h2, h3⟩ := encode_seek_block b hb
  simp only [Jbod.exec, h2, h3]
  rfl

theorem exec_read (j : Jbod) (p : List Byte) :
    j.exec (encode 0 0 JBOD_READ_BLOCK 0) p = { j with block := j.block + 1 } := rfl

theorem exec_write (j : Jbod) (p : List Byte) :
    j.exec (encode 0 0 JBOD_WRITE_BLOCK 0) p
      = { j with
          block := j.block + 1,
          store := fun d b i => if d = j.disk ∧ b = j.block then p.getD i 0 else j.store d b i } :=
  rfl

theorem jbod_good (F : Nat) (st : State) (op : Nat) (block : Option Buf) (hg : Good st.link)
    (hop : op < 4294967296) :
    st.jbod (F + 2) op block
      = some (1,
          (if (op >>> 14) &&& 0x3F = JBOD_READ_BLOCK then
            block.map (fun b => memcpy b 0
              (st.link.jbod.store st.link.jbod.disk st.link.jbod.block) 0 256)
           else block),
          st.exchange op
            (if (op >>> 14) &&& 0x3F = JBOD_WRITE_BLOCK then slice (block.getD uninit) 0 256
             else [])) := by
  unfold State.jbod
  rw [jco_good F st.link op block hg hop]
  rfl

theorem good_exchange (st : State) (op : Nat) (payload : List Byte) (hg : Good st.link) :
    Good (st.exchange op payload).link :=
  good_after st.link _ _ hg ((exec_status _ _ _).trans hg.2.2.2.2)

theorem jbod_seek_disk (F : Nat) (st : State) (d : Nat) (hg : Good st.link) (hd : d < 16) :
    st.jbod (F + 2) (encode d 0 JBOD_SEEK_TO_DISK 0) none = some (1, none, st.seekDisk d) := by
  obtain ⟨h1, h2, _⟩ := encode_seek_disk d hd
  rw [jbod_good F st _ none hg h1, h2]
  simp only [State.exchange, exec_seek_disk _ _ _ hd, State.seekDisk]
  rfl

theorem jbod_seek_block (F : Nat) (st : State) (b : Nat) (hg : Good st.link) (hb : b < 257) :
    st.jbod (F + 2) (encode 0 b JBOD_SEEK_TO_BLOCK 0) none = some (1, none, st.seekBlock b) := by
  obtain ⟨h1, h2, _⟩ := encode_seek_block b hb
  rw [jbod_good F st _ none hg h1, h2]
  simp only [State.exchange, exec_seek_block _ _ _ hb, State.seekBlock]
  rfl

theorem jbod_read_block (F : Nat) (st : State) (buffer : Buf) (hg : Good st.link) :
    st.jbod (F + 2) (encode 0 0 JBOD_READ_BLOCK 0) (some buffer)
      = some (1,
          some (memcpy buffer 0 (st.link.jbod.store st.link.jbod.disk st.link.jbod.block) 0 256),
          st.readBlock) := by
  rw [jbod_good F st _ _ hg (by decide)]
  rfl

theorem jbod_write_block (F : Nat) (st : State) (buffer : Buf) (hg : Good st.link) :
    st.jbod (F + 2) (encode 0 0 JBOD_WRITE_BLOCK 0) (some buffer)
      = some (1, some buffer, st.writeBlock buffer) := by
  rw [jbod_good F st _ _ hg (by decide)]
  rfl

theorem good_seekDisk (st : State) (d : Nat) (hg : Good st.link) : Good (st.seekDisk d).link :=
  good_after st.link _ _ hg hg.2.2.2.2

theorem good_seekBlock (st : State) (b : Nat) (hg : Good st.link) : Good (st.seekBlock b).link :=
  good_after st.link _ _ hg hg.2.2.2.2

theorem good_readBlock (st : State) (hg : Good st.link) : Good st.readBlock.link :=
  good_after st.link _ _ hg hg.2.2.2.2

theorem good_writeBlock (st : State) (buffer : Buf) (hg : Good st.link) :
    Good (st.writeBlock buffer).link :=
  good_after st.link _ _ hg hg.2.2.2.2

/-! ## Reading with the cache disabled -/

theorem ReadRel.trans {a b c : State} (h1 : ReadRel a b) (h2 : ReadRel b c) : ReadRel a c :=
  ⟨h2.1, h2.2.1.trans h1.2.1, h2.2.2.1.trans h1.2.2.1, h2.2.2.2.1.trans h1.2.2.2.1,
    h2.2.2.2.2.trans h1.2.2.2.2⟩

theorem mem_at (store : Nat → Nat → Nat → Byte) (d b o : Nat) (hb : b < 256) (ho : o < 256) :
    mem store (d * 65536 + b * 256 + o) = store d b o := by
  unfold mem
  simp only [JBOD_DISK_SIZE, JBOD_BLOCK_SIZE]
  rw [show (d * 65536 + b * 256 + o) / 65536 = d by omega,
    show (d * 65536 + b * 256 + o) % 65536 / 256 = b by omega,
    show (d * 65536 + b * 256 + o) % 256 = o by omega]

theorem fetch_nocache (F : Nat) (st : State) (d b : Nat) (buffer : Buf) (sbc rbc : Int)
    (hg : Good st.link) (hc : st.cache.enabled = false) :
    fetchBlock (F + 2) st d b buffer sbc rbc
      = some ⟨st.tick.readBlock,
          memcpy buffer 0 (st.link.jbod.store st.link.jbod.disk st.link.jbod.block) 0 256,
          sbc, 1⟩ := by
  have h := jbod_read_block F st.tick buffer hg
  simp only [fetchBlock, cache_enabled]
  rw [if_neg (by rw [hc]; decide)]
  simp only [State.tick] at h
  rw [h]
  rfl

theorem readLoop_done (n F : Nat) (st : State) (addr len : Nat) (buf : Buf)
    (diskID blockID currentAddr numRead : Nat) (buffer : Buf) (rbc : Int) :
    readLoop n F st addr len buf diskID blockID currentAddr 0 numRead buffer rbc
      = some ((len : Int), st, buf) := by
  cases n <;> simp [readLoop]

theorem readLoop_nocache (F : Nat) : ∀ (n : Nat) (st : State) (addr len : Nat) (buf : Buf)
    (diskID blockID currentAddr remaining numRead : Nat) (buffer : Buf) (rbc : Int),
    Good st.link → st.cache.enabled = false → remaining ≤ n →
    diskID < 16 → blockID < 256 → currentAddr < 256 →
    addr + numRead = diskID * 65536 + blockID * 256 + currentAddr →
    numRead + remaining = len → addr + len ≤ 1048576 →
    st.link.jbod.disk = diskID → st.link.jbod.block = blockID + 1 →
    (∀ i, i < 256 → buffer i = st.link.jbod.store diskID blockID i) →
    ∃ st' buf', readLoop n (F + 2) st addr len buf diskID blockID currentAddr remaining numRead
        buffer rbc = some ((len : Int), st', buf') ∧ ReadRel st st'
      ∧ (∀ i, i < numRead → buf' i = buf i)
      ∧ (∀ i, numRead ≤ i → i < len → buf' i = mem st.link.jbod.store (addr + i))
      ∧ (∀ i, len ≤ i → buf' i = buf i)
      ∧ (0 < remaining → st'.link.jbod.disk = (addr + (len - 1)) / 65536)
      ∧ (remaining = 0 → st'.link.jbod.disk = st.link.jbod.disk) := by
  intro n
  induction n with
  | zero =>
    intro st addr len buf diskID blockID currentAddr remaining numRead buffer rbc hg hc hn hd hb
      hca hpos hlen hcap hdisk hblock hbuf
    have hr : remaining = 0 := by omega
    subst hr
    refine ⟨st, buf, readLoop_done _ _ _ _ _ _ _ _ _ _ _ _, ⟨hg, rfl, rfl, rfl, rfl⟩,
      fun _ _ => rfl, fun i h1 h2 => by omega, fun _ _ => rfl, fun h => absurd h (by omega),
        fun _ => rfl⟩
  | succ n ih =>
    intro st addr len buf diskID blockID currentAddr remaining numRead buffer rbc hg hc hn hd hb
      hca hpos hlen hcap hdisk hblock hbuf
    by_cases hr : remaining = 0
    · subst hr
      refine ⟨st, buf, readLoop_done _ _ _ _ _ _ _ _ _ _ _ _, ⟨hg, rfl, rfl, rfl, rfl⟩,
        fun _ _ => rfl, fun i h1 h2 => by omega, fun _ _ => rfl, fun h => absurd h (by omega),
        fun _ => rfl⟩
    · have hr' : remaining > 0 := Nat.pos_of_ne_zero hr
      by_cases c2 : currentAddr + remaining > 256
      · by_cases c3 : blockID = 255
        · -- the block is the last of its disk: go on with the next disk
          have c1 : (addr + numRead + remaining) % 4294967296
              > ((diskID + 1) * (256 * 256) - 1) % 4294967296 := by omega
          have hd' : diskID + 1 < 16 := by omega
          have hg1 := good_seekDisk st (diskID + 1) hg
          obtain ⟨st', buf', he, hrel, h1, h2, h3, h4, _⟩ :=
            ih (st.seekDisk (diskID + 1)).tick.readBlock addr len
              (memcpy buf numRead buffer currentAddr (256 - currentAddr)) (diskID + 1) 0 0
              (remaining - (256 - currentAddr)) (numRead + (256 - currentAddr))
              (memcpy buffer 0 (st.link.jbod.store (diskID + 1) 0) 0 256) 1
              (good_readBlock _ hg1) hc (by omega) hd' (by omega) (by omega) (by omega) (by omega)
              hcap rfl rfl
              (fun i hi => by
                simp only [memcpy]
                rw [if_pos (by omega), show 0 + (i - 0) = i by omega]; rfl)
          refine ⟨st', buf', ?_, ?_, ?_, ?_, ?_, fun _ => h4 (by omega), fun h => absurd h hr⟩
          · simp only [readLoop, JBOD_BLOCK_SIZE, JBOD_NUM_BLOCKS_PER_DISK]
            rw [if_pos hr', if_pos ⟨c1, c2, c3⟩, jbod_seek_disk F st _ hg hd']
            simp only
            rw [fetch_nocache F _ _ _ _ _ _ hg1 hc]
            simp only
            rw [if_neg (by decide)]
            exact he
          · exact ReadRel.trans ⟨good_readBlock _ hg1, rfl, rfl, rfl, rfl⟩ hrel
          · intro i hi
            rw [h1 i (by omega)]
            simp only [memcpy]
            rw [if_neg (by omega)]
          · intro i hi1 hi2
            by_cases hlt : i < numRead + (256 - currentAddr)
            · rw [h1 i hlt]
              simp only [memcpy]
              rw [if_pos (by omega), hbuf _ (by omega),
                show addr + i = diskID * 65536 + blockID * 256 + (currentAddr + (i - numRead)) by
                  omega,
                mem_at _ _ _ _ hb (by omega)]
            · exact h2 i (by omega) hi2
          · intro i hi
            rw [h3 i hi]
            simp only [memcpy]
            rw [if_neg (by omega)]
        · -- the next block of the same disk
          have hnc : ¬ ((addr + numRead + remaining) % 4294967296
              > ((diskID + 1) * (256 * 256) - 1) % 4294967296
              ∧ currentAddr + remaining > 256 ∧ blockID = 256 - 1) := fun h => c3 h.2.2
          obtain ⟨st', buf', he, hrel, h1, h2, h3, h4, _⟩ :=
            ih st.tick.readBlock addr len
              (memcpy buf numRead buffer currentAddr (256 - currentAddr)) diskID (blockID + 1) 0
              (remaining - (256 - currentAddr)) (numRead + (256 - currentAddr))
              (memcpy buffer 0 (st.link.jbod.store st.link.jbod.disk st.link.jbod.block) 0 256) 1
              (good_readBlock _ hg) hc (by omega) hd (by omega) (by omega) (by omega) (by omega)
              hcap hdisk (by show st.link.jbod.block + 1 = _; rw [hblock])
              (fun i hi => by
                simp only [memcpy]
                rw [if_pos (by omega), hdisk, hblock, show 0 + (i - 0) = i by omega]; rfl)
          refine ⟨st', buf', ?_, ?_, ?_, ?_, ?_, fun _ => h4 (by omega), fun h => absurd h hr⟩
          · simp only [readLoop, JBOD_BLOCK_SIZE, JBOD_NUM_BLOCKS_PER_DISK]
            rw [if_pos hr', if_neg hnc, if_pos c2, fetch_nocache F _ _ _ _ _ _ hg hc]
            simp only
            rw [if_neg (by decide)]
            exact he
          · exact ReadRel.trans ⟨good_readBlock _ hg, rfl, rfl, rfl, rfl⟩ hrel
          · intro i hi
            rw [h1 i (by omega)]
            simp only [memcpy]
            rw [if_neg (by omega)]
          · intro i hi1 hi2
            by_cases hlt : i < numRead + (256 - currentAddr)
            · rw [h1 i hlt]
              simp only [memcpy]
              rw [if_pos (by omega), hbuf _ (by omega),
                show addr + i = diskID * 65536 + blockID * 256 + (currentAddr + (i - numRead)) by
                  omega,
                mem_at _ _ _ _ hb (by omega)]
            · exact h2 i (by omega) hi2
          · intro i hi
            rw [h3 i hi]
            simp only [memcpy]
            rw [if_neg (by omega)]
      · -- the rest lies within the block
        have hnc : ¬ ((addr + numRead + remaining) % 4294967296
            > ((diskID + 1) * (256 * 256) - 1) % 4294967296
            ∧ currentAddr + remaining > 256 ∧ blockID = 256 - 1) := fun h => c2 h.2.1
        refine ⟨st, memcpy buf numRead buffer currentAddr remaining, ?_, ⟨hg, rfl, rfl, rfl, rfl⟩,
          ?_, ?_, ?_, fun _ => by rw [hdisk]; omega, fun _ => rfl⟩
        · simp only [readLoop, JBOD_BLOCK_SIZE, JBOD_NUM_BLOCKS_PER_DISK]
          rw [if_pos hr', if_neg hnc, if_neg c2]
          exact readLoop_done _ _ _ _ _ _ _ _ _ _ _ _
        · intro i hi
          simp only [memcpy]
          rw [if_neg (by omega)]
        · intro i hi1 hi2
          simp only [memcpy]
          rw [if_pos (by omega), hbuf _ (by omega),
            show addr + i = diskID * 65536 + blockID * 256 + (currentAddr + (i - numRead)) by
              omega,
            mem_at _ _ _ _ hb (by omega)]
        · intro i hi
          simp only [memcpy]
          rw [if_neg (by omega)]


theorem inputCheck_valid (addr len : Nat) (isNull : Bool) (hl : len ≤ 1024)
    (hcap : addr + len ≤ 1048576) (hn : isNull = false ∨ len = 0) :
    inputCheck addr len isNull = false := by
  have h1 : ¬ ((addr + len) % 4294967296 > 65536 * 16 ∨ len > 1024) := by omega
  simp only [inputCheck, JBOD_DISK_SIZE, JBOD_NUM_DISKS]
  rw [if_neg h1]
  rcases hn with h | h
  · subst h; rfl
  · subst h; cases isNull <;> rfl

theorem mdadm_read_nocache (F : Nat) (st : State) (addr len : Nat) (buf : Buf)
    (hg : Good st.link) (hm : st.isMounted = true) (hc : st.cache.enabled = false)
    (ha : addr < 1048576) (hl : len ≤ 1024) (hcap : addr + len ≤ 1048576) :
    ∃ st' buf', mdadm_read (F + 2) st addr len (some buf) = some ((len : Int), st', some buf')
      ∧ ReadRel st st'
      ∧ (∀ i, i < len → buf' i = mem st.link.jbod.store (addr + i))
      ∧ (∀ i, len ≤ i → buf' i = buf i)
      ∧ st'.link.jbod.disk = (addr + (len - 1)) / 65536 := by
  have hd : addr / 65536 < 16 := by omega
  have hb : (addr - addr / 65536 * 65536) / 256 < 256 := by omega
  have hg1 := good_seekDisk st (addr / 65536) hg
  have hg2 := good_seekBlock _ ((addr - addr / 65536 * 65536) / 256) hg1
  obtain ⟨st', buf', he, hrel, _, h2, h3, h4, h5⟩ :=
    readLoop_nocache F len
      ((st.seekDisk (addr / 65536)).seekBlock ((addr - addr / 65536 * 65536) / 256)).tick.readBlock
      addr len buf (addr / 65536) ((addr - addr / 65536 * 65536) / 256)
      (addr - (addr / 65536 * 256 * 256 + (addr - addr / 65536 * 65536) / 256 * 256)) len 0
      (memcpy uninit 0 (st.link.jbod.store (addr / 65536)
        ((addr - addr / 65536 * 65536) / 256 % 256)) 0 256) 1
      (good_readBlock _ hg2) hc (Nat.le_refl _) hd hb (by omega) (by omega) (by omega) hcap rfl
      (by show (addr - addr / 65536 * 65536) / 256 % 256 + 1 = _; omega)
      (fun i hi => by
        simp only [memcpy]
        rw [if_pos (by omega), show 0 + (i - 0) = i by omega,
          show (addr - addr / 65536 * 65536) / 256 % 256 = (addr - addr / 65536 * 65536) / 256 by
            omega]
        rfl)
  refine ⟨st', buf', ?_, ?_, fun i hi => h2 i (Nat.zero_le _) hi, h3, ?_⟩
  rotate_right
  · rcases Nat.eq_zero_or_pos len with h0 | h0
    · rw [h5 h0, h0]; rfl
    · exact h4 h0
  · simp only [mdadm_read, JBOD_DISK_SIZE, JBOD_BLOCK_SIZE, JBOD_NUM_BLOCKS_PER_DISK,
      Option.isNone_some, inputCheck_valid addr len false hl hcap (Or.inl rfl), hm, Bool.not_true,
      Bool.or_self, Bool.false_eq_true, if_false]
    rw [jbod_seek_disk F st _ hg hd]
    simp only
    rw [jbod_seek_block F _ _ hg1 (by omega)]
    simp only
    rw [fetch_nocache F _ _ _ _ _ _ hg2 hc]
    simp only
    rw [if_neg (by decide)]
    simp only [Option.getD_some]
    erw [he]
    rfl
  · exact ReadRel.trans ⟨good_readBlock _ hg2, rfl, rfl, rfl, rfl⟩ hrel

/-! ## Writing with the cache disabled -/

theorem cacheStore_off (st : State) (d b : Nat) (buffer : Buf) (hc : st.cache.enabled = false) :
    cacheStore st d b buffer = st.tick := by
  simp only [cacheStore, cache_enabled]
  rw [if_neg (by rw [hc]; decide)]
  rfl

theorem writeLoop_done (n F : Nat) (st : State) (len : Nat) (buf : Buf)
    (diskID blockID currentAddr numRead : Nat) (buffer : Buf) :
    writeLoop n F st len buf diskID blockID currentAddr 0 numRead buffer
      = some ((len : Int), st) := by
  cases n <;> rfl

theorem mem_writeBlock (st : State) (buffer : Buf) (d b : Nat) (hdisk : st.link.jbod.disk = d)
    (hblock : st.link.jbod.block = b) (hb : b < 256) (a : Nat) :
    mem (st.writeBlock buffer).link.jbod.store a
      = if d * 65536 + b * 256 ≤ a ∧ a < d * 65536 + b * 256 + 256 then buffer (a % 256)
        else mem st.link.jbod.store a := by
  simp only [mem, State.writeBlock, JBOD_DISK_SIZE, JBOD_BLOCK_SIZE, hdisk, hblock]
  by_cases h : d * 65536 + b * 256 ≤ a ∧ a < d * 65536 + b * 256 + 256
  · have h1 : a / 65536 = d ∧ a % 65536 / 256 = b := by omega
    rw [if_pos h, if_pos h1, getD_slice _ _ _ _ _ (by omega), Nat.zero_add]
  · have h1 : ¬ (a / 65536 = d ∧ a % 65536 / 256 = b) := by omega
    rw [if_neg h, if_neg h1]

set_option maxRecDepth 8000 in
theorem writeLoop_nocache (F : Nat) : ∀ (n : Nat) (st : State) (addr len : Nat) (buf : Buf)
    (diskID blockID currentAddr remaining numRead : Nat) (buffer : Buf),
    Good st.link → st.isMounted = true → st.cache.enabled = false → remaining ≤ n →
    diskID < 16 → blockID < 256 → currentAddr < 256 →
    addr + numRead = diskID * 65536 + blockID * 256 + currentAddr →
    numRead + remaining = len → addr + len ≤ 1048576 →
    st.link.jbod.disk = diskID →
    (∀ i, i < 256 → buffer i = st.link.jbod.store diskID blockID i) →
    ∃ st', writeLoop n (F + 2) st len buf diskID blockID currentAddr remaining numRead buffer
        = some ((len : Int), st')
      ∧ Good st'.link ∧ st'.isMounted = true ∧ st'.cache.enabled = false
      ∧ st'.cache.entry = st.cache.entry
      ∧ ∀ a, mem st'.link.jbod.store a
          = if addr + numRead ≤ a ∧ a < addr + len then buf (a - addr)
            else mem st.link.jbod.store a := by
  intro n
  induction n with
  | zero =>
    intro st addr len buf diskID blockID currentAddr remaining numRead buffer hg hm hc hn hd hb
      hca hpos hlen hcap hdisk hbuf
    have hr : remaining = 0 := by omega
    subst hr
    refine ⟨st, writeLoop_done _ _ _ _ _ _ _ _ _ _, hg, hm, hc, rfl, fun a => ?_⟩
    rw [if_neg (by omega)]
  | succ n ih =>
    intro st addr len buf diskID blockID currentAddr remaining numRead buffer hg hm hc hn hd hb
      hca hpos hlen hcap hdisk hbuf
    by_cases hr : remaining = 0
    · subst hr
      refine ⟨st, writeLoop_done _ _ _ _ _ _ _ _ _ _, hg, hm, hc, rfl, fun a => ?_⟩
      rw [if_neg (by omega)]
    · have hr' : remaining > 0 := Nat.pos_of_ne_zero hr
      have hg1 := good_seekBlock st blockID hg
      have hmod : blockID % 256 = blockID := Nat.mod_eq_of_lt hb
      by_cases c2 : currentAddr + remaining > 256
      · have hw := good_writeBlock (st.seekBlock blockID).tick
          (memcpy buffer currentAddr buf numRead (256 - currentAddr)) hg1
        have hmemw := mem_writeBlock (st.seekBlock blockID).tick
          (memcpy buffer currentAddr buf numRead (256 - currentAddr)) diskID blockID hdisk hmod hb
        by_cases c3 : blockID = 255
        · -- the block is the last of its disk: go on with the next disk
          have hd' : diskID + 1 < 16 := by omega
          have hgs := good_seekDisk _ (diskID + 1) hw
          obtain ⟨st_r, buf_r, her, hrelr, hr2, _, hrd⟩ :=
            mdadm_read_nocache F
              (((st.seekBlock blockID).tick.writeBlock
                (memcpy buffer currentAddr buf numRead (256 - currentAddr))).seekDisk (diskID + 1))
              (diskID * 256 * 256 + blockID * 256 + 256) 256
              (memcpy buffer currentAddr buf numRead (256 - currentAddr)) hgs hm hc (by omega)
              (by omega) (by omega)
          obtain ⟨st', he, hg', hm', hc', hce', hmem⟩ :=
            ih st_r addr len buf (diskID + 1) 0 0 (remaining - (256 - currentAddr))
              (numRead + (256 - currentAddr)) buf_r hrelr.1 (hrelr.2.1.trans hm)
              (hrelr.2.2.1.trans hc) (by omega) hd' (by omega) (by omega) (by omega) (by omega)
              hcap (hrd.trans (by omega))
              (fun i hi => by
                rw [hr2 i hi, hrelr.2.2.2.2,
                  show diskID * 256 * 256 + blockID * 256 + 256 + i
                    = (diskID + 1) * 65536 + 0 * 256 + i by omega,
                  mem_at _ _ _ _ (by omega) hi])
          refine ⟨st', ?_, hg', hm', hc', hce'.trans hrelr.2.2.2.1, fun a => ?_⟩
          · simp only [writeLoop, JBOD_BLOCK_SIZE, JBOD_NUM_BLOCKS_PER_DISK]
            rw [if_pos hr', jbod_seek_block F st _ hg (by omega)]
            simp only [Option.some_bind]
            rw [if_neg (by decide), if_pos ⟨c2, c3⟩,
              cacheStore_off (st.seekBlock blockID) _ _ _ hc,
              jbod_write_block F (st.seekBlock blockID).tick _ hg1]
            simp only [Option.some_bind, Option.getD_some]
            rw [jbod_seek_disk F _ _ hw hd']
            simp only [Option.some_bind]
            rw [her]
            simp only [Option.some_bind, Option.getD_some]
            rw [if_neg (by decide)]
            exact he
          · rw [hmem a, hrelr.2.2.2.2]
            have hsw := hmemw a
            by_cases h2 : addr + (numRead + (256 - currentAddr)) ≤ a ∧ a < addr + len
            · rw [if_pos h2, if_pos (by omega)]
            · rw [if_neg h2]
              refine hsw.trans ?_
              by_cases hin : diskID * 65536 + blockID * 256 ≤ a
                  ∧ a < diskID * 65536 + blockID * 256 + 256
              · rw [if_pos hin]
                simp only [memcpy]
                by_cases hx : addr + numRead ≤ a ∧ a < addr + len
                · rw [if_pos hx, if_pos (by omega)]
                  congr 1
                  omega
                · rw [if_neg hx, if_neg (by omega), hbuf _ (by omega)]
                  rw [show a = diskID * 65536 + blockID * 256 + a % 256 by omega,
                    mem_at _ _ _ _ hb (by omega)]
                  congr 1
                  omega
              · rw [if_neg hin, if_neg (by omega)]
                rfl
        · -- the next block of the same disk
          have hnc : ¬ (currentAddr + remaining > 256 ∧ blockID = 256 - 1) := fun h => c3 h.2
          obtain ⟨st_r, buf_r, her, hrelr, hr2, _, hrd⟩ :=
            mdadm_read_nocache F
              ((st.seekBlock blockID).tick.writeBlock
                (memcpy buffer currentAddr buf numRead (256 - currentAddr)))
              (diskID * 256 * 256 + blockID * 256 + 256) 256
              (memcpy buffer currentAddr buf numRead (256 - currentAddr)) hw hm hc (by omega)
              (by omega) (by omega)
          obtain ⟨st', he, hg', hm', hc', hce', hmem⟩ :=
            ih st_r addr len buf diskID (blockID + 1) 0 (remaining - (256 - currentAddr))
              (numRead + (256 - currentAddr)) buf_r hrelr.1 (hrelr.2.1.trans hm)
              (hrelr.2.2.1.trans hc) (by omega) hd (by omega) (by omega) (by omega) (by omega)
              hcap (hrd.trans (by omega))
              (fun i hi => by
                rw [hr2 i hi, hrelr.2.2.2.2,
                  show diskID * 256 * 256 + blockID * 256 + 256 + i
                    = diskID * 65536 + (blockID + 1) * 256 + i by omega,
                  mem_at _ _ _ _ (by omega) hi])
          refine ⟨st', ?_, hg', hm', hc', hce'.trans hrelr.2.2.2.1, fun a => ?_⟩
          · simp only [writeLoop, JBOD_BLOCK_SIZE, JBOD_NUM_BLOCKS_PER_DISK]
            rw [if_pos hr', jbod_seek_block F st _ hg (by omega)]
            simp only [Option.some_bind]
            rw [if_neg (by decide), if_neg hnc, if_pos c2,
              cacheStore_off (st.seekBlock blockID) _ _ _ hc,
              jbod_write_block F (st.seekBlock blockID).tick _ hg1]
            simp only [Option.some_bind, Option.getD_some]
            rw [her]
            simp only [Option.some_bind, Option.getD_some]
            rw [if_neg (by decide)]
            exact he
          · rw [hmem a, hrelr.2.2.2.2]
            have hsw := hmemw a
            by_cases h2 : addr + (numRead + (256 - currentAddr)) ≤ a ∧ a < addr + len
            · rw [if_pos h2, if_pos (by omega)]
            · rw [if_neg h2]
              refine hsw.trans ?_
              by_cases hin : diskID * 65536 + blockID * 256 ≤ a
                  ∧ a < diskID * 65536 + blockID * 256 + 256
              · rw [if_pos hin]
                simp only [memcpy]
                by_cases hx : addr + numRead ≤ a ∧ a < addr + len
                · rw [if_pos hx, if_pos (by omega)]
                  congr 1
                  omega
                · rw [if_neg hx, if_neg (by omega), hbuf _ (by omega)]
                  rw [show a = diskID * 65536 + blockID * 256 + a % 256 by omega,
                    mem_at _ _ _ _ hb (by omega)]
                  congr 1
                  omega
              · rw [if_neg hin, if_neg (by omega)]
                rfl
      · -- the rest lies within the block
        have hnc : ¬ (currentAddr + remaining > 256 ∧ blockID = 256 - 1) := fun h => c2 h.1
        refine ⟨(st.seekBlock blockID).tick.writeBlock
          (memcpy buffer currentAddr buf numRead remaining), ?_, good_writeBlock _ _ hg1, hm, hc,
          rfl, fun a => ?_⟩
        · simp only [writeLoop, JBOD_BLOCK_SIZE, JBOD_NUM_BLOCKS_PER_DISK]
          rw [if_pos hr', jbod_seek_block F st _ hg (by omega)]
          simp only [Option.some_bind]
          rw [if_neg (by decide), if_neg hnc, if_neg c2,
            cacheStore_off (st.seekBlock blockID) _ _ _ hc,
            jbod_write_block F (st.seekBlock blockID).tick _ hg1]
          simp only [Option.some_bind]
          rw [if_neg (by decide)]
          exact writeLoop_done _ _ _ _ _ _ _ _ _ _
        · rw [mem_writeBlock (st.seekBlock blockID).tick _ diskID blockID hdisk hmod hb a]
          by_cases hin : diskID * 65536 + blockID * 256 ≤ a ∧ a < diskID * 65536 + blockID * 256 + 256
          · rw [if_pos hin]
            simp only [memcpy]
            by_cases hw : addr + numRead ≤ a ∧ a < addr + len
            · rw [if_pos hw, if_pos (by omega)]
              congr 1
              omega
            · rw [if_neg hw, if_neg (by omega), hbuf _ (by omega)]
              rw [show a = diskID * 65536 + blockID * 256 + a % 256 by omega,
                mem_at _ _ _ _ hb (by omega)]
              congr 1
              omega
          · rw [if_neg hin, if_neg (by omega)]
            rfl

theorem mdadm_write_nocache (F : Nat) (st : State) (addr len : Nat) (buf : Buf)
    (hg : Good st.link) (hm : st.isMounted = true) (hc : st.cache.enabled = false)
    (ha : addr < 1048576) (hl : len ≤ 1024) (hcap : addr + len ≤ 1048576) :
    ∃ st', mdadm_write (F + 2) st addr len (some buf) = some ((len : Int), st')
      ∧ Good st'.link ∧ st'.isMounted = true ∧ st'.cache.enabled = false
      ∧ st'.cache.entry = st.cache.entry
      ∧ ∀ a, mem st'.link.jbod.store a
          = if addr ≤ a ∧ a < addr + len then buf (a - addr) else mem st.link.jbod.store a := by
  have hd : addr / 65536 < 16 := by omega
  have hb : (addr - addr / 65536 * 65536) / 256 < 256 := by omega
  have hg1 := good_seekDisk st (addr / 65536) hg
  have hg2 := good_seekBlock _ ((addr - addr / 65536 * 65536) / 256) hg1
  obtain ⟨st_r, buf_r, her, hrelr, hr2, _, hrd⟩ :=
    mdadm_read_nocache F
      ((st.seekDisk (addr / 65536)).seekBlock ((addr - addr / 65536 * 65536) / 256))
      (addr / 65536 * 256 * 256 + (addr - addr / 65536 * 65536) / 256 * 256) 256 uninit hg2 hm hc
      (by omega) (by omega) (by omega)
  obtain ⟨st', he, hg', hm', hc', hce', hmem⟩ :=
    writeLoop_nocache F len st_r addr len buf (addr / 65536)
      ((addr - addr / 65536 * 65536) / 256)
      (addr - (addr / 65536 * 256 * 256 + (addr - addr / 65536 * 65536) / 256 * 256)) len 0 buf_r
      hrelr.1 (hrelr.2.1.trans hm) (hrelr.2.2.1.trans hc) (Nat.le_refl _) hd hb (by omega)
      (by omega) (by omega) hcap (hrd.trans (by omega))
      (fun i hi => by
        rw [hr2 i hi, hrelr.2.2.2.2,
          show addr / 65536 * 256 * 256 + (addr - addr / 65536 * 65536) / 256 * 256 + i
            = addr / 65536 * 65536 + (addr - addr / 65536 * 65536) / 256 * 256 + i by omega,
          mem_at _ _ _ _ hb hi])
  refine ⟨st', ?_, hg', hm', hc', hce'.trans hrelr.2.2.2.1, fun a => ?_⟩
  · simp only [mdadm_write, JBOD_DISK_SIZE, JBOD_BLOCK_SIZE, JBOD_NUM_BLOCKS_PER_DISK,
      Option.isNone_some, inputCheck_valid addr len false hl hcap (Or.inl rfl), hm, Bool.not_true,
      Bool.or_self, Bool.false_eq_true, if_false]
    rw [jbod_seek_disk F st _ hg hd]
    simp only
    rw [jbod_seek_block F _ _ hg1 (by omega)]
    simp only
    rw [her]
    simp only [Option.getD_some]
    rw [if_neg (by decide)]
    exact he
  · rw [hmem a, hrelr.2.2.2.2]
    rfl

/-! ## C1: write/read round trip -/

/-- C1. Write/read round trip with the cache disabled.  Over a quiet connection to
the device model (every call reports success), in a mounted state, for every
`addr < 1048576` and `len ≤ 1024` with `addr + len ≤ 1048576` and every data:
`mdadm_write(addr, len, data)` returns `len`, and the following
`mdadm_read(addr, len, buf)` returns `len` and leaves `buf[0..len)` equal to the data.
`F + 2` is any bound of at least two iterations for the transfer loops. -/
theorem mdadm_write_read_roundtrip (F : Nat) (st : State) (addr len : Nat) (data buf : Buf)
    (hg : Good st.link) (hm : st.isMounted = true) (hc : st.cache.enabled = false)
    (ha : addr < 1048576) (hl : len ≤ 1024) (hcap : addr + len ≤ 1048576) :
    ∃ st1 st2 buf', mdadm_write (F + 2) st addr len (some data) = some ((len : Int), st1)
      ∧ mdadm_read (F + 2) st1 addr len (some buf) = some ((len : Int), st2, some buf')
      ∧ ∀ i, i < len → buf' i = data i := by
  obtain ⟨st1, hw, hg1, hm1, hc1, _, hmem⟩ :=
    mdadm_write_nocache F st addr len data hg hm hc ha hl hcap
  obtain ⟨st2, buf', hr, _, h2, _, _⟩ := mdadm_read_nocache F st1 addr len buf hg1 hm1 hc1 ha hl hcap
  refine ⟨st1, st2, buf', hw, hr, fun i hi => ?_⟩
  rw [h2 i hi, hmem (addr + i), if_pos (by omega)]
  congr 1
  omega

/-- C1 at a cross-block range: 300 bytes written at address 250 and read back. -/
theorem mdadm_write_read_roundtrip_witness :
    Good (demoState true false).link ∧ (250 : Nat) + 300 ≤ 1048576
      ∧ ∃ st1 st2 buf',
        mdadm_write 2 (demoState true false) 250 300 (some demoData) = some (((300 : Nat) : Int), st1)
        ∧ mdadm_read 2 st1 250 300 (some uninit) = some (((300 : Nat) : Int), st2, some buf')
        ∧ ∀ i, i < 300 → buf' i = demoData i :=
  ⟨⟨rfl, rfl, rfl, rfl, rfl⟩, by decide,
    mdadm_write_read_roundtrip 0 (demoState true false) 250 300 demoData uninit
      ⟨rfl, rfl, rfl, rfl, rfl⟩ rfl rfl (by decide) (by decide) (by decide)⟩

/-! ## C2: the cache and ranges over two blocks -/

/-- C2 (defect of the code). Two bytes written at address 255 (the last byte of
block 0 and the first of block 1 of disk 0) and read back: with the cache enabled
the read returns 0, the first byte of block 0, for `buf[1]`; with the cache
disabled it returns the byte written. -/
theorem cache_read_second_block_stale :
    readBack (demoState true true) 255 2 demoData 1 = some (2, 2, 0)
      ∧ readBack (demoState true false) 255 2 demoData 1 = some (2, 2, demoData 1)
      ∧ demoData 1 ≠ 0 := by
  decide!

/-! ## C3, C4: what a failed exchange returns -/

/-- C3 (defect of the code). Every exchange answered with status 1 makes
`jbod_client_operation` return 0, and `mdadm_read` / `mdadm_write`, which look for
-1, report success: they return `len` = 1. -/
theorem mdadm_read_write_miss_failed_exchange :
    (jbod_client_operation 2 (failLink 3) (encode 0 0 JBOD_SEEK_TO_DISK 0) none).map (fun r => r.1)
        = some 0
      ∧ (mdadm_read 2 (failState 3) 0 1 (some uninit)).map (fun r => r.1) = some 1
      ∧ (mdadm_write 2 (failState 7) 0 1 (some demoData)).map (fun r => r.1) = some 1 := by
  decide!

/-- C4 (defect of the code). `jbod_client_operation` returns 1, not 0, for an
exchange that went through with status 0, and 0, not -1, for one answered with a
nonzero status. -/
theorem jbod_client_operation_returns_bool :
    (jbod_client_operation 2 demoLink (encode 0 0 JBOD_MOUNT 0) none).map (fun r => r.1) = some 1
      ∧ (jbod_client_operation 2 (failLink 1) (encode 0 0 JBOD_MOUNT 0) none).map (fun r => r.1)
        = some 0 := by
  decide!

/-! ## C5: the capacity check wraps -/

/-- C5 (defect of the code). For `addr` = 4294967295 and `len` = 1 the sum exceeds
the capacity, yet the 32-bit sum is 0: `inputCheck` accepts the input and
`mdadm_read` goes on to three exchanges and returns 1. -/
theorem inputCheck_wraps :
    4294967295 + 1 > JBOD_NUM_DISKS * JBOD_DISK_SIZE
      ∧ inputCheck 4294967295 1 false = false
      ∧ (mdadm_read 2 (demoState true false) 4294967295 1 (some uninit)).map
          (fun r => (r.1, r.2.1.link.calls.length)) = some (1, 3)
      ∧ (mdadm_write 2 (demoState true false) 4294967295 1 (some demoData)).map
          (fun r => r.1) = some 1 := by
  decide!

/-! ## C6, C7: validation and the mount gate -/

theorem inputCheck_len (addr len : Nat) (isNull : Bool) (h : len > 1024) :
    inputCheck addr len isNull = true := by
  have h1 : (addr + len) % 4294967296 > JBOD_DISK_SIZE * JBOD_NUM_DISKS ∨ len > 1024 := Or.inr h
  simp only [inputCheck]
  rw [if_pos h1]
  cases isNull <;> simp

theorem inputCheck_null (addr len : Nat) (h : len ≠ 0) : inputCheck addr len true = true := by
  simp [inputCheck, h]

/-- C6. Length and buffer validation: for every `addr`, every state (mounted or
not) and every bound `F`, when `len > 1024`, or the buffer is NULL while `len ≠ 0`,
`mdadm_read` and `mdadm_write` return -1 and leave the state as it was: the record
of transport calls, the cache with its call counter, the device and the caller's
buffer are unchanged. -/
theorem mdadm_rejects_length_and_null (F : Nat) (st : State) (addr len : Nat) (buf : Option Buf)
    (h : len > 1024 ∨ (buf = none ∧ len ≠ 0)) :
    mdadm_read F st addr len buf = some (-1, st, buf)
      ∧ mdadm_write F st addr len buf = some (-1, st) := by
  have hc : inputCheck addr len buf.isNone = true := by
    rcases h with h | ⟨h1, h2⟩
    · exact inputCheck_len addr len _ h
    · subst h1; exact inputCheck_null addr len h2
  constructor
  · simp only [mdadm_read, hc, Bool.true_or, if_true]
  · simp only [mdadm_write, hc, Bool.true_or, if_true]

/-- C6 at `len` = 1025 with a buffer, in a mounted state. -/
theorem mdadm_rejects_length_and_null_witness :
    (1025 : Nat) > 1024
      ∧ mdadm_read 2 (demoState true true) 0 1025 (some uninit)
          = some (-1, demoState true true, some uninit)
      ∧ mdadm_write 2 (demoState true true) 0 1025 (some uninit)
          = some (-1, demoState true true) :=
  ⟨by decide,
    mdadm_rejects_length_and_null 2 (demoState true true) 0 1025 (some uninit)
      (Or.inl (by decide))⟩

/-- C7. Mount gate: while the mount flag is false, `mdadm_read` and `mdadm_write`
return -1 for every `addr`, `len` and buffer and every bound `F`, and leave the
state as it was: no transport call, no cache call, and the mount flag, the
caller's buffer and the device unchanged. -/
theorem mdadm_unmounted_fails (F : Nat) (st : State) (addr len : Nat) (buf : Option Buf)
    (h : st.isMounted = false) :
    mdadm_read F st addr len buf = some (-1, st, buf)
      ∧ mdadm_write F st addr len buf = some (-1, st) := by
  constructor
  · simp only [mdadm_read, h, Bool.not_false, Bool.or_true, if_true]
  · simp only [mdadm_write, h, Bool.not_false, Bool.or_true, if_true]

/-- C7 at valid arguments: one byte at address 0, unmounted. -/
theorem mdadm_unmounted_fails_witness :
    (demoState false false).isMounted = false
      ∧ mdadm_read 2 (demoState false false) 0 1 (some uninit)
          = some (-1, demoState false false, some uninit)
      ∧ mdadm_write 2 (demoState false false) 0 1 (some demoData)
          = some (-1, demoState false false) :=
  ⟨rfl, (mdadm_unmounted_fails 2 (demoState false false) 0 1 (some uninit) rfl).1,
    (mdadm_unmounted_fails 2 (demoState false false) 0 1 (some demoData) rfl).2⟩

/-! ## C8: the mount state machine -/

theorem exec_other (j : Jbod) (op : Nat) (p : List Byte)
    (h2 : (op >>> 14) &&& 0x3F ≠ JBOD_SEEK_TO_DISK) (h3 : (op >>> 14) &&& 0x3F ≠ JBOD_SEEK_TO_BLOCK)
    (h4 : (op >>> 14) &&& 0x3F ≠ JBOD_READ_BLOCK) (h5 : (op >>> 14) &&& 0x3F ≠ JBOD_WRITE_BLOCK) :
    j.exec op p = j := by
  simp only [Jbod.exec, if_neg h2, if_neg h3, if_neg h4, if_neg h5]

/-- C8. Mount state machine.  The flag starts false (`State.init`).  Over a quiet
connection `mdadm_mount` in state Unmounted returns 1, sets the flag and adds
exactly one transport call, with descriptor `encode(0, 0, JBOD_MOUNT, 0)`, to the
record; in state Mounted it returns -1 and changes nothing, whatever the
connection.  Symmetrically for `mdadm_unmount` with `JBOD_UNMOUNT`.  Whenever a
`mdadm_mount` has returned, a second one fails. -/
theorem mount_state_machine (F : Nat) (st : State) (hg : Good st.link) :
    (∀ c l, (State.init c l).isMounted = false)
      ∧ (st.isMounted = false →
          mdadm_mount (F + 2) st
            = some (1, { st with
                isMounted := true,
                link := { st.link with calls := st.link.calls ++ [encode 0 0 JBOD_MOUNT 0] } }))
      ∧ (st.isMounted = true → ∀ G, mdadm_mount G st = some (-1, st))
      ∧ (st.isMounted = true →
          mdadm_unmount (F + 2) st
            = some (1, { st with
                isMounted := false,
                link := { st.link with calls := st.link.calls ++ [encode 0 0 JBOD_UNMOUNT 0] } }))
      ∧ (st.isMounted = false → ∀ G, mdadm_unmount G st = some (-1, st))
      ∧ (∀ G H (s s' : State) (r : Int), mdadm_mount G s = some (r, s') →
          s'.isMounted = true ∧ mdadm_mount H s' = some (-1, s')) := by
  refine ⟨fun _ _ => rfl, ?_, ?_, ?_, ?_, ?_⟩
  · intro h
    simp only [mdadm_mount, h, Bool.not_false, if_true]
    rw [jbod_good F { st with isMounted := true } (encode 0 0 JBOD_MOUNT 0) none hg (by decide)]
    simp only [State.exchange]
    rw [exec_other _ _ _ (by decide) (by decide) (by decide) (by decide)]
  · intro h G
    simp only [mdadm_mount, h, Bool.not_true, Bool.false_eq_true, if_false]
  · intro h
    simp only [mdadm_unmount, h, if_true]
    rw [jbod_good F { st with isMounted := false } (encode 0 0 JBOD_UNMOUNT 0) none hg
      (by decide)]
    simp only [State.exchange]
    rw [exec_other _ _ _ (by decide) (by decide) (by decide) (by decide)]
  · intro h G
    simp only [mdadm_unmount, h, Bool.false_eq_true, if_false]
  · intro G H s s' r h
    have hm : s'.isMounted = true := by
      unfold mdadm_mount at h
      by_cases hs : s.isMounted = true
      · simp only [hs, Bool.not_true, Bool.false_eq_true, if_false, Option.some.injEq,
          Prod.mk.injEq] at h
        rw [← h.2]; exact hs
      · simp only [hs, Bool.not_false, if_true] at h
        unfold State.jbod at h
        simp only at h
        split at h
        · exact absurd h (by simp)
        · rename_i x heq
          split at heq
          · exact absurd heq (by simp)
          · simp only [Option.some.injEq] at heq
            subst heq
            simp only [Option.some.injEq, Prod.mk.injEq] at h
            rw [← h.2]
    refine ⟨hm, ?_⟩
    simp only [mdadm_mount, hm, Bool.not_true, Bool.false_eq_true, if_false]

/-- C8 from the initial state over the sample connection. -/
theorem mount_state_machine_witness :
    Good demoLink
      ∧ mdadm_mount 2 (State.init ⟨false, fun _ _ => none, 0⟩ demoLink)
        = some (1, { State.init ⟨false, fun _ _ => none, 0⟩ demoLink with
            isMounted := true,
            link := { demoLink with calls := demoLink.calls ++ [encode 0 0 JBOD_MOUNT 0] } }) :=
  ⟨⟨rfl, rfl, rfl, rfl, rfl⟩,
    (mount_state_machine 0 (State.init ⟨false, fun _ _ => none, 0⟩ demoLink)
      ⟨rfl, rfl, rfl, rfl, rfl⟩).2.1 rfl⟩

/-! ## C9: the request packet -/

/-- C9. Request framing.  For every `op` and block, `send_packet` hands `nwrite` the
first `hLength` bytes of its staging buffer, and these are: the length `hLength`
most significant byte first, the four bytes of `op` most significant first, two zero
bytes, and then the 256 bytes of the block exactly when the command
`(op >> 14) & 0x3F` is JBOD_WRITE_BLOCK.  `hLength`, which is both the length field
and the number of bytes, is 8 + 256 for JBOD_WRITE_BLOCK and 8 otherwise.  When the
`write` calls take everything they are given, exactly these bytes reach the peer. -/
theorem send_packet_framing (le : Bool) (op : Nat) (block : Buf) :
    (∀ F l, send_packet F l op (some block)
        = nwrite F l ((send_packet_buf l.hostLE op (some block)).1 : Int)
            (send_packet_buf l.hostLE op (some block)).2)
      ∧ (send_packet_buf le op (some block)).1
          = (if (op >>> 14) &&& 0x3F = JBOD_WRITE_BLOCK then HEADER_LEN + JBOD_BLOCK_SIZE
             else HEADER_LEN)
      ∧ slice (send_packet_buf le op (some block)).2 0 (send_packet_buf le op (some block)).1
          = bytesBE16 (send_packet_buf le op (some block)).1 ++ bytesBE32 op ++ [0, 0]
            ++ (if (op >>> 14) &&& 0x3F = JBOD_WRITE_BLOCK then slice block 0 JBOD_BLOCK_SIZE
                else [])
      ∧ (slice (send_packet_buf le op (some block)).2 0
          (send_packet_buf le op (some block)).1).length = (send_packet_buf le op (some block)).1
      ∧ (∀ F l, l.writeRes = [] →
          send_packet (F + 2) l op (some block)
            = some (true, deliver l (slice (send_packet_buf l.hostLE op (some block)).2 0
                (send_packet_buf l.hostLE op (some block)).1))) := by
  refine ⟨fun _ _ => rfl, ?_, ?_, slice_length _ _ _, ?_⟩
  · by_cases h : (op >>> 14) &&& 0x3F = JBOD_WRITE_BLOCK
    · rw [if_pos h]; exact (send_packet_buf_write le op _ h).1
    · rw [if_neg h]; exact (send_packet_buf_other le op _ h).1
  · by_cases h : (op >>> 14) &&& 0x3F = JBOD_WRITE_BLOCK
    · obtain ⟨h1, h2⟩ := send_packet_buf_write le op (some block) h
      rw [if_pos h, h1, h2]
      rfl
    · obtain ⟨h1, h2⟩ := send_packet_buf_other le op (some block) h
      rw [if_neg h, h1, h2]
      rfl
  · intro F l hw
    have hpos : 0 < (send_packet_buf l.hostLE op (some block)).1 := by
      by_cases h : (op >>> 14) &&& 0x3F = JBOD_WRITE_BLOCK
      · rw [(send_packet_buf_write l.hostLE op _ h).1]; decide
      · rw [(send_packet_buf_other l.hostLE op _ h).1]; decide
    exact nwrite_quiet F l _ _ hw hpos

/-! ## C10: the response packet -/

theorem memcpy_blit_take (block : Buf) (rest : List Byte) (h : 256 ≤ rest.length) :
    memcpy block 0 (blit uninit 0 (rest.take 256)) 0 256 = blit block 0 (rest.take 256) := by
  funext i
  have hl : (rest.take 256).length = 256 := by
    rw [List.length_take]; omega
  simp only [memcpy, blit, hl]
  by_cases hi : 0 ≤ i ∧ i < 0 + 256
  · simp only [if_pos hi]
    rw [if_pos (by omega), show 0 + (i - 0) - 0 = i - 0 by omega]
  · simp only [if_neg hi]

theorem recv_packet_bytes (F : Nat) (l : Link) (b0 b1 b2 b3 b4 b5 b6 b7 : Byte)
    (rest : List Byte) (op0 ret0 : Nat) (block : Option Buf) (hr : l.readRes = [])
    (hrx : l.rx = [b0, b1, b2, b3, b4, b5, b6, b7] ++ rest)
    (hrest : be16 b0 b1 > HEADER_LEN
        ∧ ((be32 b2 b3 b4 b5 >>> 14) &&& 0x3F = JBOD_READ_BLOCK
          ∨ (be32 b2 b3 b4 b5 >>> 14) &&& 0x3F = JBOD_SIGN_BLOCK) → 256 ≤ rest.length) :
    recv_packet (F + 2) l op0 ret0 block
      = if be16 b0 b1 > HEADER_LEN
          ∧ ((be32 b2 b3 b4 b5 >>> 14) &&& 0x3F = JBOD_READ_BLOCK
            ∨ (be32 b2 b3 b4 b5 >>> 14) &&& 0x3F = JBOD_SIGN_BLOCK) then
          some ⟨true, be32 b2 b3 b4 b5, be16 b6 b7,
            block.map (fun b => blit b 0 (rest.take 256)), { l with rx := rest.drop 256 }⟩
        else some ⟨true, be32 b2 b3 b4 b5, be16 b6 b7, block, { l with rx := rest }⟩ := by
  have hn := nread_quiet F l 8 uninit hr (by decide)
    (by rw [hrx, List.length_append]; exact Nat.le_add_right 8 _)
  have ht : List.take 8 ([b0, b1, b2, b3, b4, b5, b6, b7] ++ rest)
      = [b0, b1, b2, b3, b4, b5, b6, b7] := List.take_left' rfl
  have hd : List.drop 8 ([b0, b1, b2, b3, b4, b5, b6, b7] ++ rest) = rest := List.drop_left' rfl
  have h0 : blit uninit 0 [b0, b1, b2, b3, b4, b5, b6, b7] 0 = b0 := rfl
  have h1 : blit uninit 0 [b0, b1, b2, b3, b4, b5, b6, b7] (0 + 1) = b1 := rfl
  have h2 : blit uninit 0 [b0, b1, b2, b3, b4, b5, b6, b7] (0 + 2) = b2 := rfl
  have h3 : blit uninit 0 [b0, b1, b2, b3, b4, b5, b6, b7] (0 + 2 + 1) = b3 := rfl
  have h4 : blit uninit 0 [b0, b1, b2, b3, b4, b5, b6, b7] (0 + 2 + 2) = b4 := rfl
  have h5 : blit uninit 0 [b0, b1, b2, b3, b4, b5, b6, b7] (0 + 2 + 3) = b5 := rfl
  have h6 : blit uninit 0 [b0, b1, b2, b3, b4, b5, b6, b7] (0 + 2 + 4) = b6 := rfl
  have h7 : blit uninit 0 [b0, b1, b2, b3, b4, b5, b6, b7] (0 + 2 + 4 + 1) = b7 := rfl
  simp only [recv_packet, HEADER_LEN, JBOD_BLOCK_SIZE, Nat.cast_ofNat] at hn hrest ⊢
  rw [hn]
  simp only [hrx, ht, hd, Bool.not_true, Bool.false_eq_true, if_false, ntohs_loadU16,
    ntohl_loadU32, h0, h1, h2, h3, h4, h5, h6, h7]
  by_cases hc : be16 b0 b1 > 8
      ∧ ((be32 b2 b3 b4 b5 >>> 14) &&& 0x3F = JBOD_READ_BLOCK
        ∨ (be32 b2 b3 b4 b5 >>> 14) &&& 0x3F = JBOD_SIGN_BLOCK)
  · have hn2 := nread_quiet F { l with rx := rest } 256 uninit hr (by decide) (hrest hc)
    simp only [Nat.cast_ofNat] at hn2
    rw [if_pos hc, if_pos hc, hn2]
    simp only [Bool.not_true, Bool.false_eq_true, if_false, memcpy_blit_take _ _ (hrest hc)]
  · rw [if_neg hc, if_neg hc]

/-- C10. Response parsing.  When the stream holds the eight header bytes
`b0 .. b7` and then `rest`, and the `read` calls hand over what they are asked
for, `recv_packet` succeeds with `*op` the big-endian value of `b2 .. b5` and `*ret`
that of `b6 b7`.  Exactly when the big-endian length `b0 b1` exceeds HEADER_LEN and
the command `(op >> 14) & 0x3F` is JBOD_READ_BLOCK or JBOD_SIGN_BLOCK it takes the
next 256 bytes of the stream into the caller's block (they must be there);
otherwise it consumes the header only and leaves the block as it was.  The header
bytes that `send_packet` produces for a 32-bit `op` decode back to `op` and status 0. -/
theorem recv_packet_parsing (F : Nat) (l : Link) (b0 b1 b2 b3 b4 b5 b6 b7 : Byte)
    (rest : List Byte) (op0 ret0 : Nat) (block : Buf) (hr : l.readRes = [])
    (hrx : l.rx = [b0, b1, b2, b3, b4, b5, b6, b7] ++ rest)
    (hrest : be16 b0 b1 > HEADER_LEN
        ∧ ((be32 b2 b3 b4 b5 >>> 14) &&& 0x3F = JBOD_READ_BLOCK
          ∨ (be32 b2 b3 b4 b5 >>> 14) &&& 0x3F = JBOD_SIGN_BLOCK) → 256 ≤ rest.length) :
    recv_packet (F + 2) l op0 ret0 (some block)
      = (if be16 b0 b1 > HEADER_LEN
          ∧ ((be32 b2 b3 b4 b5 >>> 14) &&& 0x3F = JBOD_READ_BLOCK
            ∨ (be32 b2 b3 b4 b5 >>> 14) &&& 0x3F = JBOD_SIGN_BLOCK) then
          some ⟨true, be32 b2 b3 b4 b5, be16 b6 b7, some (blit block 0 (rest.take 256)),
            { l with rx := rest.drop 256 }⟩
        else some ⟨true, be32 b2 b3 b4 b5, be16 b6 b7, some block, { l with rx := rest }⟩)
      ∧ (∀ op len, op < 4294967296 →
          headerBytes len op 0 = [byteOf (len / 256), byteOf len, byteOf (op / 16777216),
              byteOf (op / 65536), byteOf (op / 256), byteOf op, byteOf 0, byteOf 0]
            ∧ be32 (byteOf (op / 16777216)) (byteOf (op / 65536)) (byteOf (op / 256)) (byteOf op)
              = op
            ∧ be16 (byteOf 0) (byteOf 0) = 0) := by
  refine ⟨recv_packet_bytes F l b0 b1 b2 b3 b4 b5 b6 b7 rest op0 ret0 (some block) hr hrx hrest,
    fun op len hop => ⟨rfl, ?_, rfl⟩⟩
  rw [be32_bytes]
  omega

/-- C10 at the response to a READ_BLOCK: header with length 264 and 256 payload
bytes. -/
theorem recv_packet_parsing_witness :
    recv_packet 2 { demoLink with rx := [1, 8, 0, 1, 0, 0, 0, 0] ++ List.replicate 256 7 } 0 0
        (some uninit)
      = some ⟨true, 65536, 0, some (blit uninit 0 ((List.replicate 256 (7 : Byte)).take 256)),
          { demoLink with rx := (List.replicate 256 (7 : Byte)).drop 256 }⟩ :=
  (recv_packet_parsing 0 { demoLink with rx := [1, 8, 0, 1, 0, 0, 0, 0] ++ List.replicate 256 7 }
    1 8 0 1 0 0 0 0 (List.replicate 256 7) 0 0 uninit rfl rfl
    (fun _ => by rw [List.length_replicate])).1

/-! ## C11: the command field of a descriptor -/

theorem lor_eq_add_of_lt (i a x : Nat) (h : x < 2 ^ i) : x ||| a * 2 ^ i = x + a * 2 ^ i := by
  rw [Nat.lor_comm, Nat.mul_comm, ← Nat.mul_add_lt_is_or h, Nat.add_comm]

theorem encode_eq_add (d b c r : Nat) (hc : c < 64) :
    encode d b c r = r % 256 + c * 16384 + b % 256 * 1048576 + d % 16 * 268435456 := by
  have e8 : ∀ x : Nat, x &&& 0xff = x % 256 := fun x => Nat.and_pow_two_sub_one_eq_mod x 8
  have hr : r % 256 < 256 := Nat.mod_lt _ (by decide)
  have hb : b % 256 < 256 := Nat.mod_lt _ (by decide)
  have hd : d % 16 < 16 := Nat.mod_lt _ (by decide)
  simp only [encode, e8, Nat.shiftLeft_eq]
  rw [show c % 256 = c by omega, show c * 2 ^ 14 % 4294967296 = c * 2 ^ 14 by omega,
    show b % 256 * 2 ^ 20 % 4294967296 = b % 256 * 2 ^ 20 by omega,
    show d % 256 * 2 ^ 28 % 4294967296 = d % 16 * 2 ^ 28 by omega,
    lor_eq_add_of_lt 14 c (r % 256) (by omega),
    lor_eq_add_of_lt 20 (b % 256) _ (by omega),
    lor_eq_add_of_lt 28 (d % 16) _ (by omega)]
  norm_num

/-- C11. Command round trip of the wire codec.  For every command `c < 64` and all
values of `diskID`, `blockID` and `reserved`, the decoder of the transport returns
the command: `(encode(diskID, blockID, c, reserved) >> 14) & 0x3F = c`, and the low
eight bits of the descriptor are `reserved & 0xFF`.  In particular the descriptors
of JBOD_READ_BLOCK and JBOD_WRITE_BLOCK are recognised whatever disk and block
indices they carry. -/
theorem encode_command_roundtrip (diskID blockID c reserved : Nat) (hc : c < 64) :
    (encode diskID blockID c reserved >>> 14) &&& 0x3F = c
      ∧ encode diskID blockID c reserved &&& 0xFF = reserved &&& 0xFF
      ∧ (encode diskID blockID JBOD_READ_BLOCK reserved >>> 14) &&& 0x3F = JBOD_READ_BLOCK
      ∧ (encode diskID blockID JBOD_WRITE_BLOCK reserved >>> 14) &&& 0x3F = JBOD_WRITE_BLOCK := by
  have e8 : ∀ x : Nat, x &&& 0xFF = x % 256 := fun x => Nat.and_pow_two_sub_one_eq_mod x 8
  have e6 : ∀ x : Nat, x &&& 0x3F = x % 64 := fun x => Nat.and_pow_two_sub_one_eq_mod x 6
  have key : ∀ k, k < 64 → (encode diskID blockID k reserved >>> 14) &&& 0x3F = k := by
    intro k hk
    rw [e6, Nat.shiftRight_eq_div_pow, encode_eq_add _ _ _ _ hk]
    omega
  refine ⟨key c hc, ?_, key _ (by decide), key _ (by decide)⟩
  rw [e8, e8, encode_eq_add _ _ _ _ hc]
  omega

/-- C11 at the descriptor of command 63 for disk 15, block 255, reserved 255. -/
theorem encode_command_roundtrip_witness :
    (encode 15 255 63 255 >>> 14) &&& 0x3F = 63
      ∧ encode 15 255 63 255 &&& 0xFF = 255 &&& 0xFF :=
  ⟨(encode_command_roundtrip 15 255 63 255 (by decide)).1,
    (encode_command_roundtrip 15 255 63 255 (by decide)).2.1⟩

/-! ## C12: zero-length transfers -/

/-- C12 (defect of the code). A zero-length transfer at `addr` = 1048576, the
capacity, passes `inputCheck`; `mdadm_read` returns 0, but `mdadm_write` returns -1,
because it first reads the block at `addr` with `mdadm_read(1048576, 256, buffer)`,
which is out of range.  One byte below the capacity both return 0. -/
theorem mdadm_write_zero_at_capacity :
    inputCheck 1048576 0 false = false
      ∧ (mdadm_read 2 (demoState true false) 1048576 0 (some uninit)).map (fun r => r.1) = some 0
      ∧ (mdadm_write 2 (demoState true false) 1048576 0 (some demoData)).map (fun r => r.1)
        = some (-1)
      ∧ (mdadm_write 2 (demoState true true) 1048576 0 (some demoData)).map (fun r => r.1)
        = some (-1)
      ∧ (mdadm_write 2 (demoState true false) 1048575 0 (some demoData)).map (fun r => r.1)
        = some 0 := by
  decide!

/-! ## C13: what a write leaves untouched -/

theorem exec_store (j : Jbod) (op : Nat) (p : List Byte)
    (h : (op >>> 14) &&& 0x3F ≠ JBOD_WRITE_BLOCK) : (j.exec op p).store = j.store := by
  unfold Jbod.exec
  simp only
  split_ifs <;> rfl

theorem mdadm_write_at_capacity (F : Nat) (st : State) (data : Buf) (hg : Good st.link)
    (hm : st.isMounted = true) :
    ∃ st', mdadm_write (F + 2) st 1048576 0 (some data) = some (-1, st')
      ∧ st'.link.jbod.store = st.link.jbod.store := by
  have hg1 := good_exchange st (encode 16 0 JBOD_SEEK_TO_DISK 0) [] hg
  refine ⟨(st.exchange (encode 16 0 JBOD_SEEK_TO_DISK 0) []).seekBlock 0, ?_, ?_⟩
  · simp only [mdadm_write, JBOD_DISK_SIZE, JBOD_BLOCK_SIZE, JBOD_NUM_BLOCKS_PER_DISK,
      Option.isNone_some, inputCheck_valid 1048576 0 false (by decide) (by decide) (Or.inl rfl),
      hm, Bool.not_true, Bool.or_self, Bool.false_eq_true, if_false]
    rw [jbod_good F st (encode 16 0 JBOD_SEEK_TO_DISK 0) none hg (by decide)]
    simp only
    rw [if_neg (by decide), if_neg (by decide),
      jbod_seek_block F (st.exchange (encode 16 0 JBOD_SEEK_TO_DISK 0) []) 0 hg1 (by decide)]
    simp only [mdadm_read, Option.isNone_some]
    rw [show inputCheck (16 * 256 * 256 + 0 * 256) 256 false = true by decide]
    simp
  · show (st.link.jbod.exec (encode 16 0 JBOD_SEEK_TO_DISK 0) []).store = _
    exact exec_store _ _ _ (by decide)

/-- C13. Read-modify-write frame.  With the cache disabled, mounted, over a quiet
connection to the device model, for every `addr`, `len ≤ 1024` with
`addr + len ≤ 1048576`: `mdadm_write(addr, len, data)` returns (`len`, when
`addr` is below the capacity), and afterwards the byte at every linear address
outside `[addr, addr + len)` is the one held before the call, and the byte at
`addr + i`, `i < len`, is `data[i]`. -/
theorem mdadm_write_frame (F : Nat) (st : State) (addr len : Nat) (data : Buf)
    (hg : Good st.link) (hm : st.isMounted = true) (hc : st.cache.enabled = false)
    (hl : len ≤ 1024) (hcap : addr + len ≤ 1048576) :
    ∃ r st', mdadm_write (F + 2) st addr len (some data) = some (r, st')
      ∧ (addr < 1048576 → r = (len : Int))
      ∧ (∀ a, ¬ (addr ≤ a ∧ a < addr + len) →
          mem st'.link.jbod.store a = mem st.link.jbod.store a)
      ∧ (∀ i, i < len → mem st'.link.jbod.store (addr + i) = data i) := by
  by_cases ha : addr < 1048576
  · obtain ⟨st', he, _, _, _, _, hmem⟩ := mdadm_write_nocache F st addr len data hg hm hc ha hl hcap
    refine ⟨(len : Int), st', he, fun _ => rfl, fun a h => ?_, fun i hi => ?_⟩
    · rw [hmem a, if_neg h]
    · rw [hmem (addr + i), if_pos (by omega)]
      congr 1
      omega
  · have h1 : addr = 1048576 := by omega
    have h2 : len = 0 := by omega
    subst h1 h2
    obtain ⟨st', he, hs⟩ := mdadm_write_at_capacity F st data hg hm
    exact ⟨-1, st', he, fun h => absurd h ha, fun a _ => by rw [hs],
      fun i hi => absurd hi (Nat.not_lt_zero i)⟩

/-- C13 at the cross-block write of 300 bytes at address 250. -/
theorem mdadm_write_frame_witness :
    Good (demoState true false).link
      ∧ ∃ r st', mdadm_write 2 (demoState true false) 250 300 (some demoData) = some (r, st')
        ∧ ((250 : Nat) < 1048576 → r = ((300 : Nat) : Int))
        ∧ (∀ a, ¬ (250 ≤ a ∧ a < 250 + 300) →
            mem st'.link.jbod.store a = mem (demoState true false).link.jbod.store a)
        ∧ (∀ i, i < 300 → mem st'.link.jbod.store (250 + i) = demoData i) :=
  ⟨⟨rfl, rfl, rfl, rfl, rfl⟩,
    mdadm_write_frame 0 (demoState true false) 250 300 demoData ⟨rfl, rfl, rfl, rfl, rfl⟩ rfl rfl
      (by decide) (by decide)⟩

/-! ## C18: address decomposition -/

/-- C18. Address decomposition.  For every `addr < 1048576` the values of `diskID`,
`blockID` and `currentAddr` that `mdadm_read` and `mdadm_write` compute are
`addr / 65536`, `(addr mod 65536) / 256` and `(addr mod 65536) mod 256`; they
satisfy `diskID < 16`, `blockID < 256`, `currentAddr < 256` and recompose to
`addr`. -/
theorem locate_spec (addr : Nat) (h : addr < 1048576) :
    (locate addr).1 = addr / 65536
      ∧ (locate addr).2.1 = addr % 65536 / 256
      ∧ (locate addr).2.2 = addr % 65536 % 256
      ∧ (locate addr).1 < 16 ∧ (locate addr).2.1 < 256 ∧ (locate addr).2.2 < 256
      ∧ (locate addr).1 * 65536 + (locate addr).2.1 * 256 + (locate addr).2.2 = addr := by
  simp only [locate, JBOD_DISK_SIZE, JBOD_BLOCK_SIZE, JBOD_NUM_BLOCKS_PER_DISK]
  refine ⟨trivial, ?_, ?_, ?_, ?_, ?_, ?_⟩ <;> omega

/-- C18 at address 65279 = disk 0, block 254, offset 255. -/
theorem locate_spec_witness :
    (65279 : Nat) < 1048576 ∧ (locate 65279).1 = 65279 / 65536
      ∧ (locate 65279).2.1 = 65279 % 65536 / 256 :=
  ⟨by decide, (locate_spec 65279 (by decide)).1, (locate_spec 65279 (by decide)).2.1⟩

/-- The locals of `mdadm_read` are those of `locate`: past the validation, the seeks,
the fetch and the loop are run with `(locate addr).1` for `diskID`, `(locate addr).2.1`
for `blockID` and `(locate addr).2.2` for `currentAddr`. -/
theorem mdadm_read_locate (F : Nat) (st : State) (addr len : Nat) (buf : Option Buf)
    (hv : inputCheck addr len buf.isNone = false) (hm : st.isMounted = true) :
    mdadm_read F st addr len buf
      = (st.jbod F (encode (locate addr).1 0 JBOD_SEEK_TO_DISK 0) none).bind fun r1 =>
          (r1.2.2.jbod F (encode 0 (locate addr).2.1 JBOD_SEEK_TO_BLOCK 0) none).bind fun r2 =>
            (fetchBlock F r2.2.2 (locate addr).1 (locate addr).2.1 uninit r2.1 0).bind fun f =>
              if r1.1 = -1 ∨ f.seekBlockCheck = -1 ∨ f.readBlockCheck = -1 then
                some (-1, f.st, buf)
              else
                (readLoop len F f.st addr len (buf.getD uninit) (locate addr).1
                    (locate addr).2.1 (locate addr).2.2 len 0 f.buffer f.readBlockCheck).bind
                  fun r => some (r.1, r.2.1, buf.map (fun _ => r.2.2)) := by
  simp only [mdadm_read, locate, hv, hm, Bool.not_true, Bool.or_self, Bool.false_eq_true, if_false]
  cases st.jbod F (encode (addr / JBOD_DISK_SIZE) 0 JBOD_SEEK_TO_DISK 0) none with
  | none => rfl
  | some r1 =>
    simp only [Option.some_bind]
    cases r1.2.2.jbod F (encode 0 ((addr - addr / JBOD_DISK_SIZE * JBOD_DISK_SIZE)
        / JBOD_BLOCK_SIZE) JBOD_SEEK_TO_BLOCK 0) none with
    | none => rfl
    | some r2 =>
      simp only [Option.some_bind]
      cases fetchBlock F r2.2.2 (addr / JBOD_DISK_SIZE)
          ((addr - addr / JBOD_DISK_SIZE * JBOD_DISK_SIZE) / JBOD_BLOCK_SIZE) uninit r2.1 0 with
      | none => rfl
      | some f =>
        simp only [Option.some_bind]
        split_ifs
        · rfl
        · cases readLoop len F f.st addr len (buf.getD uninit) (addr / JBOD_DISK_SIZE)
              ((addr - addr / JBOD_DISK_SIZE * JBOD_DISK_SIZE) / JBOD_BLOCK_SIZE)
              (addr - (addr / JBOD_DISK_SIZE * JBOD_NUM_BLOCKS_PER_DISK * JBOD_BLOCK_SIZE
                + (addr - addr / JBOD_DISK_SIZE * JBOD_DISK_SIZE) / JBOD_BLOCK_SIZE
                  * JBOD_BLOCK_SIZE)) len 0 f.buffer f.readBlockCheck <;> rfl

/-- The locals of `mdadm_write` are those of `locate` as well. -/
theorem mdadm_write_locate (F : Nat) (st : State) (addr len : Nat) (buf : Option Buf)
    (hv : inputCheck addr len buf.isNone = false) (hm : st.isMounted = true) :
    mdadm_write F st addr len buf
      = (st.jbod F (encode (locate addr).1 0 JBOD_SEEK_TO_DISK 0) none).bind fun r1 =>
          (r1.2.2.jbod F (encode 0 (locate addr).2.1 JBOD_SEEK_TO_BLOCK 0) none).bind fun r2 =>
            (mdadm_read F r2.2.2 (addr - (locate addr).2.2) JBOD_BLOCK_SIZE (some uninit)).bind
              fun r3 =>
                if r1.1 = -1 ∨ r2.1 = -1 ∨ r3.1 = -1 then some (-1, r3.2.1)
                else writeLoop len F r3.2.1 len (buf.getD uninit) (locate addr).1
                  (locate addr).2.1 (locate addr).2.2 len 0 (r3.2.2.getD uninit) := by
  have hs : addr - (addr - (addr / 65536 * 256 * 256 + (addr - addr / 65536 * 65536) / 256 * 256))
      = addr / 65536 * 256 * 256 + (addr - addr / 65536 * 65536) / 256 * 256 := by omega
  simp only [mdadm_write, locate, hv, hm, Bool.not_true, Bool.or_self, Bool.false_eq_true,
    if_false, JBOD_DISK_SIZE, JBOD_BLOCK_SIZE, JBOD_NUM_BLOCKS_PER_DISK, hs]
  cases st.jbod F (encode (addr / 65536) 0 JBOD_SEEK_TO_DISK 0) none with
  | none => rfl
  | some r1 =>
    simp only [Option.some_bind]
    cases r1.2.2.jbod F (encode 0 ((addr - addr / 65536 * 65536) / 256)
        JBOD_SEEK_TO_BLOCK 0) none with
    | none => rfl
    | some r2 =>
      simp only [Option.some_bind]
      cases mdadm_read F r2.2.2 (addr / 65536 * 256 * 256
          + (addr - addr / 65536 * 65536) / 256 * 256) 256 (some uninit) with
      | none => rfl
      | some r3 => rfl

/-! ## C17: results of `read` / `write` that are not positive -/

theorem nreadLoop_eof (F : Nat) : ∀ (l : Link) (buf : Buf), l.rx = [] → l.readRes = [] →
    nreadLoop F l 8 buf 0 = none := by
  induction F with
  | zero => intro l buf _ _; rfl
  | succ F ih =>
    intro l buf hrx hr
    simp only [nreadLoop, sys_read, hr, hrx]
    rw [if_pos (by decide)]
    exact ih _ _ (by simp) rfl

/-- C17 (defect of the code). `nread` and `nwrite` add whatever `read` / `write`
return to their counter and go on: after a result 0 or -1 they make further
attempts and return true, and at end of stream, where `read` returns 0 every time,
`nread` does not return for any number of iterations. -/
theorem nread_nwrite_ignore_errors :
    (nread 3 (scriptLink [1, 2, 3, 4, 5, 6, 7, 8] [0] []) 8 uninit).map (fun r => r.1) = some true
      ∧ (nread 3 (scriptLink [1, 2, 3, 4, 5, 6, 7, 8, 9] [-1] []) 8 uninit).map (fun r => r.1)
        = some true
      ∧ (nwrite 3 (scriptLink [] [] [0]) 8 demoData).map (fun r => r.1) = some true
      ∧ (nwrite 3 (scriptLink [] [] [-1]) 8 demoData).map (fun r => r.1) = some true
      ∧ ∀ F, nread F eofLink 8 uninit = none :=
  ⟨by decide!, by decide!, by decide!, by decide!, fun F => nreadLoop_eof F eofLink uninit rfl rfl⟩

/-! ## C20: reassembly over partial transfers -/

theorem blit_nil (b : Buf) (off : Nat) : blit b off [] = b := by
  funext i
  simp only [blit, List.length_nil]
  rw [if_neg (by omega)]

theorem getD_take (l : List Byte) (n i : Nat) (d : Byte) (h : i < n) :
    (l.take n).getD i d = l.getD i d := by
  simp only [List.getD_eq_getElem?_getD, List.getElem?_take, if_pos h]

theorem getD_drop (l : List Byte) (k i : Nat) (d : Byte) :
    (l.drop k).getD i d = l.getD (k + i) d := by
  simp only [List.getD_eq_getElem?_getD, List.getElem?_drop]

theorem blit_blit (buf : Buf) (nr k m : Nat) (rx : List Byte) (h : k + m ≤ rx.length) :
    blit (blit buf nr (rx.take k)) (nr + k) ((rx.drop k).take m) = blit buf nr (rx.take (k + m)) := by
  funext i
  have h1 : (rx.take k).length = k := by rw [List.length_take]; omega
  have h2 : ((rx.drop k).take m).length = m := by
    rw [List.length_take, List.length_drop]; omega
  have h3 : (rx.take (k + m)).length = k + m := by rw [List.length_take]; omega
  simp only [blit, h1, h2, h3]
  by_cases ha : nr + k ≤ i ∧ i < nr + k + m
  · rw [if_pos ha, if_pos (by omega), getD_take _ _ _ _ (by omega), getD_drop,
      getD_take _ _ _ _ (by omega)]
    congr 1
    omega
  · rw [if_neg ha]
    by_cases hb : nr ≤ i ∧ i < nr + k
    · rw [if_pos hb, if_pos (by omega), getD_take _ _ _ _ (by omega),
        getD_take _ _ _ _ (by omega)]
    · rw [if_neg hb, if_neg (by omega)]

theorem unused_zero (s : List Int) : unused s 0 = s := by
  cases s <;> simp [unused]

theorem nreadLoop_chunks : ∀ (F : Nat) (l : Link) (len nr : Nat) (buf : Buf),
    nr ≤ len → len - nr ≤ l.rx.length → chunked l.readRes (len - nr) = true → len - nr + 1 ≤ F →
    nreadLoop F l (len : Int) buf (nr : Int)
      = some (true, { l with rx := l.rx.drop (len - nr), readRes := unused l.readRes (len - nr) },
          blit buf nr (l.rx.take (len - nr))) := by
  intro F
  induction F with
  | zero => intro l len nr buf _ _ _ h; omega
  | succ F ih =>
    intro l len nr buf hle hrx hch hF
    by_cases hlt : nr < len
    · have hlt' : (nr : Int) < (len : Int) := by omega
      rw [nreadLoop, if_pos hlt']
      cases hs : l.readRes with
      | nil =>
        have hk : min ((len : Int) - (nr : Int)).toNat l.rx.length = len - nr := by omega
        have hcnt : (nr : Int) + ((len - nr : Nat) : Int) = (len : Int) := by omega
        simp only [sys_read, hs, hk, hcnt, Int.toNat_ofNat]
        rw [ih _ len len _ (Nat.le_refl _) (by omega) (by simp [chunked]) (by omega)]
        simp only [Nat.sub_self, List.drop_zero, List.take_zero, blit_nil, unused]
      | cons r rest =>
        rw [hs] at hch
        simp only [chunked, Bool.or_eq_true, beq_iff_eq, Bool.and_eq_true, decide_eq_true_eq]
          at hch
        have hch' : 0 < r ∧ r ≤ ((len - nr : Nat) : Int) ∧ chunked rest (len - nr - r.toNat) = true := by
          rcases hch with h | ⟨⟨h1, h2⟩, h3⟩
          · omega
          · exact ⟨h1, h2, h3⟩
        obtain ⟨k, rfl⟩ : ∃ k : Nat, r = (k : Int) := ⟨r.toNat, by omega⟩
        have hk0 : 0 < k := by omega
        have hk1 : k ≤ len - nr := by omega
        have hcnt : (nr : Int) + (k : Int) = ((nr + k : Nat) : Int) := by omega
        have hih := ih { l with readRes := rest, rx := l.rx.drop k } len (nr + k)
          (blit buf nr (l.rx.take k)) (by omega) (by simp only [List.length_drop]; omega)
          (by simpa [Nat.sub_sub] using hch'.2.2) (by omega)
        simp only [sys_read, hs, Int.toNat_ofNat]
        rw [if_neg (by omega)]
        simp only
        rw [hcnt, hih]
        have e1 : List.drop (len - (nr + k)) (List.drop k l.rx) = List.drop (len - nr) l.rx := by
          rw [List.drop_drop]; congr 1; omega
        have e2 : unused ((k : Int) :: rest) (len - nr) = unused rest (len - (nr + k)) := by
          simp only [unused, Int.toNat_ofNat]
          rw [if_neg (by omega), Nat.sub_sub]
        have e3 : blit (blit buf nr (List.take k l.rx)) (nr + k)
            (List.take (len - (nr + k)) (List.drop k l.rx))
            = blit buf nr (List.take (len - nr) l.rx) := by
          rw [blit_blit buf nr k (len - (nr + k)) l.rx (by omega),
            show k + (len - (nr + k)) = len - nr by omega]
        simp only [e1, e2, e3]
    · have he : nr = len := by omega
      subst he
      rw [nreadLoop, if_neg (by omega), if_neg (by omega)]
      simp only [Nat.sub_self, List.drop_zero, List.take_zero, blit_nil, unused_zero]

theorem slice_drop (b : Buf) (off n k : Nat) :
    (slice b off n).drop k = slice b (off + k) (n - k) := by
  apply List.ext_getElem?
  intro i
  simp only [slice, List.getElem?_drop, List.getElem?_map]
  by_cases h : k + i < n
  · rw [List.getElem?_range h, List.getElem?_range (by omega)]
    simp [Nat.add_assoc]
  · rw [List.getElem?_eq_none (by simp; omega), List.getElem?_eq_none (by simp; omega)]
    rfl

theorem deliver_writeRes (l : Link) (bs : List Byte) : (deliver l bs).writeRes = l.writeRes := by
  unfold deliver
  simp only
  split_ifs <;> rfl

theorem chunksOf_nil (s : List Int) : chunksOf s [] = [] := by
  cases s <;> simp [chunksOf]

theorem slice_ne_nil (b : Buf) (off n : Nat) (h : 0 < n) : slice b off n ≠ [] := by
  intro he
  have := congrArg List.length he
  rw [slice_length] at this
  simp at this
  omega

theorem nwriteLoop_chunks : ∀ (F : Nat) (l : Link) (len nw : Nat) (buf : Buf),
    nw ≤ len → chunked l.writeRes (len - nw) = true → len - nw + 1 ≤ F →
    nwriteLoop F l (len : Int) buf (nw : Int)
      = some (true, (chunksOf l.writeRes (slice buf nw (len - nw))).foldl put l) := by
  intro F
  induction F with
  | zero => intro l len nw buf _ _ h; omega
  | succ F ih =>
    intro l len nw buf hle hch hF
    by_cases hlt : nw < len
    · have hlt' : (nw : Int) < (len : Int) := by omega
      have hn : ((len : Int) - (nw : Int)).toNat = len - nw := by omega
      have hne := slice_ne_nil buf nw (len - nw) (by omega)
      rw [nwriteLoop, if_pos hlt']
      cases hs : l.writeRes with
      | nil =>
        have hcnt : (nw : Int) + ((len - nw : Nat) : Int) = (len : Int) := by omega
        have hl : { l with writeRes := [] } = l := by
          cases l; simp only at hs; subst hs; rfl
        simp only [sys_write, hs, hn, Int.toNat_ofNat, slice_length]
        rw [hcnt, ih _ len len _ (Nat.le_refl _) (by simp only [Nat.sub_self]; cases (deliver l
          (slice buf nw (len - nw))).writeRes <;> simp [chunked]) (by omega)]
        simp only [Nat.sub_self, slice, List.range_zero, List.map_nil, chunksOf_nil,
          List.foldl_nil]
        simp only [chunksOf]
        rw [if_neg (by simpa [slice] using hne)]
        simp only [List.foldl_cons, List.foldl_nil, put, hs, List.tail_nil, hl]
      | cons r rest =>
        rw [hs] at hch
        simp only [chunked, Bool.or_eq_true, beq_iff_eq, Bool.and_eq_true, decide_eq_true_eq]
          at hch
        have hch' : 0 < r ∧ r ≤ ((len - nw : Nat) : Int)
            ∧ chunked rest (len - nw - r.toNat) = true := by
          rcases hch with h | ⟨⟨h1, h2⟩, h3⟩
          · omega
          · exact ⟨h1, h2, h3⟩
        obtain ⟨k, rfl⟩ : ∃ k : Nat, r = (k : Int) := ⟨r.toNat, by omega⟩
        have hk0 : 0 < k := by omega
        have hk1 : k ≤ len - nw := by omega
        have hcnt : (nw : Int) + (k : Int) = ((nw + k : Nat) : Int) := by omega
        have hih := ih (deliver { l with writeRes := rest } ((slice buf nw (len - nw)).take k))
          len (nw + k) buf (by omega)
          (by rw [deliver_writeRes]; simpa [Nat.sub_sub] using hch'.2.2) (by omega)
        simp only [sys_write, hs, hn, Int.toNat_ofNat]
        rw [if_neg (by omega)]
        simp only
        rw [hcnt, hih, deliver_writeRes]
        simp only [chunksOf, Int.toNat_ofNat]
        rw [if_neg hne, slice_drop, Nat.sub_sub]
        simp only [List.foldl_cons, put, hs, List.tail_cons]
    · have he : nw = len := by omega
      subst he
      rw [nwriteLoop, if_neg (by omega), if_neg (by omega)]
      simp only [Nat.sub_self, slice, List.range_zero, List.map_nil, chunksOf_nil, List.foldl_nil]

theorem chunksOf_join : ∀ (s : List Int) (data : List Byte), (chunksOf s data).flatten = data := by
  intro s
  induction s with
  | nil =>
    intro data
    by_cases h : data = []
    · simp [chunksOf, h]
    · simp [chunksOf, h]
  | cons r rest ih =>
    intro data
    by_cases h : data = []
    · simp [chunksOf, h]
    · simp only [chunksOf, if_neg h, List.flatten_cons, ih, List.take_append_drop]

/-- C20. Reassembly over partial transfers.  Let the coming `read` (resp. `write`)
calls return scripted counts, each positive and at most the number of bytes still
requested, and transfer everything asked for once the script is used up.  Then for
every `len`, with at least `len` bytes in the stream and a bound `F > len` on the
iterations, `nread` returns true, takes exactly the first `len` bytes off the stream
and leaves them in order in `buf[0..len)`, the rest of `buf` untouched, whatever the
script; and `nwrite` returns true after putting on the stream pieces whose
concatenation, in order, is exactly `buf[0..len)`. -/
theorem nread_nwrite_reassemble (F : Nat) (l : Link) (len : Nat) (buf : Buf)
    (hF : len + 1 ≤ F) :
    (chunked l.readRes len = true → len ≤ l.rx.length →
        nread F l (len : Int) buf
          = some (true, { l with rx := l.rx.drop len, readRes := unused l.readRes len },
              blit buf 0 (l.rx.take len))
        ∧ (∀ i, i < len → blit buf 0 (l.rx.take len) i = l.rx.getD i 0)
        ∧ (∀ i, len ≤ i → blit buf 0 (l.rx.take len) i = buf i))
      ∧ (chunked l.writeRes len = true →
        nwrite F l (len : Int) buf
          = some (true, (chunksOf l.writeRes (slice buf 0 len)).foldl put l)
        ∧ (chunksOf l.writeRes (slice buf 0 len)).flatten = slice buf 0 len) := by
  constructor
  · intro hch hrx
    have hlen : (l.rx.take len).length = len := by rw [List.length_take]; omega
    refine ⟨?_, fun i hi => ?_, fun i hi => ?_⟩
    · have h := nreadLoop_chunks F l len 0 buf (Nat.zero_le _) hrx hch hF
      simpa [nread] using h
    · simp only [blit, hlen]
      rw [if_pos (by omega), getD_take _ _ _ _ (by omega)]
      rfl
    · simp only [blit, hlen]
      rw [if_neg (by omega)]
  · intro hch
    refine ⟨?_, chunksOf_join _ _⟩
    have h := nwriteLoop_chunks F l len 0 buf (Nat.zero_le _) hch hF
    simpa [nwrite] using h

/-- C20 for eight bytes read in pieces of 3, 2 and 3 bytes, and eight bytes written
in pieces of 5 and 3. -/
theorem nread_nwrite_reassemble_witness :
    nread 9 (scriptLink [1, 2, 3, 4, 5, 6, 7, 8] [3, 2] [5]) 8 uninit
        = some (true,
            { scriptLink [1, 2, 3, 4, 5, 6, 7, 8] [3, 2] [5] with
              rx := ([1, 2, 3, 4, 5, 6, 7, 8] : List Byte).drop 8,
              readRes := unused [3, 2] 8 },
            blit uninit 0 (([1, 2, 3, 4, 5, 6, 7, 8] : List Byte).take 8))
      ∧ (chunksOf [5] (slice demoData 0 8)).flatten = slice demoData 0 8 :=
  ⟨((nread_nwrite_reassemble 9 (scriptLink [1, 2, 3, 4, 5, 6, 7, 8] [3, 2] [5]) 8 uninit
      (by decide)).1 (by decide) (by decide)).1,
    ((nread_nwrite_reassemble 9 (scriptLink [1, 2, 3, 4, 5, 6, 7, 8] [3, 2] [5]) 8 demoData
      (by decide)).2 (by decide)).2⟩

/-! ## The transport calls of a write, whatever the cache holds -/

theorem fetch_any (F : Nat) (st : State) (d b : Nat) (buffer : Buf) (sbc rbc : Int)
    (hg : Good st.link) (hb : b < 256) :
    ∃ f op, fetchBlock (F + 2) st d b buffer sbc rbc = some f ∧ Good f.st.link
      ∧ f.st.isMounted = st.isMounted ∧ f.st.link.calls = st.link.calls ++ [op]
      ∧ (op = encode 0 0 JBOD_READ_BLOCK 0 ∨ op = encode 0 (b + 1) JBOD_SEEK_TO_BLOCK 0)
      ∧ (sbc ≠ -1 → f.seekBlockCheck ≠ -1) ∧ (rbc ≠ -1 → f.readBlockCheck ≠ -1) := by
  have hgr := good_readBlock st hg
  have hgs := good_seekBlock st (b + 1) hg
  by_cases hc : st.cache.enabled = true
  · cases he : st.cache.entry d b with
    | none =>
      have h := jbod_read_block F
        ⟨st.isMounted, ⟨true, st.cache.entry, st.cache.calls + 1 + 1⟩, st.link⟩ buffer hg
      have hf : ∃ f, fetchBlock (F + 2) st d b buffer sbc rbc = some f
          ∧ f.st.link = st.readBlock.link ∧ f.st.isMounted = st.isMounted
          ∧ f.seekBlockCheck = sbc ∧ f.readBlockCheck = 1 := by
        simp only [fetchBlock, cache_enabled, cache_lookup, he, hc, if_true]
        rw [h]
        exact ⟨_, rfl, rfl, rfl, rfl, rfl⟩
      obtain ⟨f, hf, h1, h2, h3, h4⟩ := hf
      exact ⟨f, encode 0 0 JBOD_READ_BLOCK 0, hf, h1 ▸ hgr, h2, by rw [h1]; rfl, Or.inl rfl,
        fun h => h3 ▸ h, fun _ => by rw [h4]; decide⟩
    | some img =>
      have h := jbod_seek_block F
        ⟨st.isMounted, ⟨true, st.cache.entry, st.cache.calls + 1 + 1⟩, st.link⟩ (b + 1) hg
        (by omega)
      have hf : ∃ f, fetchBlock (F + 2) st d b buffer sbc rbc = some f
          ∧ f.st.link = (st.seekBlock (b + 1)).link ∧ f.st.isMounted = st.isMounted
          ∧ f.seekBlockCheck = 1 ∧ f.readBlockCheck = rbc := by
        simp only [fetchBlock, cache_enabled, cache_lookup, he, hc, if_true]
        rw [if_neg (by decide), h]
        exact ⟨_, rfl, rfl, rfl, rfl, rfl⟩
      obtain ⟨f, hf, h1, h2, h3, h4⟩ := hf
      exact ⟨f, encode 0 (b + 1) JBOD_SEEK_TO_BLOCK 0, hf, h1 ▸ hgs, h2, by rw [h1]; rfl,
        Or.inr rfl, fun _ => by rw [h3]; decide, fun h => h4 ▸ h⟩
  · have h := jbod_read_block F
      { st with cache := { st.cache with calls := st.cache.calls + 1 } } buffer hg
    have hf : ∃ f, fetchBlock (F + 2) st d b buffer sbc rbc = some f
        ∧ f.st.link = st.readBlock.link ∧ f.st.isMounted = st.isMounted
        ∧ f.seekBlockCheck = sbc ∧ f.readBlockCheck = 1 := by
      simp only [fetchBlock, cache_enabled]
      rw [if_neg hc, h]
      exact ⟨_, rfl, rfl, rfl, rfl, rfl⟩
    obtain ⟨f, hf, h1, h2, h3, h4⟩ := hf
    exact ⟨f, encode 0 0 JBOD_READ_BLOCK 0, hf, h1 ▸ hgr, h2, by rw [h1]; rfl, Or.inl rfl,
      fun h => h3 ▸ h, fun _ => by rw [h4]; decide⟩

theorem readLoop_last (n F : Nat) (st : State) (addr len : Nat) (buf : Buf)
    (d b ca rem numRead : Nat) (buffer : Buf) (rbc : Int) (h0 : rem > 0) (h1 : ca + rem ≤ 256) :
    readLoop (n + 1) F st addr len buf d b ca rem numRead buffer rbc
      = some ((len : Int), st, memcpy buf numRead buffer ca rem) := by
  have hnc : ¬ ((addr + numRead + rem) % 4294967296 > ((d + 1) * (256 * 256) - 1) % 4294967296
      ∧ ca + rem > 256 ∧ b = 256 - 1) := fun h => absurd h.2.1 (by omega)
  simp only [readLoop, JBOD_BLOCK_SIZE, JBOD_NUM_BLOCKS_PER_DISK]
  rw [if_pos h0, if_neg hnc, if_neg (by omega), readLoop_done]

theorem mdadm_read_block_any (F : Nat) (st : State) (addr d b : Nat) (buf : Buf)
    (hg : Good st.link) (hm : st.isMounted = true) (hd : d < 16) (hb : b < 256)
    (haddr : addr = d * 65536 + b * 256) :
    ∃ st' buf' r, mdadm_read (F + 2) st addr 256 (some buf) = some (256, st', some buf')
      ∧ Good st'.link ∧ st'.isMounted = true ∧ st'.link.calls = st.link.calls ++ r
      ∧ r ∈ readBlockTraces d b := by
  have hdv : addr / 65536 = d := by omega
  have hbv : (addr - d * 65536) / 256 = b := by omega
  have hcv : addr - (d * 256 * 256 + b * 256) = 0 := by omega
  have hg1 := good_seekDisk st d hg
  have hg2 := good_seekBlock _ b hg1
  obtain ⟨f, op, hf, hgf, hmf, hcf, hop, hsb, hrb⟩ :=
    fetch_any F ((st.seekDisk d).seekBlock b) d b uninit 1 0 hg2 hb
  refine ⟨f.st, memcpy buf 0 f.buffer 0 256, [encode d 0 JBOD_SEEK_TO_DISK 0,
    encode 0 b JBOD_SEEK_TO_BLOCK 0, op], ?_, hgf, hmf.trans hm, ?_, ?_⟩
  · simp only [mdadm_read, JBOD_DISK_SIZE, JBOD_BLOCK_SIZE, JBOD_NUM_BLOCKS_PER_DISK,
      Option.isNone_some, inputCheck_valid addr 256 false (by decide) (by omega) (Or.inl rfl), hm,
      Bool.not_true, Bool.or_self, Bool.false_eq_true, if_false, hdv, hbv, hcv]
    rw [jbod_seek_disk F st _ hg hd]
    simp only
    rw [jbod_seek_block F _ _ hg1 (by omega)]
    simp only
    rw [hf]
    simp only
    rw [if_neg (by
      intro h
      rcases h with h | h | h
      · exact absurd h (by decide)
      · exact hsb (by decide) h
      · exact hrb (by decide) h)]
    simp only [Option.getD_some]
    rw [readLoop_last 255 _ _ _ _ _ _ _ _ _ _ _ _ (by decide) (by decide)]
    rfl
  · rw [hcf]
    show (st.link.calls ++ [encode d 0 JBOD_SEEK_TO_DISK 0] ++ [encode 0 b JBOD_SEEK_TO_BLOCK 0])
      ++ [op] = _
    simp
  · rcases hop with h | h
    · subst h; simp [readBlockTraces]
    · subst h; simp [readBlockTraces]

theorem cacheStore_link (st : State) (d b : Nat) (buffer : Buf) :
    (cacheStore st d b buffer).link = st.link ∧ (cacheStore st d b buffer).isMounted = st.isMounted := by
  unfold cacheStore
  simp only
  split_ifs <;> exact ⟨rfl, rfl⟩

set_option maxRecDepth 8000 in
theorem writeLoop_trace (F : Nat) : ∀ (n : Nat) (st : State) (len : Nat) (buf : Buf)
    (d b ca rem numRead : Nat) (buffer : Buf),
    Good st.link → st.isMounted = true → rem ≤ n → d < 16 → b < 256 → ca < 256 →
    d * 65536 + b * 256 + ca + rem ≤ 1048576 →
    ∃ st' t, writeLoop n (F + 2) st len buf d b ca rem numRead buffer = some ((len : Int), st')
      ∧ Good st'.link ∧ st'.isMounted = true ∧ st'.link.calls = st.link.calls ++ t
      ∧ t ∈ writeLoopTraces n d b ca rem := by
  intro n
  induction n with
  | zero =>
    intro st len buf d b ca rem numRead buffer hg hm hn hd hb hca hcap
    have hr : rem = 0 := by omega
    subst hr
    exact ⟨st, [], writeLoop_done _ _ _ _ _ _ _ _ _ _, hg, hm, by simp, by simp [writeLoopTraces]⟩
  | succ n ih =>
    intro st len buf d b ca rem numRead buffer hg hm hn hd hb hca hcap
    by_cases hr : rem = 0
    · subst hr
      exact ⟨st, [], writeLoop_done _ _ _ _ _ _ _ _ _ _, hg, hm, by simp,
        by simp [writeLoopTraces]⟩
    · have hr' : rem > 0 := Nat.pos_of_ne_zero hr
      have hg1 := good_seekBlock st b hg
      by_cases c2 : ca + rem > 256
      · have hcs := cacheStore_link (st.seekBlock b) d b
          (memcpy buffer ca buf numRead (256 - ca))
        have hgc : Good (cacheStore (st.seekBlock b) d b
            (memcpy buffer ca buf numRead (256 - ca))).link := hcs.1 ▸ hg1
        have hw := good_writeBlock _ (memcpy buffer ca buf numRead (256 - ca)) hgc
        have hmw : ((cacheStore (st.seekBlock b) d b
            (memcpy buffer ca buf numRead (256 - ca))).writeBlock
              (memcpy buffer ca buf numRead (256 - ca))).isMounted = true := hcs.2.trans hm
        have hcw : ((cacheStore (st.seekBlock b) d b
            (memcpy buffer ca buf numRead (256 - ca))).writeBlock
              (memcpy buffer ca buf numRead (256 - ca))).link.calls
            = st.link.calls ++ [encode 0 b JBOD_SEEK_TO_BLOCK 0, encode 0 0 JBOD_WRITE_BLOCK 0] := by
          show (cacheStore (st.seekBlock b) d b _).link.calls ++ [_] = _
          rw [hcs.1]
          show st.link.calls ++ [_] ++ [_] = _
          simp
        by_cases c3 : b = 255
        · have hd' : d + 1 < 16 := by omega
          have hgs := good_seekDisk _ (d + 1) hw
          obtain ⟨st_r, buf_r, r, her, hgr, hmr, hcr, hr_mem⟩ :=
            mdadm_read_block_any F
              (((cacheStore (st.seekBlock b) d b
                (memcpy buffer ca buf numRead (256 - ca))).writeBlock
                  (memcpy buffer ca buf numRead (256 - ca))).seekDisk (d + 1))
              (d * 256 * 256 + b * 256 + 256) (d + 1) 0
              (memcpy buffer ca buf numRead (256 - ca)) hgs hmw hd' (by omega) (by omega)
          obtain ⟨st', t, he, hg', hm', hc', ht⟩ :=
            ih st_r len buf (d + 1) 0 0 (rem - (256 - ca)) (numRead + (256 - ca)) buf_r hgr hmr
              (by omega) hd' (by omega) (by omega) (by omega)
          refine ⟨st', [encode 0 b JBOD_SEEK_TO_BLOCK 0, encode 0 0 JBOD_WRITE_BLOCK 0,
            encode (d + 1) 0 JBOD_SEEK_TO_DISK 0] ++ r ++ t, ?_, hg', hm', ?_, ?_⟩
          · simp only [writeLoop, JBOD_BLOCK_SIZE, JBOD_NUM_BLOCKS_PER_DISK]
            rw [if_pos hr', jbod_seek_block F st _ hg (by omega)]
            simp only [Option.some_bind]
            rw [if_neg (by decide), if_pos ⟨c2, c3⟩, jbod_write_block F _ _ hgc]
            simp only [Option.some_bind, Option.getD_some]
            rw [jbod_seek_disk F _ _ hw hd']
            simp only [Option.some_bind]
            rw [her]
            simp only [Option.some_bind, Option.getD_some]
            rw [if_neg (by decide)]
            exact he
          · rw [hc', hcr]
            show (_ ++ [encode (d + 1) 0 JBOD_SEEK_TO_DISK 0]) ++ r ++ t = _
            rw [hcw]
            simp
          · simp only [writeLoopTraces]
            rw [if_neg hr, if_pos ⟨c2, c3⟩]
            exact List.mem_flatMap.mpr ⟨r, hr_mem, List.mem_map.mpr ⟨t, ht, rfl⟩⟩
        · have hnc : ¬ (ca + rem > 256 ∧ b = 256 - 1) := fun h => c3 h.2
          obtain ⟨st_r, buf_r, r, her, hgr, hmr, hcr, hr_mem⟩ :=
            mdadm_read_block_any F
              ((cacheStore (st.seekBlock b) d b
                (memcpy buffer ca buf numRead (256 - ca))).writeBlock
                  (memcpy buffer ca buf numRead (256 - ca)))
              (d * 256 * 256 + b * 256 + 256) d (b + 1)
              (memcpy buffer ca buf numRead (256 - ca)) hw hmw hd (by omega) (by omega)
          obtain ⟨st', t, he, hg', hm', hc', ht⟩ :=
            ih st_r len buf d (b + 1) 0 (rem - (256 - ca)) (numRead + (256 - ca)) buf_r hgr hmr
              (by omega) hd (by omega) (by omega) (by omega)
          refine ⟨st', [encode 0 b JBOD_SEEK_TO_BLOCK 0, encode 0 0 JBOD_WRITE_BLOCK 0]
            ++ r ++ t, ?_, hg', hm', ?_, ?_⟩
          · simp only [writeLoop, JBOD_BLOCK_SIZE, JBOD_NUM_BLOCKS_PER_DISK]
            rw [if_pos hr', jbod_seek_block F st _ hg (by omega)]
            simp only [Option.some_bind]
            rw [if_neg (by decide), if_neg hnc, if_pos c2, jbod_write_block F _ _ hgc]
            simp only [Option.some_bind, Option.getD_some]
            rw [her]
            simp only [Option.some_bind, Option.getD_some]
            rw [if_neg (by decide)]
            exact he
          · rw [hc', hcr, hcw]
            simp
          · simp only [writeLoopTraces]
            rw [if_neg hr, if_neg hnc, if_pos c2]
            exact List.mem_flatMap.mpr ⟨r, hr_mem, List.mem_map.mpr ⟨t, ht, rfl⟩⟩
      · have hnc : ¬ (ca + rem > 256 ∧ b = 256 - 1) := fun h => c2 h.1
        have hcs := cacheStore_link (st.seekBlock b) d b (memcpy buffer ca buf numRead rem)
        have hgc : Good (cacheStore (st.seekBlock b) d b
            (memcpy buffer ca buf numRead rem)).link := hcs.1 ▸ hg1
        refine ⟨(cacheStore (st.seekBlock b) d b (memcpy buffer ca buf numRead rem)).writeBlock
          (memcpy buffer ca buf numRead rem),
          [encode 0 b JBOD_SEEK_TO_BLOCK 0, encode 0 0 JBOD_WRITE_BLOCK 0], ?_,
          good_writeBlock _ _ hgc, hcs.2.trans hm, ?_, ?_⟩
        · simp only [writeLoop, JBOD_BLOCK_SIZE, JBOD_NUM_BLOCKS_PER_DISK]
          rw [if_pos hr', jbod_seek_block F st _ hg (by omega)]
          simp only [Option.some_bind]
          rw [if_neg (by decide), if_neg hnc, if_neg c2, jbod_write_block F _ _ hgc]
          simp only [Option.some_bind]
          rw [if_neg (by decide)]
          exact writeLoop_done _ _ _ _ _ _ _ _ _ _
        · show (cacheStore (st.seekBlock b) d b _).link.calls ++ [_] = _
          rw [hcs.1]
          show st.link.calls ++ [_] ++ [_] = _
          simp
        · simp only [writeLoopTraces]
          rw [if_neg hr, if_neg hnc, if_neg c2]
          simp

theorem mdadm_write_trace (F : Nat) (st : State) (addr len : Nat) (data : Buf)
    (hg : Good st.link) (hm : st.isMounted = true) (ha : addr < 1048576) (hl : len ≤ 1024)
    (hcap : addr + len ≤ 1048576) :
    ∃ st' ops, mdadm_write (F + 2) st addr len (some data) = some ((len : Int), st')
      ∧ st'.link.calls = st.link.calls ++ ops ∧ ops ∈ writeTraces addr len := by
  have hd : addr / 65536 < 16 := by omega
  have hb : (addr - addr / 65536 * 65536) / 256 < 256 := by omega
  have hg1 := good_seekDisk st (addr / 65536) hg
  have hg2 := good_seekBlock _ ((addr - addr / 65536 * 65536) / 256) hg1
  obtain ⟨st_r, buf_r, r, her, hgr, hmr, hcr, hr_mem⟩ :=
    mdadm_read_block_any F
      ((st.seekDisk (addr / 65536)).seekBlock ((addr - addr / 65536 * 65536) / 256))
      (addr / 65536 * 256 * 256 + (addr - addr / 65536 * 65536) / 256 * 256) (addr / 65536)
      ((addr - addr / 65536 * 65536) / 256) uninit hg2 hm hd hb (by omega)
  obtain ⟨st', t, he, _, _, hc', ht⟩ :=
    writeLoop_trace F len st_r len data (addr / 65536) ((addr - addr / 65536 * 65536) / 256)
      (addr - (addr / 65536 * 256 * 256 + (addr - addr / 65536 * 65536) / 256 * 256)) len 0 buf_r
      hgr hmr (Nat.le_refl _) hd hb (by omega) (by omega)
  refine ⟨st', [encode (addr / 65536) 0 JBOD_SEEK_TO_DISK 0,
    encode 0 ((addr - addr / 65536 * 65536) / 256) JBOD_SEEK_TO_BLOCK 0] ++ r ++ t, ?_, ?_, ?_⟩
  · simp only [mdadm_write, JBOD_DISK_SIZE, JBOD_BLOCK_SIZE, JBOD_NUM_BLOCKS_PER_DISK,
      Option.isNone_some, inputCheck_valid addr len false hl hcap (Or.inl rfl), hm, Bool.not_true,
      Bool.or_self, Bool.false_eq_true, if_false]
    rw [jbod_seek_disk F st _ hg hd]
    simp only
    rw [jbod_seek_block F _ _ hg1 (by omega)]
    simp only
    rw [her]
    simp only [Option.getD_some]
    rw [if_neg (by decide)]
    exact he
  · rw [hc', hcr]
    show st.link.calls ++ [_] ++ [_] ++ r ++ t = _
    simp
  · simp only [writeTraces, locate, JBOD_DISK_SIZE, JBOD_BLOCK_SIZE, JBOD_NUM_BLOCKS_PER_DISK]
    exact List.mem_flatMap.mpr ⟨r, hr_mem, List.mem_map.mpr ⟨t, ht, rfl⟩⟩

/-! ## C14, C15, C16: the example scenarios -/

theorem landings_seeksFirst (ops : List Nat) (d b : Nat) (h : seeksFirst ops = true) :
    landings ops d b = landings ops 0 0 := by
  match ops, h with
  | x :: y :: rest, h =>
    simp only [seeksFirst, Bool.and_eq_true, decide_eq_true_eq] at h
    have hy : ¬ (y >>> 14) &&& 0x3F = JBOD_SEEK_TO_DISK := by rw [h.2]; decide
    simp only [landings, h.1, h.2, if_true, if_neg hy]

/-- C14 as the claim states it fails: the write of 300 bytes at address 250 issues
three WRITE_BLOCK calls, not two; the third lands on block 2 of disk 0. -/
theorem write_250_300_not_two_writes :
    (mdadm_write 2 (demoState true false) 250 300 (some demoData)).map
        (fun r => writeLandings r.2.link.calls 0 0) = some [(0, 0), (0, 1), (0, 2)] := by
  decide!

/-- C14, amended.  The range [250, 550) overlaps blocks 0, 1 and 2 of disk 0:
in state Mounted over a quiet connection, whatever the cache holds and whatever the
data, `mdadm_write(250, 300, data)` returns 300 and issues exactly three WRITE_BLOCK
calls, landing on blocks 0, 1 and 2 of disk 0 in this order. -/
theorem write_250_300_three_writes (F : Nat) (st : State) (data : Buf) (hg : Good st.link)
    (hm : st.isMounted = true) :
    ∃ st' ops, mdadm_write (F + 2) st 250 300 (some data) = some (300, st')
      ∧ st'.link.calls = st.link.calls ++ ops
      ∧ writeLandings ops st.link.jbod.disk st.link.jbod.block = [(0, 0), (0, 1), (0, 2)] := by
  obtain ⟨st', ops, he, hc, hops⟩ :=
    mdadm_write_trace F st 250 300 data hg hm (by decide) (by decide) (by decide)
  have key : ∀ ops ∈ writeTraces 250 300,
      seeksFirst ops = true ∧ writeLandings ops 0 0 = [(0, 0), (0, 1), (0, 2)] := by decide!
  refine ⟨st', ops, he, hc, ?_⟩
  unfold writeLandings
  rw [landings_seeksFirst ops _ _ (key ops hops).1]
  exact (key ops hops).2

/-- C14, amended, on the sample state. -/
theorem write_250_300_three_writes_witness :
    Good (demoState true true).link
      ∧ ∃ st' ops, mdadm_write 2 (demoState true true) 250 300 (some demoData) = some (300, st')
        ∧ st'.link.calls = (demoState true true).link.calls ++ ops
        ∧ writeLandings ops (demoState true true).link.jbod.disk
            (demoState true true).link.jbod.block = [(0, 0), (0, 1), (0, 2)] :=
  ⟨⟨rfl, rfl, rfl, rfl, rfl⟩,
    write_250_300_three_writes 0 (demoState true true) demoData ⟨rfl, rfl, rfl, rfl, rfl⟩ rfl⟩

/-- C15. Disk boundary, no crossing.  In state Mounted over a quiet connection,
whatever the cache holds and whatever the data, `mdadm_write(65280, 256, data)`
returns 256 and issues exactly one WRITE_BLOCK, landing on disk 0 block 255; it
issues no SEEK_TO_DISK with disk index 1, and none of its READ_BLOCK and WRITE_BLOCK
calls is made while the cursor is on disk 1. -/
theorem write_last_block_stays (F : Nat) (st : State) (data : Buf) (hg : Good st.link)
    (hm : st.isMounted = true) :
    ∃ st' ops, mdadm_write (F + 2) st 65280 256 (some data) = some (256, st')
      ∧ st'.link.calls = st.link.calls ++ ops
      ∧ writeLandings ops st.link.jbod.disk st.link.jbod.block = [(0, 255)]
      ∧ (∀ op ∈ ops, ¬ ((op >>> 14) &&& 0x3F = JBOD_SEEK_TO_DISK ∧ op >>> 28 = 1))
      ∧ (∀ e ∈ landings ops st.link.jbod.disk st.link.jbod.block, e.2.1 ≠ 1) := by
  obtain ⟨st', ops, he, hc, hops⟩ :=
    mdadm_write_trace F st 65280 256 data hg hm (by decide) (by decide) (by decide)
  have key : ∀ ops ∈ writeTraces 65280 256,
      seeksFirst ops = true ∧ writeLandings ops 0 0 = [(0, 255)]
        ∧ (∀ op ∈ ops, ¬ ((op >>> 14) &&& 0x3F = JBOD_SEEK_TO_DISK ∧ op >>> 28 = 1))
        ∧ (∀ e ∈ landings ops 0 0, e.2.1 ≠ 1) := by decide!
  obtain ⟨k1, k2, k3, k4⟩ := key ops hops
  refine ⟨st', ops, he, hc, ?_, k3, ?_⟩
  · unfold writeLandings
    rw [landings_seeksFirst ops _ _ k1]
    exact k2
  · rw [landings_seeksFirst ops _ _ k1]
    exact k4

/-- C15 on the sample state. -/
theorem write_last_block_stays_witness :
    Good (demoState true false).link
      ∧ ∃ st' ops, mdadm_write 2 (demoState true false) 65280 256 (some demoData)
          = some (256, st')
        ∧ st'.link.calls = (demoState true false).link.calls ++ ops
        ∧ writeLandings ops (demoState true false).link.jbod.disk
            (demoState true false).link.jbod.block = [(0, 255)]
        ∧ (∀ op ∈ ops, ¬ ((op >>> 14) &&& 0x3F = JBOD_SEEK_TO_DISK ∧ op >>> 28 = 1))
        ∧ (∀ e ∈ landings ops (demoState true false).link.jbod.disk
            (demoState true false).link.jbod.block, e.2.1 ≠ 1) :=
  ⟨⟨rfl, rfl, rfl, rfl, rfl⟩,
    write_last_block_stays 0 (demoState true false) demoData ⟨rfl, rfl, rfl, rfl, rfl⟩ rfl⟩

/-- C16 as the claim states it fails: the write of 256 bytes at address 65279 ends
at address 65534, inside disk 0.  It issues no SEEK_TO_DISK with disk index 1 and
its WRITE_BLOCK calls land on blocks 254 and 255 of disk 0, none on disk 1. -/
theorem write_65279_does_not_cross :
    (mdadm_write 2 (demoState true false) 65279 256 (some demoData)).map
        (fun r => (writeLandings r.2.link.calls 0 0,
          r.2.link.calls.filter fun op =>
            (op >>> 14) &&& 0x3F = JBOD_SEEK_TO_DISK ∧ op >>> 28 = 1))
      = some ([(0, 254), (0, 255)], []) := by
  decide!

/-- C16, amended.  In state Mounted over a quiet connection, whatever the cache
holds and whatever the data: the write of 256 bytes starting one byte after 65280,
`mdadm_write(65281, 256, data)`, crosses into disk 1 block 0: it issues
SEEK_TO_DISK with disk index 1 and its WRITE_BLOCK calls land on disk 0 block 255
and on disk 1 block 0; the write starting one byte before 65280,
`mdadm_write(65279, 256, data)`, stays on disk 0: it issues no SEEK_TO_DISK with
disk index 1 and its WRITE_BLOCK calls land on blocks 254 and 255 of disk 0. -/
theorem write_across_disk_boundary (F : Nat) (st : State) (data : Buf) (hg : Good st.link)
    (hm : st.isMounted = true) :
    (∃ st' ops, mdadm_write (F + 2) st 65281 256 (some data) = some (256, st')
        ∧ st'.link.calls = st.link.calls ++ ops
        ∧ encode 1 0 JBOD_SEEK_TO_DISK 0 ∈ ops
        ∧ writeLandings ops st.link.jbod.disk st.link.jbod.block = [(0, 255), (1, 0)])
      ∧ (∃ st' ops, mdadm_write (F + 2) st 65279 256 (some data) = some (256, st')
        ∧ st'.link.calls = st.link.calls ++ ops
        ∧ (∀ op ∈ ops, ¬ ((op >>> 14) &&& 0x3F = JBOD_SEEK_TO_DISK ∧ op >>> 28 = 1))
        ∧ writeLandings ops st.link.jbod.disk st.link.jbod.block = [(0, 254), (0, 255)]) := by
  constructor
  · obtain ⟨st', ops, he, hc, hops⟩ :=
      mdadm_write_trace F st 65281 256 data hg hm (by decide) (by decide) (by decide)
    have key : ∀ ops ∈ writeTraces 65281 256,
        seeksFirst ops = true ∧ encode 1 0 JBOD_SEEK_TO_DISK 0 ∈ ops
          ∧ writeLandings ops 0 0 = [(0, 255), (1, 0)] := by decide!
    obtain ⟨k1, k2, k3⟩ := key ops hops
    refine ⟨st', ops, he, hc, k2, ?_⟩
    unfold writeLandings
    rw [landings_seeksFirst ops _ _ k1]
    exact k3
  · obtain ⟨st', ops, he, hc, hops⟩ :=
      mdadm_write_trace F st 65279 256 data hg hm (by decide) (by decide) (by decide)
    have key : ∀ ops ∈ writeTraces 65279 256,
        seeksFirst ops = true
          ∧ (∀ op ∈ ops, ¬ ((op >>> 14) &&& 0x3F = JBOD_SEEK_TO_DISK ∧ op >>> 28 = 1))
          ∧ writeLandings ops 0 0 = [(0, 254), (0, 255)] := by decide!
    obtain ⟨k1, k2, k3⟩ := key ops hops
    refine ⟨st', ops, he, hc, k2, ?_⟩
    unfold writeLandings
    rw [landings_seeksFirst ops _ _ k1]
    exact k3

/-- C16, amended, on the sample state: the crossing write. -/
theorem write_across_disk_boundary_witness :
    Good (demoState true false).link
      ∧ ∃ st' ops, mdadm_write 2 (demoState true false) 65281 256 (some demoData)
          = some (256, st')
        ∧ st'.link.calls = (demoState true false).link.calls ++ ops
        ∧ encode 1 0 JBOD_SEEK_TO_DISK 0 ∈ ops
        ∧ writeLandings ops (demoState true false).link.jbod.disk
            (demoState true false).link.jbod.block = [(0, 255), (1, 0)] :=
  ⟨⟨rfl, rfl, rfl, rfl, rfl⟩,
    (write_across_disk_boundary 0 (demoState true false) demoData ⟨rfl, rfl, rfl, rfl, rfl⟩
      rfl).1⟩

/-! ## C19: a seek right before every block write -/

theorem cmd_seek_disk (d : Nat) :
    (encode d 0 JBOD_SEEK_TO_DISK 0 >>> 14) &&& 0x3F = JBOD_SEEK_TO_DISK := by
  rw [Nat.and_pow_two_sub_one_eq_mod _ 6, Nat.shiftRight_eq_div_pow,
    encode_eq_add _ _ _ _ (by decide)]
  simp only [JBOD_SEEK_TO_DISK]
  norm_num
  omega

theorem cmd_seek_block (b : Nat) :
    (encode 0 b JBOD_SEEK_TO_BLOCK 0 >>> 14) &&& 0x3F = JBOD_SEEK_TO_BLOCK
      ∧ (encode 0 b JBOD_SEEK_TO_BLOCK 0 >>> 20) &&& 0xFF = b % 256 := by
  rw [Nat.and_pow_two_sub_one_eq_mod _ 6, Nat.and_pow_two_sub_one_eq_mod _ 8,
    Nat.shiftRight_eq_div_pow, Nat.shiftRight_eq_div_pow, encode_eq_add _ _ _ _ (by decide)]
  simp only [JBOD_SEEK_TO_BLOCK]
  norm_num
  constructor <;> omega

theorem seekedWrites_cons_of_ne (q : Option Nat) (x : Nat) (rest : List Nat)
    (h : (x >>> 14) &&& 0x3F ≠ JBOD_WRITE_BLOCK) :
    seekedWrites q (x :: rest) = seekedWrites (some x) rest := by
  simp only [seekedWrites, if_neg h]

theorem seekedWrites_seek_write (q : Option Nat) (b : Nat) (rest : List Nat) :
    seekedWrites q (encode 0 b JBOD_SEEK_TO_BLOCK 0 :: encode 0 0 JBOD_WRITE_BLOCK 0 :: rest)
      = some (b % 256) :: seekedWrites (some (encode 0 0 JBOD_WRITE_BLOCK 0)) rest := by
  have h1 := cmd_seek_block b
  rw [seekedWrites_cons_of_ne _ _ _ (by rw [h1.1]; decide)]
  simp only [seekedWrites, h1.1, h1.2]
  rfl

theorem seekedWrites_readBlock (q : Option Nat) (d b : Nat) (r t : List Nat)
    (h : r ∈ readBlockTraces d b) : ∃ q', seekedWrites q (r ++ t) = seekedWrites q' t := by
  have hd : (encode d 0 JBOD_SEEK_TO_DISK 0 >>> 14) &&& 0x3F ≠ JBOD_WRITE_BLOCK := by
    rw [cmd_seek_disk]; decide
  have hb : ∀ x, (encode 0 x JBOD_SEEK_TO_BLOCK 0 >>> 14) &&& 0x3F ≠ JBOD_WRITE_BLOCK := by
    intro x; rw [(cmd_seek_block x).1]; decide
  have hr : (encode 0 0 JBOD_READ_BLOCK 0 >>> 14) &&& 0x3F ≠ JBOD_WRITE_BLOCK := by decide
  simp only [readBlockTraces, List.mem_cons, List.mem_singleton, List.not_mem_nil, or_false] at h
  rcases h with h | h
  · subst h
    exact ⟨_, by
      simp only [List.cons_append, List.nil_append]
      rw [seekedWrites_cons_of_ne _ _ _ hd, seekedWrites_cons_of_ne _ _ _ (hb b),
        seekedWrites_cons_of_ne _ _ _ hr]⟩
  · subst h
    exact ⟨_, by
      simp only [List.cons_append, List.nil_append]
      rw [seekedWrites_cons_of_ne _ _ _ hd, seekedWrites_cons_of_ne _ _ _ (hb b),
        seekedWrites_cons_of_ne _ _ _ (hb (b + 1))]⟩

theorem blocksOf_zero (p : Nat) : blocksOf p 0 = [] := by
  simp [blocksOf]

theorem blocksOf_last (p rem : Nat) (h0 : 0 < rem) (h1 : p % 256 + rem ≤ 256) :
    blocksOf p rem = [p / 256 % 256] := by
  have hn : (p + rem - 1) / 256 - p / 256 + 1 = 1 := by omega
  simp only [blocksOf, if_neg (Nat.pos_iff_ne_zero.mp h0), hn]
  rfl

theorem blocksOf_step (p rem : Nat) (h1 : p % 256 + rem > 256) :
    blocksOf p rem
      = p / 256 % 256 :: blocksOf (p - p % 256 + 256) (rem - (256 - p % 256)) := by
  have h0 : rem ≠ 0 := by omega
  have h0' : rem - (256 - p % 256) ≠ 0 := by omega
  have hn : (p + rem - 1) / 256 - p / 256 + 1
      = ((p - p % 256 + 256 + (rem - (256 - p % 256)) - 1) / 256 - (p - p % 256 + 256) / 256 + 1)
        + 1 := by omega
  have hq : (p - p % 256 + 256) / 256 = p / 256 + 1 := by omega
  simp only [blocksOf, if_neg h0, if_neg h0', hn, hq]
  rw [List.range_succ_eq_map, List.map_cons, List.map_map]
  congr 1
  apply List.map_congr_left
  intro k _
  simp only [Function.comp, Nat.succ_eq_add_one]
  congr 1
  omega

theorem seekedWrites_loop : ∀ (n d b ca rem : Nat), rem ≤ n → b < 256 → ca < 256 →
    ∀ t ∈ writeLoopTraces n d b ca rem, ∀ q,
      seekedWrites q t = (blocksOf (d * 65536 + b * 256 + ca) rem).map some := by
  intro n
  induction n with
  | zero =>
    intro d b ca rem hn hb hca t ht q
    have hr : rem = 0 := by omega
    subst hr
    simp only [writeLoopTraces, List.mem_singleton] at ht
    subst ht
    simp [seekedWrites, blocksOf_zero]
  | succ n ih =>
    intro d b ca rem hn hb hca t ht q
    have hp256 : (d * 65536 + b * 256 + ca) % 256 = ca := by omega
    have hpb : (d * 65536 + b * 256 + ca) / 256 % 256 = b := by omega
    by_cases hr : rem = 0
    · subst hr
      simp only [writeLoopTraces, if_true, List.mem_singleton] at ht
      subst ht
      simp [seekedWrites, blocksOf_zero]
    · by_cases c2 : ca + rem > 256
      · have hstep := blocksOf_step (d * 65536 + b * 256 + ca) rem (by rw [hp256]; exact c2)
        rw [hp256, hpb] at hstep
        by_cases c3 : b = 255
        · simp only [writeLoopTraces, if_neg hr, if_pos (And.intro c2 c3)] at ht
          obtain ⟨r, hrm, ht2⟩ := List.mem_flatMap.mp ht
          obtain ⟨t', ht', rfl⟩ := List.mem_map.mp ht2
          have hsd : (encode (d + 1) 0 JBOD_SEEK_TO_DISK 0 >>> 14) &&& 0x3F ≠ JBOD_WRITE_BLOCK := by
            rw [cmd_seek_disk]; decide
          obtain ⟨q', hq'⟩ :=
            seekedWrites_readBlock (some (encode (d + 1) 0 JBOD_SEEK_TO_DISK 0)) (d + 1) 0 r t' hrm
          have hih := ih (d + 1) 0 0 (rem - (256 - ca)) (by omega) (by omega) (by omega) t' ht' q'
          simp only [List.cons_append, List.nil_append, List.append_assoc]
          rw [seekedWrites_seek_write, seekedWrites_cons_of_ne _ _ _ hsd, hq', hih, hstep,
            List.map_cons, Nat.mod_eq_of_lt hb]
          congr 3
          omega
        · have hnc : ¬ (ca + rem > 256 ∧ b = 255) := fun h => c3 h.2
          simp only [writeLoopTraces, if_neg hr, if_neg hnc, if_pos c2] at ht
          obtain ⟨r, hrm, ht2⟩ := List.mem_flatMap.mp ht
          obtain ⟨t', ht', rfl⟩ := List.mem_map.mp ht2
          obtain ⟨q', hq'⟩ :=
            seekedWrites_readBlock (some (encode 0 0 JBOD_WRITE_BLOCK 0)) d (b + 1) r t' hrm
          have hih := ih d (b + 1) 0 (rem - (256 - ca)) (by omega) (by omega) (by omega) t' ht' q'
          simp only [List.cons_append, List.nil_append, List.append_assoc]
          rw [seekedWrites_seek_write, hq', hih, hstep, List.map_cons, Nat.mod_eq_of_lt hb]
          congr 3
          omega
      · have hnc : ¬ (ca + rem > 256 ∧ b = 255) := fun h => c2 h.1
        simp only [writeLoopTraces, if_neg hr, if_neg hnc, if_neg c2, List.mem_singleton] at ht
        subst ht
        rw [seekedWrites_seek_write,
          blocksOf_last _ rem (Nat.pos_of_ne_zero hr) (by rw [hp256]; omega), hpb,
          Nat.mod_eq_of_lt hb]
        rfl

/-- C19. Fresh seek before every block write.  In state Mounted over a quiet
connection, cache enabled or disabled and whatever it holds, for every valid
`addr` and `len`: in the sequence of transport calls that `mdadm_write` issues,
every WRITE_BLOCK is immediately preceded by a SEEK_TO_BLOCK, and the block indices
of these seeks are, in order, the indices of the blocks that the range
`[addr, addr + len)` overlaps; so no WRITE_BLOCK comes directly after a READ_BLOCK
or another WRITE_BLOCK. -/
theorem write_seeks_before_every_write (F : Nat) (st : State) (addr len : Nat) (data : Buf)
    (hg : Good st.link) (hm : st.isMounted = true) (ha : addr < 1048576) (hl : len ≤ 1024)
    (hcap : addr + len ≤ 1048576) :
    ∃ st' ops, mdadm_write (F + 2) st addr len (some data) = some ((len : Int), st')
      ∧ st'.link.calls = st.link.calls ++ ops
      ∧ seekedWrites none ops = (blocksOf addr len).map some := by
  obtain ⟨st', ops, he, hc, hops⟩ := mdadm_write_trace F st addr len data hg hm ha hl hcap
  refine ⟨st', ops, he, hc, ?_⟩
  simp only [writeTraces, locate, JBOD_DISK_SIZE, JBOD_BLOCK_SIZE, JBOD_NUM_BLOCKS_PER_DISK]
    at hops
  obtain ⟨r, hrm, ht2⟩ := List.mem_flatMap.mp hops
  obtain ⟨t, ht, rfl⟩ := List.mem_map.mp ht2
  have hsd : (encode (addr / 65536) 0 JBOD_SEEK_TO_DISK 0 >>> 14) &&& 0x3F ≠ JBOD_WRITE_BLOCK := by
    rw [cmd_seek_disk]; decide
  have hsb : (encode 0 ((addr - addr / 65536 * 65536) / 256) JBOD_SEEK_TO_BLOCK 0 >>> 14)
      &&& 0x3F ≠ JBOD_WRITE_BLOCK := by
    rw [(cmd_seek_block _).1]; decide
  obtain ⟨q', hq'⟩ := seekedWrites_readBlock
    (some (encode 0 ((addr - addr / 65536 * 65536) / 256) JBOD_SEEK_TO_BLOCK 0)) _ _ r t hrm
  have hih := seekedWrites_loop len (addr / 65536) ((addr - addr / 65536 * 65536) / 256)
    (addr - (addr / 65536 * 256 * 256 + (addr - addr / 65536 * 65536) / 256 * 256)) len
    (Nat.le_refl _) (by omega) (by omega) t ht q'
  simp only [List.cons_append, List.nil_append, List.append_assoc]
  rw [seekedWrites_cons_of_ne _ _ _ hsd, seekedWrites_cons_of_ne _ _ _ hsb, hq', hih]
  congr 2
  omega

/-- C19 for 1024 bytes written across the boundary of disks 0 and 1, cache enabled. -/
theorem write_seeks_before_every_write_witness :
    Good (demoState true true).link ∧ (65281 : Nat) + 1024 ≤ 1048576
      ∧ ∃ st' ops, mdadm_write 2 (demoState true true) 65281 1024 (some demoData)
          = some (((1024 : Nat) : Int), st')
        ∧ st'.link.calls = (demoState true true).link.calls ++ ops
        ∧ seekedWrites none ops = (blocksOf 65281 1024).map some :=
  ⟨⟨rfl, rfl, rfl, rfl, rfl⟩, by decide,
    write_seeks_before_every_write 0 (demoState true true) 65281 1024 demoData
      ⟨rfl, rfl, rfl, rfl, rfl⟩ rfl (by decide) (by decide) (by decide)⟩

/-! ## C22, C23: the fields of a descriptor -/

/-- C22. Field overlap hazard of `encode`.  `encode` masks the command with 0xff
and shifts it by 14, so a command of 64 or more reaches bit 20, the lowest bit of the
block index: `encode(0, 0, 64, 0) = encode(0, 1, 0, 0)`, and for every command `c`
with `64 ≤ c ≤ 255` the tuple `(0, 0, c, 0)` has the same descriptor as the different
tuple `(0, c / 64, c % 64, 0)`, whose fields are all within 0..255, whose block index
is not 0 and whose command is not `c`.  For such `c` the decoder of the transport,
`(descriptor >> 14) & 0x3F`, does not return `c`, whatever the other fields. -/
theorem encode_overlap_hazard (c : Nat) (h1 : 64 ≤ c) (h2 : c ≤ 255) :
    encode 0 0 64 0 = encode 0 1 0 0
      ∧ encode 0 0 c 0 = encode 0 (c / 64) (c % 64) 0
      ∧ c / 64 ≠ 0 ∧ c / 64 ≤ 255 ∧ c % 64 ≠ c ∧ c % 64 ≤ 255
      ∧ (0, 0, c, 0) ≠ (0, c / 64, c % 64, 0)
      ∧ ∀ d b r, (encode d b c r >>> 14) &&& 0x3F ≠ c := by
  have key : ∀ k, k < 256 → 64 ≤ k → encode 0 0 k 0 = encode 0 (k / 64) (k % 64) 0 := by
    decide!
  refine ⟨by decide, key c (by omega) h1, by omega, by omega, by omega, by omega, ?_, ?_⟩
  · intro h
    simp only [Prod.mk.injEq] at h
    omega
  · intro d b r h
    rw [Nat.and_pow_two_sub_one_eq_mod _ 6] at h
    omega

/-- C22 at the command 64. -/
theorem encode_overlap_hazard_witness :
    encode 0 0 64 0 = encode 0 (64 / 64) (64 % 64) 0 ∧ (encode 0 0 64 0 >>> 14) &&& 0x3F ≠ 64 :=
  ⟨(encode_overlap_hazard 64 (by decide) (by decide)).2.1,
    (encode_overlap_hazard 64 (by decide) (by decide)).2.2.2.2.2.2.2 0 0 0⟩

/-- C23. `encode` is injective on in-range fields.  For `diskID < 16`,
`blockID < 256`, `command < 64` and `reserved < 256` the descriptor
`x = encode(diskID, blockID, command, reserved)` fits 32 bits and gives back all four
fields: `diskID = x >> 28`, `blockID = (x >> 20) & 0xFF`, `command = (x >> 14) & 0x3F`
and `reserved = x & 0xFF`; hence two in-range tuples with the same descriptor are
equal. -/
theorem encode_injective (d b c r d' b' c' r' : Nat) (hd : d < 16) (hb : b < 256) (hc : c < 64)
    (hr : r < 256) (hd' : d' < 16) (hb' : b' < 256) (hc' : c' < 64) (hr' : r' < 256) :
    encode d b c r < 4294967296
      ∧ encode d b c r >>> 28 = d
      ∧ (encode d b c r >>> 20) &&& 0xFF = b
      ∧ (encode d b c r >>> 14) &&& 0x3F = c
      ∧ encode d b c r &&& 0xFF = r
      ∧ (encode d b c r = encode d' b' c' r' → d = d' ∧ b = b' ∧ c = c' ∧ r = r') := by
  have e8 : ∀ x : Nat, x &&& 0xFF = x % 256 := fun x => Nat.and_pow_two_sub_one_eq_mod x 8
  have e6 : ∀ x : Nat, x &&& 0x3F = x % 64 := fun x => Nat.and_pow_two_sub_one_eq_mod x 6
  rw [e8, e8, e6, Nat.shiftRight_eq_div_pow, Nat.shiftRight_eq_div_pow, Nat.shiftRight_eq_div_pow,
    encode_eq_add _ _ _ _ hc, encode_eq_add _ _ _ _ hc']
  norm_num
  refine ⟨by omega, by omega, by omega, by omega, by omega, ?_⟩
  intro h
  omega

/-- C23 at the largest in-range fields, against the descriptor of a SEEK_TO_BLOCK. -/
theorem encode_injective_witness :
    encode 15 255 63 255 >>> 28 = 15
      ∧ (encode 15 255 63 255 >>> 20) &&& 0xFF = 255
      ∧ (encode 15 255 63 255 = encode 0 7 JBOD_SEEK_TO_BLOCK 0
          → 15 = 0 ∧ 255 = 7 ∧ 63 = JBOD_SEEK_TO_BLOCK ∧ 255 = 0) :=
  ⟨(encode_injective 15 255 63 255 0 7 JBOD_SEEK_TO_BLOCK 0 (by decide) (by decide) (by decide)
      (by decide) (by decide) (by decide) (by decide) (by decide)).2.1,
    (encode_injective 15 255 63 255 0 7 JBOD_SEEK_TO_BLOCK 0 (by decide) (by decide) (by decide)
      (by decide) (by decide) (by decide) (by decide) (by decide)).2.2.1,
    (encode_injective 15 255 63 255 0 7 JBOD_SEEK_TO_BLOCK 0 (by decide) (by decide) (by decide)
      (by decide) (by decide) (by decide) (by decide) (by decide)).2.2.2.2.2⟩

/-! ## C24: mounting and the transport -/

/-- C24. Mount and unmount ignore the transport result.  Whatever
`jbod_client_operation` returns for the JBOD_MOUNT request (`r.1`, be it 1, 0 or -1),
`mdadm_mount` called in state Unmounted returns 1 and leaves the state Mounted, and
whatever it returns for the JBOD_UNMOUNT request, `mdadm_unmount` called in state
Mounted returns 1 and leaves the state Unmounted; nothing else changes but the
connection, which is as the exchange left it.  In the other state each of the two
returns -1 and changes nothing.  So the returned value and the new flag depend on the
old flag only. -/
theorem mount_unmount_ignore_transport (F : Nat) (c : Cache) (l l' : Link)
    (r r' : Int × Option Buf × Link)
    (h : jbod_client_operation F l (encode 0 0 JBOD_MOUNT 0) none = some r)
    (h' : jbod_client_operation F l' (encode 0 0 JBOD_UNMOUNT 0) none = some r') :
    mdadm_mount F ⟨false, c, l⟩ = some (1, ⟨true, c, r.2.2⟩)
      ∧ mdadm_unmount F ⟨true, c, l'⟩ = some (1, ⟨false, c, r'.2.2⟩)
      ∧ mdadm_mount F ⟨true, c, l⟩ = some (-1, ⟨true, c, l⟩)
      ∧ mdadm_unmount F ⟨false, c, l'⟩ = some (-1, ⟨false, c, l'⟩) := by
  refine ⟨?_, ?_, ?_, ?_⟩
  · simp only [mdadm_mount, State.jbod, Bool.not_false, if_true, h]
  · simp only [mdadm_unmount, State.jbod, if_true, h']
  · simp only [mdadm_mount, Bool.not_true, Bool.false_eq_true, if_false]
  · simp only [mdadm_unmount, Bool.false_eq_true, if_false]

/-- C24 where the exchange of the mount fails in `send_packet` (a `write` that
reports 9 for 8 bytes; the exchange returns -1) and the server answers the unmount
with status 1 (the exchange returns 0): both calls return 1 and flip the flag. -/
theorem mount_unmount_ignore_transport_witness :
    ∃ r r', jbod_client_operation 2 (scriptLink [] [] [9]) (encode 0 0 JBOD_MOUNT 0) none = some r
      ∧ jbod_client_operation 2 (failLink 1) (encode 0 0 JBOD_UNMOUNT 0) none = some r'
      ∧ r.1 = -1 ∧ r'.1 = 0
      ∧ mdadm_mount 2 ⟨false, ⟨false, fun _ _ => none, 0⟩, scriptLink [] [] [9]⟩
          = some (1, ⟨true, ⟨false, fun _ _ => none, 0⟩, r.2.2⟩)
      ∧ mdadm_unmount 2 ⟨true, ⟨false, fun _ _ => none, 0⟩, failLink 1⟩
          = some (1, ⟨false, ⟨false, fun _ _ => none, 0⟩, r'.2.2⟩) := by
  have hv : (jbod_client_operation 2 (scriptLink [] [] [9]) (encode 0 0 JBOD_MOUNT 0) none).map
      (fun r => r.1) = some (-1) := by decide!
  have hv' : (jbod_client_operation 2 (failLink 1) (encode 0 0 JBOD_UNMOUNT 0) none).map
      (fun r => r.1) = some 0 := by decide!
  cases hj : jbod_client_operation 2 (scriptLink [] [] [9]) (encode 0 0 JBOD_MOUNT 0) none with
  | none => rw [hj] at hv; exact absurd hv (by simp)
  | some r =>
    cases hj' : jbod_client_operation 2 (failLink 1) (encode 0 0 JBOD_UNMOUNT 0) none with
    | none => rw [hj'] at hv'; exact absurd hv' (by simp)
    | some r' =>
      rw [hj] at hv
      rw [hj'] at hv'
      exact ⟨r, r', rfl, rfl, by simpa using hv, by simpa using hv',
        (mount_unmount_ignore_transport 2 ⟨false, fun _ _ => none, 0⟩ _ _ r r' hj hj').1,
        (mount_unmount_ignore_transport 2 ⟨false, fun _ _ => none, 0⟩ _ _ r r' hj hj').2.1⟩

/-! ## C21: the cache and the device after a write -/

theorem cacheStore_on (st : State) (d b : Nat) (buffer : Buf) (he : st.cache.enabled = true) :
    (cacheStore st d b buffer).cache.enabled = true
      ∧ (cacheStore st d b buffer).cache.entry
          = fun d' b' => if d' = d ∧ b' = b then some (memcpy uninit 0 buffer 0 JBOD_BLOCK_SIZE)
              else st.cache.entry d' b' := by
  cases hent : st.cache.entry d b with
  | none =>
    simp only [cacheStore, cache_enabled, cache_lookup, he, hent, if_true, cache_insert]
    exact ⟨trivial, trivial⟩
  | some img =>
    simp only [cacheStore, cache_enabled, cache_lookup, he, hent, if_true, cache_update]
    rw [if_neg (by decide)]
    exact ⟨rfl, rfl⟩

theorem coherent_store_write (st : State) (d b : Nat) (buffer : Buf)
    (he : st.cache.enabled = true) (hco : Coherent st.cache st.link.jbod)
    (hd : st.link.jbod.disk = d) (hb : st.link.jbod.block = b) :
    ((cacheStore st d b buffer).writeBlock buffer).cache.enabled = true
      ∧ Coherent ((cacheStore st d b buffer).writeBlock buffer).cache
          ((cacheStore st d b buffer).writeBlock buffer).link.jbod
      ∧ (((cacheStore st d b buffer).writeBlock buffer).cache.entry d b).isSome = true
      ∧ (∀ d' b', (st.cache.entry d' b').isSome = true →
          (((cacheStore st d b buffer).writeBlock buffer).cache.entry d' b').isSome = true)
      ∧ ((cacheStore st d b buffer).writeBlock buffer).link.jbod.disk = d := by
  obtain ⟨h1, h2⟩ := cacheStore_on st d b buffer he
  have hl := (cacheStore_link st d b buffer).1
  have hce : ((cacheStore st d b buffer).writeBlock buffer).cache.entry
      = fun d' b' => if d' = d ∧ b' = b then some (memcpy uninit 0 buffer 0 JBOD_BLOCK_SIZE)
          else st.cache.entry d' b' := h2
  have hst : ((cacheStore st d b buffer).writeBlock buffer).link.jbod.store
      = fun d' b' i => if d' = d ∧ b' = b then (slice buffer 0 256).getD i 0
          else st.link.jbod.store d' b' i := by
    show (fun d' b' i => if d' = (cacheStore st d b buffer).link.jbod.disk
        ∧ b' = (cacheStore st d b buffer).link.jbod.block then (slice buffer 0 256).getD i 0
      else (cacheStore st d b buffer).link.jbod.store d' b' i) = _
    rw [hl, hd, hb]
  refine ⟨h1, ?_, ?_, ?_, ?_⟩
  · intro d' b' img himg i hi
    rw [hce] at himg
    rw [hst]
    simp only at himg ⊢
    by_cases hk : d' = d ∧ b' = b
    · rw [if_pos hk] at himg
      rw [if_pos hk, getD_slice _ _ _ _ _ hi]
      simp only [Option.some.injEq] at himg
      rw [← himg]
      simp only [memcpy]
      rw [if_pos ⟨Nat.zero_le _, by omega⟩]
      simp
    · rw [if_neg hk] at himg
      rw [if_neg hk]
      exact hco d' b' img himg i hi
  · rw [hce]
    simp
  · intro d' b' h
    rw [hce]
    simp only
    split_ifs
    · rfl
    · exact h
  · show (cacheStore st d b buffer).link.jbod.disk = d
    rw [hl, hd]

theorem fetch_coherent (F : Nat) (st : State) (d b : Nat) (buffer : Buf) (sbc rbc : Int)
    (hg : Good st.link) (he : st.cache.enabled = true) (hco : Coherent st.cache st.link.jbod)
    (hd : st.link.jbod.disk = d) (hbk : st.link.jbod.block = b) (hb : b < 256) :
    ∃ f, fetchBlock (F + 2) st d b buffer sbc rbc = some f ∧ Good f.st.link
      ∧ f.st.isMounted = st.isMounted ∧ f.st.cache.enabled = true
      ∧ Coherent f.st.cache f.st.link.jbod ∧ f.st.link.jbod.disk = d
      ∧ (∀ d' b', (st.cache.entry d' b').isSome = true → (f.st.cache.entry d' b').isSome = true)
      ∧ (sbc ≠ -1 → f.seekBlockCheck ≠ -1) ∧ (rbc ≠ -1 → f.readBlockCheck ≠ -1) := by
  have hgr := good_readBlock st hg
  have hgs := good_seekBlock st (b + 1) hg
  cases hent : st.cache.entry d b with
  | none =>
    have h := jbod_read_block F
      ⟨st.isMounted, ⟨true, st.cache.entry, st.cache.calls + 1 + 1⟩, st.link⟩ buffer hg
    have hf : ∃ f, fetchBlock (F + 2) st d b buffer sbc rbc = some f
        ∧ f.st.link = st.readBlock.link ∧ f.st.isMounted = st.isMounted
        ∧ f.seekBlockCheck = sbc ∧ f.readBlockCheck = 1
        ∧ f.st.cache.enabled = true
        ∧ f.st.cache.entry = (fun d' b' => if d' = d ∧ b' = b then
            some (memcpy uninit 0
              (memcpy buffer 0 (st.link.jbod.store st.link.jbod.disk st.link.jbod.block) 0 256)
              0 JBOD_BLOCK_SIZE)
            else st.cache.entry d' b') := by
      simp only [fetchBlock, cache_enabled, cache_lookup, hent, he, if_true]
      rw [h]
      exact ⟨_, rfl, rfl, rfl, rfl, rfl, rfl, rfl⟩
    obtain ⟨f, hf, h1, h2, h3, h4, h5, h6⟩ := hf
    refine ⟨f, hf, h1 ▸ hgr, h2, h5, ?_, by rw [h1]; exact hd, ?_, fun h => h3 ▸ h,
      fun _ => by rw [h4]; decide⟩
    · intro d' b' img himg i hi
      have hi' : i < 256 := hi
      rw [h1]
      show img i = st.link.jbod.store d' b' i
      rw [h6] at himg
      simp only at himg
      by_cases hk : d' = d ∧ b' = b
      · rw [if_pos hk] at himg
        simp only [Option.some.injEq] at himg
        rw [← himg, hk.1, hk.2, hd, hbk]
        simp only [memcpy]
        rw [if_pos ⟨Nat.zero_le _, by omega⟩, if_pos ⟨Nat.zero_le _, by omega⟩]
        simp
      · rw [if_neg hk] at himg
        exact hco d' b' img himg i hi
    · intro d' b' h
      rw [h6]
      simp only
      split_ifs
      · rfl
      · exact h
  | some img =>
    have h := jbod_seek_block F
      ⟨st.isMounted, ⟨true, st.cache.entry, st.cache.calls + 1 + 1⟩, st.link⟩ (b + 1) hg
      (by omega)
    have hf : ∃ f, fetchBlock (F + 2) st d b buffer sbc rbc = some f
        ∧ f.st.link = (st.seekBlock (b + 1)).link ∧ f.st.isMounted = st.isMounted
        ∧ f.seekBlockCheck = 1 ∧ f.readBlockCheck = rbc
        ∧ f.st.cache.enabled = true ∧ f.st.cache.entry = st.cache.entry := by
      simp only [fetchBlock, cache_enabled, cache_lookup, hent, he, if_true]
      rw [if_neg (by decide), h]
      exact ⟨_, rfl, rfl, rfl, rfl, rfl, rfl, rfl⟩
    obtain ⟨f, hf, h1, h2, h3, h4, h5, h6⟩ := hf
    refine ⟨f, hf, h1 ▸ hgs, h2, h5, ?_, by rw [h1]; exact hd, ?_, fun _ => by rw [h3]; decide,
      fun h => h4 ▸ h⟩
    · intro d' b' img' himg i hi
      rw [h1]
      rw [h6] at himg
      exact hco d' b' img' himg i hi
    · intro d' b' h
      rw [h6]
      exact h

theorem mdadm_read_block_coherent (F : Nat) (st : State) (addr d b : Nat) (buf : Buf)
    (hg : Good st.link) (hm : st.isMounted = true) (he : st.cache.enabled = true)
    (hco : Coherent st.cache st.link.jbod) (hd : d < 16) (hb : b < 256)
    (haddr : addr = d * 65536 + b * 256) :
    ∃ st' buf', mdadm_read (F + 2) st addr 256 (some buf) = some (256, st', some buf')
      ∧ Good st'.link ∧ st'.isMounted = true ∧ st'.cache.enabled = true
      ∧ Coherent st'.cache st'.link.jbod ∧ st'.link.jbod.disk = d
      ∧ (∀ d' b', (st.cache.entry d' b').isSome = true →
          (st'.cache.entry d' b').isSome = true) := by
  have hdv : addr / 65536 = d := by omega
  have hbv : (addr - d * 65536) / 256 = b := by omega
  have hcv : addr - (d * 256 * 256 + b * 256) = 0 := by omega
  have hg1 := good_seekDisk st d hg
  have hg2 := good_seekBlock _ b hg1
  obtain ⟨f, hf, hgf, hmf, hef, hcof, hdf, hpf, hsb, hrb⟩ :=
    fetch_coherent F ((st.seekDisk d).seekBlock b) d b uninit 1 0 hg2 he hco rfl
      (Nat.mod_eq_of_lt hb) hb
  refine ⟨f.st, memcpy buf 0 f.buffer 0 256, ?_, hgf, hmf.trans hm, hef, hcof, hdf, hpf⟩
  simp only [mdadm_read, JBOD_DISK_SIZE, JBOD_BLOCK_SIZE, JBOD_NUM_BLOCKS_PER_DISK,
    Option.isNone_some, inputCheck_valid addr 256 false (by decide) (by omega) (Or.inl rfl), hm,
    Bool.not_true, Bool.or_self, Bool.false_eq_true, if_false, hdv, hbv, hcv]
  rw [jbod_seek_disk F st _ hg hd]
  simp only
  rw [jbod_seek_block F _ _ hg1 (by omega)]
  simp only
  rw [hf]
  simp only
  rw [if_neg (by
    intro h
    rcases h with h | h | h
    · exact absurd h (by decide)
    · exact hsb (by decide) h
    · exact hrb (by decide) h)]
  simp only [Option.getD_some]
  rw [readLoop_last 255 _ _ _ _ _ _ _ _ _ _ _ _ (by decide) (by decide)]
  rfl

set_option maxRecDepth 8000 in
theorem writeLoop_coherent (F : Nat) : ∀ (n : Nat) (st : State) (len : Nat) (buf : Buf)
    (d b ca rem numRead : Nat) (buffer : Buf),
    Good st.link → st.isMounted = true → st.cache.enabled = true →
    Coherent st.cache st.link.jbod → st.link.jbod.disk = d →
    rem ≤ n → d < 16 → b < 256 → ca < 256 →
    d * 65536 + b * 256 + ca + rem ≤ 1048576 →
    ∃ st', writeLoop n (F + 2) st len buf d b ca rem numRead buffer = some ((len : Int), st')
      ∧ Good st'.link ∧ st'.isMounted = true ∧ st'.cache.enabled = true
      ∧ Coherent st'.cache st'.link.jbod
      ∧ (∀ d' b', (st.cache.entry d' b').isSome = true → (st'.cache.entry d' b').isSome = true)
      ∧ (∀ a, d * 65536 + b * 256 + ca ≤ a → a < d * 65536 + b * 256 + ca + rem →
          (st'.cache.entry (a / 65536) (a % 65536 / 256)).isSome = true) := by
  intro n
  induction n with
  | zero =>
    intro st len buf d b ca rem numRead buffer hg hm he hco hdk hn hd hb hca hcap
    have hr : rem = 0 := by omega
    subst hr
    exact ⟨st, writeLoop_done _ _ _ _ _ _ _ _ _ _, hg, hm, he, hco, fun _ _ h => h,
      fun a h1 h2 => absurd h2 (by omega)⟩
  | succ n ih =>
    intro st len buf d b ca rem numRead buffer hg hm he hco hdk hn hd hb hca hcap
    by_cases hr : rem = 0
    · subst hr
      exact ⟨st, writeLoop_done _ _ _ _ _ _ _ _ _ _, hg, hm, he, hco, fun _ _ h => h,
        fun a h1 h2 => absurd h2 (by omega)⟩
    · have hr' : rem > 0 := Nat.pos_of_ne_zero hr
      have hg1 := good_seekBlock st b hg
      have hbk : (st.seekBlock b).link.jbod.block = b := Nat.mod_eq_of_lt hb
      by_cases c2 : ca + rem > 256
      · have hcs := cacheStore_link (st.seekBlock b) d b
          (memcpy buffer ca buf numRead (256 - ca))
        have hgc : Good (cacheStore (st.seekBlock b) d b
            (memcpy buffer ca buf numRead (256 - ca))).link := hcs.1 ▸ hg1
        have hw := good_writeBlock _ (memcpy buffer ca buf numRead (256 - ca)) hgc
        have hmw : ((cacheStore (st.seekBlock b) d b
            (memcpy buffer ca buf numRead (256 - ca))).writeBlock
              (memcpy buffer ca buf numRead (256 - ca))).isMounted = true := hcs.2.trans hm
        obtain ⟨hew, hcow, hsw, hpw, hdw⟩ := coherent_store_write (st.seekBlock b) d b
          (memcpy buffer ca buf numRead (256 - ca)) he hco hdk hbk
        by_cases c3 : b = 255
        · have hd' : d + 1 < 16 := by omega
          have hgs := good_seekDisk _ (d + 1) hw
          obtain ⟨st_r, buf_r, her, hgr, hmr, heR, hcor, hdr, hpr⟩ :=
            mdadm_read_block_coherent F
              (((cacheStore (st.seekBlock b) d b
                (memcpy buffer ca buf numRead (256 - ca))).writeBlock
                  (memcpy buffer ca buf numRead (256 - ca))).seekDisk (d + 1))
              (d * 256 * 256 + b * 256 + 256) (d + 1) 0
              (memcpy buffer ca buf numRead (256 - ca)) hgs hmw hew hcow hd' (by omega) (by omega)
          obtain ⟨st', he', hg', hm', hen', hco', hp', hov'⟩ :=
            ih st_r len buf (d + 1) 0 0 (rem - (256 - ca)) (numRead + (256 - ca)) buf_r hgr hmr
              heR hcor hdr (by omega) hd' (by omega) (by omega) (by omega)
          refine ⟨st', ?_, hg', hm', hen', hco', fun d' b' h => hp' _ _ (hpr _ _ (hpw _ _ h)), ?_⟩
          · simp only [writeLoop, JBOD_BLOCK_SIZE, JBOD_NUM_BLOCKS_PER_DISK]
            rw [if_pos hr', jbod_seek_block F st _ hg (by omega)]
            simp only [Option.some_bind]
            rw [if_neg (by decide), if_pos ⟨c2, c3⟩, jbod_write_block F _ _ hgc]
            simp only [Option.some_bind, Option.getD_some]
            rw [jbod_seek_disk F _ _ hw hd']
            simp only [Option.some_bind]
            rw [her]
            simp only [Option.some_bind, Option.getD_some]
            rw [if_neg (by decide)]
            exact he'
          · intro a h1 h2
            by_cases hin : a < d * 65536 + b * 256 + 256
            · rw [show a / 65536 = d by omega, show a % 65536 / 256 = b by omega]
              exact hp' _ _ (hpr _ _ hsw)
            · exact hov' a (by omega) (by omega)
        · have hnc : ¬ (ca + rem > 256 ∧ b = 256 - 1) := fun h => c3 h.2
          obtain ⟨st_r, buf_r, her, hgr, hmr, heR, hcor, hdr, hpr⟩ :=
            mdadm_read_block_coherent F
              ((cacheStore (st.seekBlock b) d b
                (memcpy buffer ca buf numRead (256 - ca))).writeBlock
                  (memcpy buffer ca buf numRead (256 - ca)))
              (d * 256 * 256 + b * 256 + 256) d (b + 1)
              (memcpy buffer ca buf numRead (256 - ca)) hw hmw hew hcow hd (by omega) (by omega)
          obtain ⟨st', he', hg', hm', hen', hco', hp', hov'⟩ :=
            ih st_r len buf d (b + 1) 0 (rem - (256 - ca)) (numRead + (256 - ca)) buf_r hgr hmr
              heR hcor hdr (by omega) hd (by omega) (by omega) (by omega)
          refine ⟨st', ?_, hg', hm', hen', hco', fun d' b' h => hp' _ _ (hpr _ _ (hpw _ _ h)), ?_⟩
          · simp only [writeLoop, JBOD_BLOCK_SIZE, JBOD_NUM_BLOCKS_PER_DISK]
            rw [if_pos hr', jbod_seek_block F st _ hg (by omega)]
            simp only [Option.some_bind]
            rw [if_neg (by decide), if_neg hnc, if_pos c2, jbod_write_block F _ _ hgc]
            simp only [Option.some_bind, Option.getD_some]
            rw [her]
            simp only [Option.some_bind, Option.getD_some]
            rw [if_neg (by decide)]
            exact he'
          · intro a h1 h2
            by_cases hin : a < d * 65536 + b * 256 + 256
            · rw [show a / 65536 = d by omega, show a % 65536 / 256 = b by omega]
              exact hp' _ _ (hpr _ _ hsw)
            · exact hov' a (by omega) (by omega)
      · have hnc : ¬ (ca + rem > 256 ∧ b = 256 - 1) := fun h => c2 h.1
        have hcs := cacheStore_link (st.seekBlock b) d b (memcpy buffer ca buf numRead rem)
        have hgc : Good (cacheStore (st.seekBlock b) d b
            (memcpy buffer ca buf numRead rem)).link := hcs.1 ▸ hg1
        obtain ⟨hew, hcow, hsw, hpw, hdw⟩ := coherent_store_write (st.seekBlock b) d b
          (memcpy buffer ca buf numRead rem) he hco hdk hbk
        refine ⟨(cacheStore (st.seekBlock b) d b (memcpy buffer ca buf numRead rem)).writeBlock
          (memcpy buffer ca buf numRead rem), ?_,
          good_writeBlock _ _ hgc, hcs.2.trans hm, hew, hcow, hpw, ?_⟩
        · simp only [writeLoop, JBOD_BLOCK_SIZE, JBOD_NUM_BLOCKS_PER_DISK]
          rw [if_pos hr', jbod_seek_block F st _ hg (by omega)]
          simp only [Option.some_bind]
          rw [if_neg (by decide), if_neg hnc, if_neg c2, jbod_write_block F _ _ hgc]
          simp only [Option.some_bind]
          rw [if_neg (by decide)]
          exact writeLoop_done _ _ _ _ _ _ _ _ _ _
        · intro a h1 h2
          rw [show a / 65536 = d by omega, show a % 65536 / 256 = b by omega]
          exact hsw

theorem warmState_coherent : Coherent warmState.cache warmState.link.jbod := by
  intro d b img h i _
  by_cases hk : d = 0 ∧ b = 1
  · have h2 : some (demoStore 0 1) = some img := by
      rw [← h]
      show _ = if d = 0 ∧ b = 1 then some (demoStore 0 1) else none
      rw [if_pos hk]
    simp only [Option.some.injEq] at h2
    rw [← h2, hk.1, hk.2]
    rfl
  · have h2 : (none : Option Buf) = some img := by
      rw [← h]
      show _ = if d = 0 ∧ b = 1 then some (demoStore 0 1) else none
      rw [if_neg hk]
    exact absurd h2 (by simp)

/-- C21. Cache coherence is preserved by write.  In state Mounted over a quiet
connection with the cache enabled: if every cached entry (d, b) equals the device's
image of block (d, b), then for every valid `addr` and `len` `mdadm_write(addr, len,
data)` returns `len`, afterwards every cached entry again equals the device's image
of its block, and for every block that `[addr, addr + len)` overlaps the cache holds
an entry, which equals the image now on the device, the one written by the call. -/
theorem mdadm_write_coherent (F : Nat) (st : State) (addr len : Nat) (data : Buf)
    (hg : Good st.link) (hm : st.isMounted = true) (he : st.cache.enabled = true)
    (hco : Coherent st.cache st.link.jbod) (ha : addr < 1048576) (hl : len ≤ 1024)
    (hcap : addr + len ≤ 1048576) :
    ∃ st', mdadm_write (F + 2) st addr len (some data) = some ((len : Int), st')
      ∧ st'.cache.enabled = true
      ∧ Coherent st'.cache st'.link.jbod
      ∧ ∀ a, addr ≤ a → a < addr + len →
          ∃ img, st'.cache.entry (a / 65536) (a % 65536 / 256) = some img
            ∧ ∀ i, i < 256 → img i = st'.link.jbod.store (a / 65536) (a % 65536 / 256) i := by
  have hd : addr / 65536 < 16 := by omega
  have hb : (addr - addr / 65536 * 65536) / 256 < 256 := by omega
  have hg1 := good_seekDisk st (addr / 65536) hg
  have hg2 := good_seekBlock _ ((addr - addr / 65536 * 65536) / 256) hg1
  obtain ⟨st_r, buf_r, her, hgr, hmr, heR, hcor, hdr, hpr⟩ :=
    mdadm_read_block_coherent F
      ((st.seekDisk (addr / 65536)).seekBlock ((addr - addr / 65536 * 65536) / 256))
      (addr / 65536 * 256 * 256 + (addr - addr / 65536 * 65536) / 256 * 256) (addr / 65536)
      ((addr - addr / 65536 * 65536) / 256) uninit hg2 hm he hco hd hb (by omega)
  obtain ⟨st', he', _, _, hen', hco', _, hov'⟩ :=
    writeLoop_coherent F len st_r len data (addr / 65536) ((addr - addr / 65536 * 65536) / 256)
      (addr - (addr / 65536 * 256 * 256 + (addr - addr / 65536 * 65536) / 256 * 256)) len 0 buf_r
      hgr hmr heR hcor hdr (Nat.le_refl _) hd hb (by omega) (by omega)
  refine ⟨st', ?_, hen', hco', ?_⟩
  · simp only [mdadm_write, JBOD_DISK_SIZE, JBOD_BLOCK_SIZE, JBOD_NUM_BLOCKS_PER_DISK,
      Option.isNone_some, inputCheck_valid addr len false hl hcap (Or.inl rfl), hm, Bool.not_true,
      Bool.or_self, Bool.false_eq_true, if_false]
    rw [jbod_seek_disk F st _ hg hd]
    simp only
    rw [jbod_seek_block F _ _ hg1 (by omega)]
    simp only
    rw [her]
    simp only [Option.getD_some]
    rw [if_neg (by decide)]
    exact he'
  · intro a h1 h2
    have hs := hov' a (by omega) (by omega)
    obtain ⟨img, himg⟩ := Option.isSome_iff_exists.mp hs
    exact ⟨img, himg, hco' _ _ img himg⟩

/-- C21 on a state whose cache holds block 1 of disk 0: a write over blocks 0, 1
and 2 of disk 0 (an update of the entry of block 1, insertions for blocks 0 and 2). -/
theorem mdadm_write_coherent_witness :
    Good warmState.link ∧ Coherent warmState.cache warmState.link.jbod
      ∧ ∃ st', mdadm_write 2 warmState 250 300 (some demoData) = some (((300 : Nat) : Int), st')
        ∧ st'.cache.enabled = true
        ∧ Coherent st'.cache st'.link.jbod
        ∧ ∀ a, 250 ≤ a → a < 250 + 300 →
            ∃ img, st'.cache.entry (a / 65536) (a % 65536 / 256) = some img
              ∧ ∀ i, i < 256 →
                img i = st'.link.jbod.store (a / 65536) (a % 65536 / 256) i :=
  ⟨⟨rfl, rfl, rfl, rfl, rfl⟩, warmState_coherent,
    mdadm_write_coherent 0 warmState 250 300 demoData ⟨rfl, rfl, rfl, rfl, rfl⟩ rfl rfl
      warmState_coherent (by decide) (by decide) (by decide)⟩

end Mdadm
